import Mathlib

/-!
# astxx: the manager message model, the manager connection and the gateway engine

A shallow embedding of `include/astxx/manager/message.h`,
`src/manager/connection.cc`, the actions of `include/astxx/manager/action`
and `src/agi.cc`.

* `std::string` is a list of characters (`Str`), one character for one byte.
* `std::multimap<std::string, std::string>` is the list of its entries in
  iteration order: ascending key, entries of one key in insertion order.
* `std::string::find` and friends return `Option Nat`; `none` is `npos`.
  A position inside a string never equals `npos`, so the source's tests
  `i != npos` on an incremented position always succeed and are dropped.
* The socket is the list of bytes the peer has sent and that were not read
  yet, and the list of bytes written so far.  Reading at the end of the
  input is the failure `io_error` (asio raises `system_error`).
-/

namespace astxx
namespace manager

/-- A `std::string`. -/
abbrev Str := List Char

/-- The two byte line terminator. -/
def CRLF : Str := ['\r', '\n']

/-- The failures raised by the message model and the connection.
`diverged` is not an exception: it marks a loop of the model that used up
its iteration budget. -/
inductive error where
  | io_error
  | empty_header
  | parse_error (desc : Str)
  | unknown_message (type : Str)
  | header_missing (header : Str)
  | diverged
  deriving DecidableEq, Repr

deriving instance DecidableEq for Except

/-! ## std::string helpers -/

/-- The comparison `operator<` of `std::string`: lexicographic, by character code. -/
def str_lt : Str → Str → Bool
  | _, [] => false
  | [], _ :: _ => true
  | a :: as, b :: bs =>
    if a.toNat < b.toNat then true
    else if b.toNat < a.toNat then false
    else str_lt as bs

/-- Whether `p` is an initial segment of `s`. -/
def starts_with : Str → Str → Bool
  | _, [] => true
  | [], _ :: _ => false
  | x :: xs, y :: ys => x == y && starts_with xs ys

/-- The position of the first occurrence of `p` in `s` (`std::string::find`). -/
def find : Str → Str → Option Nat
  | [], p => if starts_with [] p then some 0 else none
  | x :: xs, p =>
    if starts_with (x :: xs) p then some 0
    else (find xs p).map (· + 1)

/-- The position of the first `c` in `s` (`std::string::find_first_of`). -/
def find_first_of : Str → Char → Option Nat
  | [], _ => none
  | x :: xs, c => if x = c then some 0 else (find_first_of xs c).map (· + 1)

/-- The position of the last `c` in `s` (`std::string::find_last_of`). -/
def find_last_of : Str → Char → Option Nat
  | [], _ => none
  | x :: xs, c =>
    match find_last_of xs c with
    | some i => some (i + 1)
    | none => if x = c then some 0 else none

/-! ## basic_message (message.h) -/

/-- The type `header_t`: the entries of the multimap in iteration order. -/
abbrev header_t := List (Str × Str)

/-- The method `multimap::insert`: the new entry goes to the upper bound of its key, that
is, before the first entry with a greater key and after all entries with
an equal key. -/
def multimap_insert (p : Str × Str) : header_t → header_t
  | [] => [p]
  | q :: qs => if str_lt p.1 q.1 then p :: q :: qs else q :: multimap_insert p qs

/-- The first entry of `equal_range(key)`, if the range is not empty. -/
def equal_range_first (key : Str) (headers : header_t) : Option Str :=
  (headers.find? (fun q => q.1 == key)).map (·.2)

/-- Assignment through the reference `equal_range(key).first->second`. -/
def assign_first (key value : Str) : header_t → header_t
  | [] => []
  | q :: qs => if q.1 == key then (q.1, value) :: qs else q :: assign_first key value qs

/-- A `basic_message<message_traits>`; `traits` is `traits.main_header()`. -/
structure basic_message where
  traits : Str
  headers : header_t
  data : Str
  deriving DecidableEq, Repr

namespace basic_message

/-- The read `m[key]` of `operator[]`: the first value of the key; when the key is absent
an entry with the empty value is created first. -/
def index (m : basic_message) (key : Str) : Str × basic_message :=
  match equal_range_first key m.headers with
  | some v => (v, m)
  | none => ([], { m with headers := multimap_insert (key, []) m.headers })

/-- The write `m[key] = value` through `operator[]`. -/
def index_assign (m : basic_message) (key value : Str) : basic_message :=
  match equal_range_first key m.headers with
  | some _ => { m with headers := assign_first key value m.headers }
  | none => { m with headers := multimap_insert (key, value) m.headers }

/-- The constructor `basic_message(const std::string& value)`. -/
def mk_value (traits value : Str) : basic_message :=
  index_assign { traits := traits, headers := [], data := [] } traits value

/-- The method `insert(const header_pair_t&)`. -/
def insert (m : basic_message) (p : Str × Str) : basic_message :=
  { m with headers := multimap_insert p m.headers }

/-- The method `main_header() const`. -/
def main_header (m : basic_message) : Except error Str :=
  match equal_range_first m.traits m.headers with
  | some v => .ok v
  | none => .error (.header_missing m.traits)

/-- The comparison `operator==(const std::string&)`. -/
def eq_string (m : basic_message) (s : Str) : Except error Bool :=
  match m.main_header with
  | .ok v => .ok (v == s)
  | .error e => .error e

/-- The loop of `format()` over the headers, appending to the stream `ss`. -/
def format_loop (traits : Str) : header_t → Str → Str
  | [], ss => ss
  | i :: rest, ss =>
    if i.1 != traits then format_loop traits rest (ss ++ i.1 ++ [':', ' '] ++ i.2 ++ CRLF)
    else format_loop traits rest ss

/-- The method `format()`.  It is not `const`: the message after the call is returned
with the result. -/
def format (m : basic_message) : basic_message × Except error Str :=
  let (v, m1) := m.index m.traits
  if v.isEmpty then (m1, .error (.header_missing m1.traits))
  else
    let (v2, m2) := m1.index m1.traits
    let ss := m2.traits ++ [':', ' '] ++ v2 ++ CRLF
    let ss := format_loop m2.traits m2.headers ss
    (m2, .ok (ss ++ CRLF))

end basic_message

/-- The typedef `message::action`. -/
def action_traits : Str := "Action".toList
/-- The typedef `message::response`. -/
def response_traits : Str := "Response".toList
/-- The typedef `message::event`. -/
def event_traits : Str := "Event".toList

/-! ## The login action (action/login.h) -/

/-- The method `login::action()`. -/
def login_action (username secret : Str) : basic_message :=
  let action := basic_message.mk_value action_traits "Login".toList
  let action := action.index_assign "Username".toList username
  let action := action.index_assign "Secret".toList secret
  action

/-! ## connection (connection.cc) -/

/-- A `basic_action`: the message `action()` builds and the value of `action_id()`. -/
structure basic_action where
  action : basic_message
  action_id : Str
  deriving DecidableEq, Repr

/-- A `response_handler_t`.  `waiter` is `boost::ref(rw)` for the `response_waiter` of
the `send_action` in progress; `callback id` is a handler of the application
that neither sends nor reads on the connection. -/
inductive response_handler_t where
  | waiter
  | callback (id : Nat)
  deriving DecidableEq, Repr

/-- Modelled from the spec: `boost::signal<void (message::event)>`, which is not code of
this repository.  The spec describes an ordered set of subscriber callbacks
whose handle, when released, detaches exactly that callback.  A signal is the
list of its slots in connection order; a slot is the callback (the number
that names a handler of the application, which neither sends nor reads on the
connection) and whether it is still connected. -/
abbrev signal := List (Nat × Bool)

/-- Modelled from the spec: `boost::signals::connection`, the handle `register_event`
returns: the name the signal is stored under and the position of the slot. -/
abbrev subscription := Str × Nat

/-- The type `event_handlers_t`, a `std::map` from event names to signals: its entries;
at most one entry per name is ever inserted, and only `find` and `insert`
are used on it, which do not depend on the order of the entries. -/
abbrev event_handlers_t := List (Str × signal)

/-- The state of a `connection`, with the things its handlers act on:
`rw_response`, the member `response` of the `response_waiter` in progress,
`invoked`, the record of every response handler invocation with its argument,
and `event_invoked`, the record of every event handler invocation. -/
structure connection where
  input : Str
  output : Str
  m_name : Str
  m_version : Str
  events : List basic_message
  responses : List basic_message
  response_handlers : List response_handler_t
  rw_response : basic_message
  invoked : List (response_handler_t × basic_message)
  event_handlers : event_handlers_t
  event_invoked : List (Nat × basic_message)
  deriving DecidableEq, Repr

/-- The method `connection::parse_header`.  `header[i]` at `i = size()` is the terminating NUL. -/
def parse_header (header : Str) : Except error (Str × Str) :=
  if header.isEmpty then .error .empty_header
  else
    match find_first_of header ':' with
    | none => .error (.parse_error ("missing ':' in header: ".toList ++ header))
    | some i =>
      let key := header.take i
      let i := i + 1
      let i := if header.getD i (Char.ofNat 0) = ' ' then i + 1 else i
      .ok (key, header.drop i)

/-- The reading loop of `read_line`: `c` is the byte read last, `line` the bytes read so
far.  Returns the line with its terminator and the bytes left on the socket. -/
def read_line_loop : Str → Char → Str → Except error Str × Str
  | [], _, _ => (.error .io_error, [])
  | x :: rest, c, line =>
    if x = '\n' ∧ c = '\r' then (.ok (line ++ [x]), rest)
    else read_line_loop rest x (line ++ [x])

/-- The method `connection::read_line`. -/
def read_line (c : connection) : Except error Str × connection :=
  match read_line_loop c.input (Char.ofNat 0) [] with
  | (.error e, rest) => (.error e, { c with input := rest })
  | (.ok line, rest) =>
    match find line CRLF with
    | some rn => (.ok (line.take rn), { c with input := rest })
    | none => (.ok line, { c with input := rest })

/-- The marker that ends the output of a command. -/
def END_COMMAND : Str := "--END COMMAND--".toList

/-- The loop `for (;;)` of `read_message` for an event.  The budget bounds the number of
lines; `read_message` passes more than the input can hold. -/
def read_event_loop : Nat → basic_message → connection → Except error basic_message × connection
  | 0, _, c => (.error .diverged, c)
  | n + 1, event, c =>
    match read_line c with
    | (.error e, c1) => (.error e, c1)
    | (.ok line, c1) =>
      if line.isEmpty then (.ok event, c1)
      else
        match parse_header line with
        | .error e => (.error e, c1)
        | .ok p => read_event_loop n (event.insert p) c1

/-- The loop `for (;;)` of `read_message` for a response whose first header has the value
`second`. -/
def read_response_loop (second : Str) :
    Nat → basic_message → connection → Except error basic_message × connection
  | 0, _, c => (.error .diverged, c)
  | n + 1, response, c =>
    match read_line c with
    | (.error e, c1) => (.error e, c1)
    | (.ok line, c1) =>
      if line.isEmpty then (.ok response, c1)
      else if second = "Follows".toList then
        match find line END_COMMAND with
        | some ec => read_response_loop second n { response with data := line.take ec } c1
        | none =>
          match parse_header line with
          | .error e => (.error e, c1)
          | .ok p => read_response_loop second n (response.insert p) c1
      else
        match parse_header line with
        | .error e => (.error e, c1)
        | .ok p => read_response_loop second n (response.insert p) c1

/-- The method `connection::read_message`. -/
def read_message (c : connection) : Except error Unit × connection :=
  match read_line c with
  | (.error e, c1) => (.error e, c1)
  | (.ok line, c1) =>
    match parse_header line with
    | .error e => (.error e, c1)
    | .ok pair =>
      if pair.1 = "Event".toList then
        match read_event_loop (c1.input.length + 1) (basic_message.mk_value event_traits pair.2) c1 with
        | (.error e, c2) => (.error e, c2)
        | (.ok event, c2) => (.ok (), { c2 with events := c2.events ++ [event] })
      else if pair.1 = "Response".toList then
        match read_response_loop pair.2 (c1.input.length + 1)
            (basic_message.mk_value response_traits pair.2) c1 with
        | (.error e, c2) => (.error e, c2)
        | (.ok response, c2) => (.ok (), { c2 with responses := c2.responses ++ [response] })
      else (.error (.unknown_message pair.1), c1)

/-- The part of `connection::connect` after the socket is connected: read the greeting
and split it. -/
def connect (c : connection) : Except error Unit × connection :=
  match read_line c with
  | (.error e, c1) => (.error e, c1)
  | (.ok greeting_line, c1) =>
    match find_last_of greeting_line '/' with
    | some i =>
      (.ok (), { c1 with m_name := greeting_line.take i, m_version := greeting_line.drop (i + 1) })
    | none => (.ok (), c1)

/-- A connection on which nothing happened yet, with `input` waiting on the socket. -/
def connection.fresh (input : Str) : connection :=
  { input := input, output := [], m_name := [], m_version := [], events := [], responses := [],
    response_handlers := [], rw_response := basic_message.mk_value response_traits [],
    invoked := [], event_handlers := [], event_invoked := [] }

/-- The loop of `connection::wait_response`.  The budget bounds the number of messages
read; `wait_response` passes more than the input can hold. -/
def wait_response_loop : Nat → connection → Except error Unit × connection
  | 0, c => if c.responses.isEmpty then (.error .diverged, c) else (.ok (), c)
  | n + 1, c =>
    if c.responses.isEmpty then
      match read_message c with
      | (.error e, c1) => (.error e, c1)
      | (.ok _, c1) => wait_response_loop n c1
    else (.ok (), c)

/-- The method `connection::wait_response`. -/
def wait_response (c : connection) : Except error Unit × connection :=
  wait_response_loop (c.input.length + 1) c

/-- The loop of `connection::wait_event`. -/
def wait_event_loop : Nat → connection → Except error Unit × connection
  | 0, c => if c.events.isEmpty then (.error .diverged, c) else (.ok (), c)
  | n + 1, c =>
    if c.events.isEmpty then
      match read_message c with
      | (.error e, c1) => (.error e, c1)
      | (.ok _, c1) => wait_event_loop n c1
    else (.ok (), c)

/-- The method `connection::wait_event`. -/
def wait_event (c : connection) : Except error Unit × connection :=
  wait_event_loop (c.input.length + 1) c

/-- The method `connection::read_response`.  The queue is not empty when `wait_response`
returns, so the last case is not reached. -/
def read_response (c : connection) : Except error basic_message × connection :=
  match wait_response c with
  | (.error e, c1) => (.error e, c1)
  | (.ok _, c1) =>
    match c1.responses with
    | r :: rs => (.ok r, { c1 with responses := rs })
    | [] => (.error .diverged, c1)

/-- The call `f(r)` of a response handler: the waiter stores the response
(`response_waiter::operator()`), and every call is recorded. -/
def invoke (f : response_handler_t) (r : basic_message) (c : connection) : connection :=
  match f with
  | .waiter => { c with rw_response := r, invoked := c.invoked ++ [(f, r)] }
  | .callback _ => { c with invoked := c.invoked ++ [(f, r)] }

/-- The loop of `connection::process_responses`.  Every turn pops a handler, so the
number of handlers queued bounds the number of turns. -/
def process_responses_loop : Nat → connection → Except error Unit × connection
  | 0, c =>
    if !c.response_handlers.isEmpty && !c.responses.isEmpty then (.error .diverged, c)
    else (.ok (), c)
  | n + 1, c =>
    if !c.response_handlers.isEmpty && !c.responses.isEmpty then
      match c.response_handlers with
      | [] => (.ok (), c)
      | f :: fs =>
        match read_response { c with response_handlers := fs } with
        | (.error e, c1) => (.error e, c1)
        | (.ok r, c1) => process_responses_loop n (invoke f r c1)
    else (.ok (), c)

/-- The method `connection::process_responses`. -/
def process_responses (c : connection) : Except error Unit × connection :=
  process_responses_loop c.response_handlers.length c

/-- The method `connection::send_action_async`.  The write to the socket does not fail in
the model. -/
def send_action_async (command : basic_action) (handler : response_handler_t)
    (c : connection) : Except error Unit × connection :=
  let action := command.action
  let action :=
    if !command.action_id.isEmpty then action.index_assign "ActionID".toList command.action_id
    else action
  match action.format.2 with
  | .error e => (.error e, c)
  | .ok s =>
    (.ok (), { c with output := c.output ++ s, response_handlers := c.response_handlers ++ [handler] })

/-- The method `response_waiter::wait`.  The source gives no bound on the number of turns
of this loop; `budget` is the number of times the condition may be tested. -/
def response_waiter_wait : Nat → connection → Except error basic_message × connection
  | 0, c => (.error .diverged, c)
  | n + 1, c =>
    match c.rw_response.eq_string [] with
    | .error e => (.error e, c)
    | .ok false => (.ok c.rw_response, c)
    | .ok true =>
      match wait_response c with
      | (.error e, c1) => (.error e, c1)
      | (.ok _, c1) =>
        match process_responses c1 with
        | (.error e, c2) => (.error e, c2)
        | (.ok _, c2) => response_waiter_wait n c2

/-- The method `connection::send_action`. -/
def send_action (budget : Nat) (command : basic_action) (c : connection) :
    Except error basic_message × connection :=
  let c := { c with rw_response := basic_message.mk_value response_traits [] }
  match send_action_async command .waiter c with
  | (.error e, c1) => (.error e, c1)
  | (.ok _, c1) => response_waiter_wait budget c1

/-- Repeated `insert`, first pair first. -/
def basic_message.insert_all (m : basic_message) (ps : header_t) : basic_message :=
  ps.foldl basic_message.insert m

/-! ## Event dispatch (connection.cc) -/

/-- Modelled from the spec: `signal::connect`, not code of this repository.  The new slot
goes to the back of the slots; its position is the handle. -/
def signal_connect (s : signal) (f : Nat) : signal × Nat := (s ++ [(f, true)], s.length)

/-- Modelled from the spec: the release of a handle (`boost::signals::connection::disconnect`),
not code of this repository.  It detaches the slot at the position of the
handle and no other. -/
def signal_disconnect : signal → Nat → signal
  | [], _ => []
  | p :: s, 0 => (p.1, false) :: s
  | p :: s, i + 1 => p :: signal_disconnect s i

/-- Modelled from the spec: the call `signal(e)`, not code of this repository.  Every
connected callback is called with the event, in connection order; the result
is the record of the calls. -/
def signal_call (s : signal) (e : basic_message) : List (Nat × basic_message) :=
  (s.filter (·.2)).map (fun p => (p.1, e))

/-- The lookup `event_handlers.find(name)`. -/
def handlers_find (name : Str) (m : event_handlers_t) : Option signal :=
  (m.find? (fun q => q.1 == name)).map (·.2)

/-- The call `event_handlers.insert(std::make_pair(e, new signal))`: an entry with a new
signal is added only when the name has no entry. -/
def handlers_insert (e : Str) (m : event_handlers_t) : event_handlers_t :=
  match handlers_find e m with
  | some _ => m
  | none => m ++ [(e, [])]

/-- The call `ii.first->second->connect(f)` on the entry of the name `e`. -/
def handlers_connect (e : Str) (f : Nat) : event_handlers_t → event_handlers_t × Nat
  | [] => ([], 0)
  | q :: m =>
    if q.1 == e then ((q.1, (signal_connect q.2 f).1) :: m, (signal_connect q.2 f).2)
    else ((handlers_connect e f m).1.cons q, (handlers_connect e f m).2)

/-- The method `connection::register_event`. -/
def register_event (e : Str) (f : Nat) (c : connection) : subscription × connection :=
  let ii := handlers_insert e c.event_handlers
  let r := handlers_connect e f ii
  ((e, r.2), { c with event_handlers := r.1 })

/-- Modelled from the spec: the release of the handle `h` of a connection, which
disconnects its slot in the signal stored under the name of the handle. -/
def handlers_disconnect (h : subscription) : event_handlers_t → event_handlers_t
  | [] => []
  | q :: m =>
    if q.1 == h.1 then (q.1, signal_disconnect q.2 h.2) :: m
    else q :: handlers_disconnect h m

/-- Modelled from the spec: `boost::signals::connection::disconnect` on a handle that
`register_event` returned. -/
def release (h : subscription) (c : connection) : connection :=
  { c with event_handlers := handlers_disconnect h c.event_handlers }

/-- The two statements `i = event_handlers.find(name); if (i != end) (*i->second)(e);`. -/
def call_handlers (name : Str) (e : basic_message) (c : connection) : connection :=
  match handlers_find name c.event_handlers with
  | some s => { c with event_invoked := c.event_invoked ++ signal_call s e }
  | none => c

/-- The loop of `connection::process_events`.  Every turn pops an event and the handlers
of the model queue none, so the number of events queued bounds the number of
turns. -/
def process_events_loop : Nat → connection → Except error Unit × connection
  | 0, c => if !c.events.isEmpty then (.error .diverged, c) else (.ok (), c)
  | n + 1, c =>
    match c.events with
    | [] => (.ok (), c)
    | e :: es =>
      let c1 := { c with events := es }
      match e.main_header with
      | .error err => (.error err, c1)
      | .ok name =>
        let c2 := call_handlers name e c1
        let c3 := call_handlers [] e c2
        process_events_loop n c3

/-- The method `connection::process_events`. -/
def process_events (c : connection) : Except error Unit × connection :=
  process_events_loop c.events.length c

/-! ## The action layer (basic_action.cc, action/*.h) -/

/-- The failures of the action layer; `manager e` is a failure of the message model. -/
inductive exception where
  | manager (e : error)
  | permission_denied
  | authentication_required
  | missing_data (desc : Str) (action : basic_message)
  | bad_data (desc : Str) (action : basic_message)
  | channel_not_found (desc : Str) (action : basic_message)
  | login_error (desc : Str)
  deriving DecidableEq, Repr

/-- The method `basic_action::handle_response`.  The two constants
`permission_error_string` and `authentication_error_string` are declared in
error.h and defined outside the files at hand; they are parameters.
`response` is the by-value parameter: every `response["Message"]` after the
first finds the entry the first one found or created, so one read stands for
all of them. -/
def handle_response (permission_error_string authentication_error_string : Str)
    (self : basic_action) (response : basic_message) : Except exception basic_message :=
  match response.eq_string "Error".toList with
  | .error e => .error (.manager e)
  | .ok false => .ok response
  | .ok true =>
    let message := (response.index "Message".toList).1
    let response := (response.index "Message".toList).2
    if message = permission_error_string then .error .permission_denied
    else if message = authentication_error_string then .error .authentication_required
    else if message = "No timeout specified".toList then .error (.missing_data message self.action)
    else if message = "No channel specified".toList then .error (.missing_data message self.action)
    else if message = "Channel not specified".toList then .error (.missing_data message self.action)
    else if message = "Extension not specified".toList then
      .error (.missing_data message self.action)
    else if message = "No variable specified".toList then .error (.missing_data message self.action)
    else if message = "No value specified".toList then .error (.missing_data message self.action)
    else if message = "Mailbox not specified".toList then .error (.missing_data message self.action)
    else if message = "Invalid priority".toList then .error (.bad_data message self.action)
    else if message = "Invalid channel".toList then .error (.bad_data message self.action)
    else if message = "Invalid timeout".toList then .error (.bad_data message self.action)
    else if message = "No such channel".toList then
      .error (.channel_not_found message self.action)
    else .ok response

/-- The method `login::handle_response`.  The base method gets a copy of `response`, and
what it returns is dropped. -/
def login_handle_response (permission_error_string authentication_error_string : Str)
    (self : basic_action) (response : basic_message) : Except exception basic_message :=
  match handle_response permission_error_string authentication_error_string self response with
  | .error e => .error e
  | .ok _ =>
    match response.eq_string "Success".toList with
    | .error e => .error (.manager e)
    | .ok true => .ok response
    | .ok false => .error (.login_error (response.index "Message".toList).1)

/-- Modelled from the spec: the special values of `boost::posix_time`, not code of this
repository. -/
inductive special_values where
  | not_a_date_time
  | neg_infin
  | pos_infin
  deriving DecidableEq, Repr

/-- Modelled from the spec: `boost::posix_time::time_duration`, not code of this
repository: a special value, or a count of ticks, a tick being a microsecond.
The default value is `ticks 0`. -/
inductive time_duration where
  | special (v : special_values)
  | ticks (n : Int)
  deriving DecidableEq, Repr

/-- Modelled from the spec: `time_duration::is_special`. -/
def time_duration.is_special : time_duration → Bool
  | .special _ => true
  | .ticks _ => false

/-- Modelled from the spec: `time_duration::total_milliseconds`: the whole milliseconds
of a count of ticks, with the rest dropped.  The source does not call it on a
special value. -/
def time_duration.total_milliseconds : time_duration → Int
  | .ticks n => n.tdiv 1000
  | .special _ => 0

/-- The cast `lexical_cast<std::string>` of a whole number: its decimal digits, after a
minus sign when it is negative. -/
def lexical_cast : Int → Str
  | .ofNat n => Nat.toDigits 10 n
  | .negSucc n => '-' :: Nat.toDigits 10 (n + 1)

/-- The members of an `originate`; `m_variables` is the `std::map` in iteration order. -/
structure originate where
  channel : Str
  context : Str
  exten : Str
  priority : Str
  application : Str
  data : Str
  m_timeout : time_duration
  m_caller_id : Str
  m_account : Str
  m_async : Bool
  m_variables : List (Str × Str)
  deriving DecidableEq, Repr

/-- The loop of `originate::action()` over the variables. -/
def originate_variables : List (Str × Str) → basic_message → basic_message
  | [], action => action
  | i :: rest, action =>
    originate_variables rest (action.insert ("Variable".toList, i.1 ++ ['='] ++ i.2))

/-- The method `originate::action()`. -/
def originate_action (o : originate) : basic_message :=
  let action := basic_message.mk_value action_traits "Originate".toList
  let action := action.index_assign "Channel".toList o.channel
  let action :=
    if !o.context.isEmpty then
      ((action.index_assign "Context".toList o.context).index_assign
        "Exten".toList o.exten).index_assign "Priority".toList o.priority
    else
      (action.index_assign "Application".toList o.application).index_assign
        "Data".toList o.data
  let action :=
    if !o.m_timeout.is_special && o.m_timeout != time_duration.ticks 0 then
      action.index_assign "Timeout".toList (lexical_cast o.m_timeout.total_milliseconds)
    else if o.m_timeout == time_duration.special special_values.pos_infin then
      action.index_assign "Timeout".toList "-1".toList
    else action
  let action :=
    if !o.m_caller_id.isEmpty then action.index_assign "CallerID".toList o.m_caller_id
    else action
  let action :=
    if !o.m_account.isEmpty then action.index_assign "Account".toList o.m_account
    else action
  let action :=
    if o.m_async then action.index_assign "Async".toList "true".toList
    else action
  originate_variables o.m_variables action

/-- The method `user_event::action()`.  The loop variable `i` is declared without a value,
`for (const_iterator i; i != headers.end(); ++i)`, so what it holds when the
loop starts is not fixed by the source: it is the parameter `i`, the position
in `headers` it stands for, or `none` when it stands for no position of
`headers`, in which case the source fixes no result at all. -/
def user_event_action (event : Str) (headers : header_t) (i : Option Nat) :
    Option basic_message :=
  let action := basic_message.mk_value action_traits "UserEvent".toList
  let action := action.index_assign "UserEvent".toList event
  match i with
  | none => none
  | some k => if k ≤ headers.length then some (action.insert_all (headers.drop k)) else none

end manager

/-! ## The gateway engine (agi.h, agi.cc)

The process reads the replies of the peer from `std::cin` and writes its
commands to `std::cout`.  A stream is the list of characters not read yet
together with its state bits; the end of the list is the end of the input.
-/

open manager

/-- A `std::istream`, `std::cin` or a `std::istringstream`: the characters not read yet,
`eofbit` and `failbit`. -/
structure istream where
  buf : Str
  eofbit : Bool
  failbit : Bool
  deriving DecidableEq, Repr

/-- The classification `std::isspace` in the "C" locale. -/
def isspace (c : Char) : Bool :=
  c == ' ' || c == '\t' || c == '\n' || c == '\x0b' || c == '\x0c' || c == '\r'

/-- The least value of `int`. -/
def int_min : Int := -2147483648

/-- The greatest value of `int`. -/
def int_max : Int := 2147483647

/-- The least value of `long`. -/
def long_min : Int := -9223372036854775808

/-- The greatest value of `long`. -/
def long_max : Int := 9223372036854775807

/-- The number a run of decimal digits stands for. -/
def digits_value (ds : Str) : Nat :=
  ds.foldl (fun n c => 10 * n + (c.toNat - '0'.toNat)) 0

namespace istream

/-- The constructor `std::istringstream(str)`. -/
def of_string (str : Str) : istream := { buf := str, eofbit := false, failbit := false }

/-- The test `good()`. -/
def good (s : istream) : Bool := !s.eofbit && !s.failbit

/-- The test `fail()`, which is also `!stream` in a condition. -/
def fail (s : istream) : Bool := s.failbit

/-- The call `clear()`. -/
def clear (s : istream) : istream := { s with eofbit := false, failbit := false }

/-- The call `str(t)` of a string stream: the characters are replaced, the state bits
are left as they are. -/
def str (s : istream) (t : Str) : istream := { s with buf := t }

/-- The construction of `istream::sentry`, with which every input function starts.  On
a stream that is not `good()` it sets `failbit` and the function reads
nothing.  Unless `noskipws` it skips white space first, and the end of the
input found there sets `eofbit` and `failbit`. -/
def sentry (s : istream) (noskipws : Bool) : Bool × istream :=
  if !s.good then (false, { s with failbit := true })
  else if noskipws then (true, s)
  else if (s.buf.dropWhile isspace).isEmpty then
    (false, { buf := [], eofbit := true, failbit := true })
  else (true, { s with buf := s.buf.dropWhile isspace })

/-- The call `peek()`; `none` is `traits::eof()`. -/
def peek (s : istream) : Option Char × istream :=
  if (s.sentry true).1 then
    match s.buf with
    | [] => (none, { s with eofbit := true })
    | c :: _ => (some c, s)
  else (none, (s.sentry true).2)

/-- The loop of `ignore(n, delim)`: the characters left and whether the end of the input
was met.  At most `n` characters are taken; the delimiter is taken and ends
the loop. -/
def ignore_loop (delim : Option Char) : Nat → Str → Str × Bool
  | 0, b => (b, false)
  | _ + 1, [] => ([], true)
  | n + 1, c :: b => if some c = delim then (b, false) else ignore_loop delim n b

/-- The call `ignore(n, delim)`; the delimiter `none` is `traits::eof()`, the default. -/
def ignore (s : istream) (n : Nat) (delim : Option Char) : istream :=
  if (s.sentry true).1 then
    { s with buf := (ignore_loop delim n s.buf).1, eofbit := (ignore_loop delim n s.buf).2 }
  else (s.sentry true).2

/-- The call `std::getline(s, str, delim)`: the string read and the stream.  When the
sentry fails `str` is left as it is.  Otherwise the characters before the
delimiter are read and the delimiter is taken; the end of the input sets
`eofbit`, and `failbit` too when nothing at all was taken. -/
def getline (s : istream) (str : Str) (delim : Char) : Str × istream :=
  if (s.sentry true).1 then
    match s.buf.dropWhile (fun c => c != delim) with
    | [] =>
      (s.buf.takeWhile (fun c => c != delim),
        { buf := [], eofbit := true, failbit := s.buf.isEmpty })
    | _ :: rest => (s.buf.takeWhile (fun c => c != delim), { s with buf := rest })
  else (str, (s.sentry true).2)

/-- The extraction `s >> str` of a `std::string`: white space is skipped, then the
characters up to the next white space or the end of the input are read. -/
def extract_string (s : istream) (str : Str) : Str × istream :=
  if (s.sentry false).1 then
    ((s.sentry false).2.buf.takeWhile (fun c => !isspace c),
      { buf := (s.sentry false).2.buf.dropWhile (fun c => !isspace c),
        eofbit := ((s.sentry false).2.buf.dropWhile (fun c => !isspace c)).isEmpty,
        failbit := ((s.sentry false).2.buf.takeWhile (fun c => !isspace c)).isEmpty })
  else (str, (s.sentry false).2)

/-- The characters after an optional sign. -/
def after_sign (b : Str) : Str :=
  match b with
  | '-' :: r => r
  | '+' :: r => r
  | _ => b

/-- The extraction `s >> v` of an integer of the range `lo` to `hi` in base ten: white
space is skipped, then a sign and the digits that follow are read.  Without
a digit the value is 0 and `failbit` is set; a number out of the range gives
the nearest bound and sets `failbit`; when the sentry fails `v` is left as
it is. -/
def extract_int (s : istream) (lo hi : Int) (v : Int) : Int × istream :=
  if (s.sentry false).1 then
    let b := after_sign (s.sentry false).2.buf
    let ds := b.takeWhile Char.isDigit
    let rest := b.dropWhile Char.isDigit
    let x : Int :=
      if (s.sentry false).2.buf.head? = some '-' then -(digits_value ds : Int)
      else (digits_value ds : Int)
    if ds.isEmpty then (0, { buf := rest, eofbit := rest.isEmpty, failbit := true })
    else if x < lo then (lo, { buf := rest, eofbit := rest.isEmpty, failbit := true })
    else if hi < x then (hi, { buf := rest, eofbit := rest.isEmpty, failbit := true })
    else (x, { buf := rest, eofbit := rest.isEmpty, failbit := false })
  else (v, (s.sentry false).2)

end istream

/-- The insertion `stream << n` of a whole number: its decimal digits, after a minus
sign when it is negative. -/
def put_int (n : Int) : Str := lexical_cast n

/-- The state of the process the class `agi` works on: `std::cin`, what was written to
`std::cout`, the environment `env` in iteration order, and the two flags the
signal handlers set. -/
structure agi where
  cin : istream
  cout : Str
  env : List (Str × Str)
  got_sighup : Bool
  got_sigpipe : Bool
  deriving DecidableEq, Repr

/-- The exceptions of `agi.h` that `agi.cc` throws.  `out_of_range` is the
`std::out_of_range` of `std::string::substr`; `diverged` is not an
exception: it marks a loop of the model that used up its iteration budget. -/
inductive agi.error where
  | unknown_error (error_code : Int) (desc : Str)
  | usage_error (desc : Str)
  | invalid_command (desc : Str)
  | io_error (desc : Str)
  | application_error (desc : Str)
  | hangup_signal
  | hangup_result
  | database_error (desc : Str)
  | out_of_range
  | diverged
  deriving DecidableEq, Repr

set_option linter.dupNamespace false in
/-- The struct `agi::result`. -/
structure agi.result where
  code : Int
  message : Str
  result : Int
  result_string : Str
  data : Str
  endpos : Int
  deriving DecidableEq, Repr

namespace agi

/-- The helper `quote(const std::string)`. -/
def quote (item : Str) : Str := ['"'] ++ item ++ ['"']

/-- The helper `quote(char)`: the character 0 gives nothing between the quotes. -/
def quote_char (item : Char) : Str :=
  ['"'] ++ (if item.toNat ≠ 0 then [item] else []) ++ ['"']

/-- The method `send_command`: the command and `std::endl`. -/
def send_command (a : agi) (command : Str) : agi :=
  { a with cout := a.cout ++ command ++ ['\n'] }

/-- The method `test_hangup`. -/
def test_hangup (a : agi) : Except agi.error Unit :=
  if a.got_sighup then .error .hangup_signal else .ok ()

/-- The method `clear`. -/
def clear (a : agi) : agi := { a with got_sighup := false, got_sigpipe := false }

/-- The end of `case 200` in `get_result`: "extract endpos if applicable", on the
stream `message` after `message.str(end_str)`. -/
def get_result_endpos (result : agi.result) (message : istream) (end_str : Str) :
    agi.result :=
  if (find end_str "endpos=".toList).isSome then
    { result with
      endpos := ((message.ignore 32 (some '=')).extract_int long_min long_max
        result.endpos).1 }
  else result

/-- The `case 200` of the switch in `get_result`, on the result whose `code` and
`message` have been read. -/
def get_result_200 (result : agi.result) : Except agi.error agi.result :=
  let message := (istream.of_string result.message).ignore 32 (some '=')
  let p := message.peek
  let t : agi.result × istream :=
    if p.1 ≠ some ' ' then
      let e := p.2.extract_string result.result_string
      let ss := (istream.of_string e.1).extract_int int_min int_max result.result
      ({ result with result_string := e.1, result := if ss.2.fail then 0 else ss.1 }, e.2)
    else
      ({ result with result_string := [], result := 0 }, p.2.ignore 1 none)
  match find result.message "(".toList with
  | some _ =>
    let d := (t.2.ignore 32 (some '(')).getline t.1.data '\n'
    match find_last_of d.1 ')' with
    | none => .error .out_of_range
    | some token =>
      .ok (get_result_endpos { t.1 with data := d.1.take token } (d.2.str (d.1.drop token))
        (d.1.drop token))
  | none =>
    let d := t.2.getline [] '\n'
    .ok (get_result_endpos t.1 (d.2.str d.1) d.1)

/-- The loop of `case 520` in `get_result`: `message` after the loop and `std::cin`.
A line is read; when it starts with a whole number the loop ends if the
number is 520 and goes on otherwise; a line that does not is added to
`message` (the `message.clear()` there acts on the stream of that line only).
`fuel` bounds the number of lines read. -/
def get_result_520 (uninit : Int) : Nat → istream → Str → Except agi.error Str × istream
  | 0, cin, _ => (.error .diverged, cin)
  | fuel + 1, cin, message =>
    if (cin.getline [] '\n').2.fail then (.ok message, (cin.getline [] '\n').2)
    else
      let m := (istream.of_string (cin.getline [] '\n').1).extract_int int_min int_max uninit
      if !m.2.fail then
        if m.1 = 520 then (.ok message, (cin.getline [] '\n').2)
        else get_result_520 uninit fuel (cin.getline [] '\n').2 message
      else get_result_520 uninit fuel (cin.getline [] '\n').2 (message ++ (cin.getline [] '\n').1)

/-- The text `get_result` adds to the message of a reply with the code 510. -/
def invalid_command_suffix : Str :=
  ".  This could be a bug in Astxx, or your Asterisk installation may be too old.".toList

/-- The method `get_result`.  The declaration `agi::result result;` gives no value to
the members `code`, `result` and `endpos`; `uninit` is what they hold then. -/
def get_result (uninit : Int) (a : agi) : Except agi.error agi.result × agi :=
  let c := a.cin.extract_int int_min int_max uninit
  if c.2.fail then
    (.error (.io_error "There was a error reading from the Asterisk server".toList),
      { a with cin := c.2.clear })
  else
    let p := c.2.peek
    let l := (if p.1 = some ' ' then p.2.ignore 1 none else p.2).getline [] '\n'
    let result : agi.result :=
      { code := c.1, message := l.1, result := uninit, result_string := [], data := [],
        endpos := uninit }
    if c.1 = 200 then (get_result_200 result, { a with cin := l.2 })
    else if c.1 = 510 then
      (.error (.invalid_command (l.1 ++ invalid_command_suffix)), { a with cin := l.2 })
    else if c.1 = 520 then
      match get_result_520 uninit (l.2.buf.length + 1) l.2 l.1 with
      | (.ok message, cin) => (.error (.usage_error message), { a with cin := cin })
      | (.error e, cin) => (.error e, { a with cin := cin })
    else (.error (.unknown_error c.1 l.1), { a with cin := l.2 })

/-- The method `execute`. -/
def execute (uninit : Int) (a : agi) (command : Str) : Except agi.error agi.result × agi :=
  match a.test_hangup with
  | .error e => (.error e, a)
  | .ok _ =>
    match (a.send_command command).get_result uninit with
    | (.error e, a1) => (.error e, a1)
    | (.ok result, a1) =>
      if result.data = "hangup".toList then (.error .hangup_result, a1)
      else if result.result = -1 then
        (.error (.application_error
          "An error occured executing an agi command or the channel was hungup".toList), a1)
      else if a1.got_sigpipe then (.error (.io_error "Received SIGPIPE".toList), a1)
      else (.ok result, a1)

end agi

namespace agi

/-- The conversion of an `int` to the `char` a command returns: the byte of that value. -/
def char_of_int (n : Int) : Nat := (n % 256).toNat

/-- The default `control_stream_file_skip_time`. -/
def control_stream_file_skip_time : Int := 3000

/-- The default `get_data_max_digits`. -/
def get_data_max_digits : Int := 1024

/-- The command `control_stream_file` executes: `ss.str()`. -/
def control_stream_file_command (filename escape_digits : Str) (skip_time : Int)
    (fastforward rewind pause : Char) : Str :=
  let ss := "STREAM FILE ".toList ++ quote filename ++ " ".toList ++ quote escape_digits
  let ss :=
    if skip_time ≠ control_stream_file_skip_time ∨ fastforward.toNat ≠ 0 ∨ rewind.toNat ≠ 0
        ∨ pause.toNat ≠ 0 then
      ss ++ " ".toList ++ put_int skip_time
    else ss
  let ss :=
    if fastforward.toNat ≠ 0 ∨ rewind.toNat ≠ 0 ∨ pause.toNat ≠ 0 then
      ss ++ " ".toList ++ quote_char fastforward
    else ss
  let ss :=
    if rewind.toNat ≠ 0 ∨ pause.toNat ≠ 0 then ss ++ " ".toList ++ quote_char rewind else ss
  if pause.toNat ≠ 0 then ss ++ " ".toList ++ quote_char pause else ss

/-- The method `control_stream_file`. -/
def control_stream_file (uninit : Int) (a : agi) (filename escape_digits : Str)
    (skip_time : Int) (fastforward rewind pause : Char) : Except agi.error Nat × agi :=
  let r := a.execute uninit
    (control_stream_file_command filename escape_digits skip_time fastforward rewind pause)
  (r.1.map (fun x => char_of_int x.result), r.2)

/-- The command `database_del` executes. -/
def database_del_command (family key : Str) : Str :=
  "DATABASE DEL ".toList ++ quote family ++ " ".toList ++ quote key

/-- The method `database_del`. -/
def database_del (uninit : Int) (a : agi) (family key : Str) : Except agi.error Unit × agi :=
  match a.execute uninit (database_del_command family key) with
  | (.error e, a1) => (.error e, a1)
  | (.ok result, a1) =>
    if result.result = 0 then
      (.error (.database_error "Error deleting database value".toList), a1)
    else (.ok (), a1)

/-- The command `database_deltree` executes. -/
def database_deltree_command (family keytree : Str) : Str :=
  "DATABASE DELTREE ".toList ++ quote family ++ " ".toList ++ quote keytree

/-- The method `database_deltree`. -/
def database_deltree (uninit : Int) (a : agi) (family keytree : Str) :
    Except agi.error Unit × agi :=
  match a.execute uninit (database_deltree_command family keytree) with
  | (.error e, a1) => (.error e, a1)
  | (.ok result, a1) =>
    if result.result = 0 then
      (.error (.database_error "Error deleting database family/keytree".toList), a1)
    else (.ok (), a1)

/-- The command `database_get` executes. -/
def database_get_command (family key : Str) : Str :=
  "DATABASE GET ".toList ++ quote family ++ " ".toList ++ quote key

/-- The method `database_get`. -/
def database_get (uninit : Int) (a : agi) (family key : Str) : Except agi.error Str × agi :=
  let r := a.execute uninit (database_get_command family key)
  (r.1.map (fun x => x.data), r.2)

/-- The command `database_put` executes. -/
def database_put_command (family key value : Str) : Str :=
  "DATABASE PUT ".toList ++ quote family ++ " ".toList ++ quote key ++ quote value

/-- The method `database_put`. -/
def database_put (uninit : Int) (a : agi) (family key value : Str) :
    Except agi.error Unit × agi :=
  match a.execute uninit (database_put_command family key value) with
  | (.error e, a1) => (.error e, a1)
  | (.ok result, a1) =>
    if result.result = 0 then
      (.error (.database_error "Error putting value in Asterisk database".toList), a1)
    else (.ok (), a1)

/-- The command `exec` executes. -/
def exec_command (app options : Str) : Str :=
  "EXEC ".toList ++ quote app ++ " ".toList ++ quote options

/-- The method `exec`. -/
def exec (uninit : Int) (a : agi) (app options : Str) : Except agi.error Int × agi :=
  let r := a.execute uninit (exec_command app options)
  (r.1.map (fun x => x.result), r.2)

/-- The command `get_data` executes: `ss.str()`. -/
def get_data_command (file : Str) (timeout max_digits : Int) : Str :=
  let ss := "GET DATA ".toList ++ file
  let ss :=
    if timeout ≠ 0 ∨ max_digits ≠ get_data_max_digits then ss ++ " ".toList ++ put_int timeout
    else ss
  if max_digits ≠ get_data_max_digits then ss ++ " ".toList ++ put_int max_digits else ss

/-- The method `get_data`. -/
def get_data (uninit : Int) (a : agi) (file : Str) (timeout max_digits : Int) :
    Except agi.error Str × agi :=
  let r := a.execute uninit (get_data_command file timeout max_digits)
  (r.1.map (fun x => x.result_string), r.2)

/-- The command `get_option` executes: `ss.str()`. -/
def get_option_command (file escape_digits : Str) (timeout : Int) : Str :=
  let ss := "GET OPTION ".toList ++ quote file ++ " ".toList ++ quote escape_digits
  if timeout ≠ 0 then ss ++ " ".toList ++ put_int timeout else ss

/-- The method `get_option`. -/
def get_option (uninit : Int) (a : agi) (file escape_digits : Str) (timeout : Int) :
    Except agi.error Nat × agi :=
  let r := a.execute uninit (get_option_command file escape_digits timeout)
  (r.1.map (fun x => char_of_int x.result), r.2)

/-- The command `get_variable` executes. -/
def get_variable_command (variable_name : Str) : Str :=
  "GET VARIABLE ".toList ++ quote variable_name

/-- The method `get_variable`: the result `"hangup"` is caught and returned as the
data. -/
def get_variable (uninit : Int) (a : agi) (variable_name : Str) : Except agi.error Str × agi :=
  match a.execute uninit (get_variable_command variable_name) with
  | (.error .hangup_result, a1) => (.ok "hangup".toList, a1)
  | (.error e, a1) => (.error e, a1)
  | (.ok result, a1) => (.ok result.data, a1)

/-- The command `record_file` executes: `ss.str()`. -/
def record_file_command (filename format escape_digits : Str) (timeout silence : Int)
    (beep : Bool) (offset : Int) : Str :=
  let ss := "RECORD FILE ".toList ++ quote filename ++ " ".toList ++ quote format
    ++ " ".toList ++ quote escape_digits ++ " ".toList ++ put_int timeout
  let ss := if offset ≠ 0 then ss ++ " ".toList ++ put_int offset else ss
  let ss := if beep then ss ++ " BEEP".toList else ss
  if silence ≠ 0 then ss ++ " s=".toList ++ put_int silence else ss

/-- The method `record_file`. -/
def record_file (uninit : Int) (a : agi) (filename format escape_digits : Str)
    (timeout silence : Int) (beep : Bool) (offset : Int) : Except agi.error Nat × agi :=
  let r := a.execute uninit
    (record_file_command filename format escape_digits timeout silence beep offset)
  (r.1.map (fun x => char_of_int x.result), r.2)

/-- The command `say_alpha(const std::string&, ...)` executes. -/
def say_alpha_command (alphanum escape_digits : Str) : Str :=
  "SAY ALPHA ".toList ++ quote alphanum ++ " ".toList ++ quote escape_digits

/-- The method `say_alpha(const std::string&, ...)`. -/
def say_alpha (uninit : Int) (a : agi) (alphanum escape_digits : Str) :
    Except agi.error Nat × agi :=
  let r := a.execute uninit (say_alpha_command alphanum escape_digits)
  (r.1.map (fun x => char_of_int x.result), r.2)

/-- The command `say_datetime` executes: `ss.str()`. -/
def say_datetime_command (date : Int) (escape_digits format timezone : Str) : Str :=
  let ss := "SAY DATETIME ".toList ++ put_int date ++ " ".toList ++ quote escape_digits
  let ss :=
    if ¬ format.isEmpty ∨ ¬ timezone.isEmpty then ss ++ " ".toList ++ quote format else ss
  if ¬ timezone.isEmpty then ss ++ " ".toList ++ quote timezone else ss

/-- The method `say_datetime`. -/
def say_datetime (uninit : Int) (a : agi) (date : Int) (escape_digits format timezone : Str) :
    Except agi.error Nat × agi :=
  let r := a.execute uninit (say_datetime_command date escape_digits format timezone)
  (r.1.map (fun x => char_of_int x.result), r.2)

/-- The command `set_variable` executes. -/
def set_variable_command (variable_name value : Str) : Str :=
  "SET VARIABLE ".toList ++ quote variable_name ++ " ".toList ++ quote value

/-- The method `set_variable`. -/
def set_variable (uninit : Int) (a : agi) (variable_name value : Str) : Except agi.error Unit × agi :=
  let r := a.execute uninit (set_variable_command variable_name value)
  (r.1.map (fun _ => ()), r.2)

/-- The command `stream_file` executes: `ss.str()`. -/
def stream_file_command (filename escape_digits : Str) (offset : Int) : Str :=
  let ss := "STREAM FILE ".toList ++ quote filename ++ " ".toList ++ quote escape_digits
  if offset ≠ 0 then ss ++ " ".toList ++ put_int offset else ss

/-- The method `stream_file`. -/
def stream_file (uninit : Int) (a : agi) (filename escape_digits : Str) (offset : Int) :
    Except agi.error Nat × agi :=
  let r := a.execute uninit (stream_file_command filename escape_digits offset)
  (r.1.map (fun x => char_of_int x.result), r.2)

/-- The call `text.find(c, pos)`. -/
def find_from (text : Str) (c : Char) (pos : Nat) : Option Nat :=
  (find_first_of (text.drop pos) c).map (· + pos)

/-- The call `text.substr(pos, n)` for a position inside `text`; the count `none` is
`npos`. -/
def substr (text : Str) (pos : Nat) (n : Option Nat) : Str :=
  match n with
  | none => text.drop pos
  | some k => (text.drop pos).take k

/-- The command one turn of the loop of `verbose` executes: `ss.str()`. -/
def verbose_command (text : Str) (level : Int) (start_pos : Nat) (end_pos : Option Nat) :
    Str :=
  "VERBOSE ".toList ++ quote (substr text start_pos (end_pos.map (· - start_pos)))
    ++ " ".toList ++ put_int level

/-- The loop of `verbose`, entered with `start_pos`; `fuel` bounds the number of turns. -/
def verbose_loop (uninit : Int) (text : Str) (level : Int) :
    Nat → Nat → agi → Except agi.error Unit × agi
  | 0, _, a => (.error .diverged, a)
  | fuel + 1, start_pos, a =>
    match a.execute uninit
        (verbose_command text level start_pos (find_from text '\n' start_pos)) with
    | (.error e, a1) => (.error e, a1)
    | (.ok _, a1) =>
      match find_from text '\n' start_pos with
      | none => (.ok (), a1)
      | some end_pos => verbose_loop uninit text level fuel (end_pos + 1) a1

/-- The method `verbose`. -/
def verbose (uninit : Int) (a : agi) (text : Str) (level : Int) : Except agi.error Unit × agi :=
  verbose_loop uninit text level (text.length + 1) 0 a

end agi

/-! ### The environment (agi.cc) -/

/-- The method `std::map::insert` on the entries in iteration order: an entry whose key
the map already has is not inserted; a new entry goes to its place in key
order. -/
def map_insert (p : Str × Str) (m : List (Str × Str)) : List (Str × Str) :=
  match equal_range_first p.1 m with
  | some _ => m
  | none => multimap_insert p m

namespace agi

/-- The operator `agi::operator[]`, which is `return env[key];`: `std::map::operator[]`
gives the value of the key, and for a key the map does not have it first
inserts the key with an empty value. -/
def index (a : agi) (key : Str) : Str × agi :=
  match equal_range_first key a.env with
  | some v => (v, a)
  | none => ([], { a with env := multimap_insert (key, []) a.env })

/-- The pairs an iteration from `begin()` to `end()` goes through. -/
def begin_end (a : agi) : List (Str × Str) := a.env

/-- The loop of `read_env`.  The source gives no bound on the number of turns of this
loop; `budget` is the number of times the condition may be tested. -/
def read_env_loop : Nat → agi → Except agi.error Unit × agi
  | 0, a => (.error .diverged, a)
  | budget + 1, a =>
    if a.cin.peek.1 = some '\n' then (.ok (), { a with cin := a.cin.peek.2 })
    else
      let key := a.cin.peek.2.getline [] ':'
      let p := key.2.peek
      let value := (if p.1 = some ' ' then p.2.ignore 1 none else p.2).getline [] '\n'
      read_env_loop budget { a with cin := value.2, env := map_insert (key.1, value.1) a.env }

/-- The method `read_env`. -/
def read_env (budget : Nat) (a : agi) : Except agi.error Unit × agi :=
  read_env_loop budget a

/-- The part of `case 200` in `get_result` that reads the result token: the result with
`result_string` and `result` set, and the stream `message` after it. -/
def get_result_200_token (result : agi.result) : agi.result × istream :=
  let message := (istream.of_string result.message).ignore 32 (some '=')
  let p := message.peek
  if p.1 ≠ some ' ' then
    let e := p.2.extract_string result.result_string
    let ss := (istream.of_string e.1).extract_int int_min int_max result.result
    ({ result with result_string := e.1, result := if ss.2.fail then 0 else ss.1 }, e.2)
  else
    ({ result with result_string := [], result := 0 }, p.2.ignore 1 none)

end agi

/-! ## Notions used to state the properties of the gateway engine -/

/-- The process before its first read: `input` on `std::cin`, nothing written, no flag
set. -/
def agi.on_input (input : Str) : agi :=
  { cin := istream.of_string input, cout := [], env := [], got_sighup := false,
    got_sigpipe := false }

/-- The optional arguments a command line ends with.  Each argument comes with its text
and with whether it has its default value; the arguments up to the last one
that differs from its default are written, each after one space. -/
def optional_prefix (opts : List (Str × Bool)) : Str :=
  ((opts.take (opts.length - (opts.reverse.takeWhile (fun q => q.2)).length)).map
    (fun q => ' ' :: q.1)).flatten

/-- The segments of a text between its newline characters. -/
def segments : Str → List Str
  | [] => [[]]
  | c :: cs =>
    if c = '\n' then [] :: segments cs
    else
      match segments cs with
      | [] => [[c]]
      | s :: ss => (c :: s) :: ss

/-- The commands `VERBOSE`, one for each segment of the text. -/
def verbose_commands (text : Str) (level : Int) : List Str :=
  (segments text).map
    (fun s => "VERBOSE ".toList ++ agi.quote s ++ " ".toList ++ put_int level)

/-- The commands of a list executed one after the other, up to the first that fails. -/
def execute_all (uninit : Int) : List Str → agi → Except agi.error Unit × agi
  | [], a => (.ok (), a)
  | command :: rest, a =>
    match a.execute uninit command with
    | (.error e, a1) => (.error e, a1)
    | (.ok _, a1) => execute_all uninit rest a1

/-- A text with one leading space removed, if it has one. -/
def strip_space : Str → Str
  | ' ' :: r => r
  | r => r

/-- A line of the environment block: the name, a colon, the text after the colon and the
newline. -/
def env_line (q : Str × Str) : Str := q.1 ++ ':' :: q.2 ++ ['\n']

/-- The lines of an environment block, one after the other. -/
def env_block (lines : List (Str × Str)) : Str := (lines.map env_line).flatten

/-- The pairs of an environment block: each name with its value, the text after the colon
without one leading space. -/
def env_pairs (lines : List (Str × Str)) : List (Str × Str) :=
  lines.map (fun q => (q.1, strip_space q.2))

/-- A line of the environment block is well formed: no colon and no newline in the name,
no newline in the text after the colon. -/
def env_line_ok (q : Str × Str) : Prop := ':' ∉ q.1 ∧ '\n' ∉ q.1 ∧ '\n' ∉ q.2

namespace manager

/-! ## Notions used to state the properties -/

/-- The text of one header line: name, colon, space, value. -/
def header_text (q : Str × Str) : Str := q.1 ++ [':', ' '] ++ q.2

/-- The wire form of one header: name, colon, space, value, line terminator. -/
def header_line (q : Str × Str) : Str := q.1 ++ [':', ' '] ++ q.2 ++ CRLF

/-- The wire form of a list of headers, one line each, in the order of the list. -/
def header_lines : header_t → Str
  | [] => []
  | q :: qs => header_line q ++ header_lines qs

/-- The bytes of a sequence of lines, each followed by its terminator. -/
def wire_lines : List Str → Str
  | [] => []
  | l :: ls => l ++ CRLF ++ wire_lines ls

/-- Parse every line of a list as a header; the failure is that of the first line that
does not parse. -/
def parse_headers : List Str → Except error header_t
  | [] => .ok []
  | l :: ls =>
    match parse_header l with
    | .error e => .error e
    | .ok p =>
      match parse_headers ls with
      | .error e => .error e
      | .ok ps => .ok (p :: ps)

/-- What the body of the response loop of `read_message` does with one line after the
other, on lines already split. -/
def response_lines (second : Str) : List Str → basic_message → Except error basic_message
  | [], response => .ok response
  | line :: ls, response =>
    if second = "Follows".toList then
      match find line END_COMMAND with
      | some ec => response_lines second ls { response with data := line.take ec }
      | none =>
        match parse_header line with
        | .error e => .error e
        | .ok p => response_lines second ls (response.insert p)
    else
      match parse_header line with
      | .error e => .error e
      | .ok p => response_lines second ls (response.insert p)

/-- What the body of the event loop of `read_message` does with one line after the
other, on lines already split. -/
def event_lines : List Str → basic_message → Except error basic_message
  | [], event => .ok event
  | line :: ls, event =>
    match parse_header line with
    | .error e => .error e
    | .ok p => event_lines ls (event.insert p)

/-- The bytes `bytes` are one event on the wire: wherever they stand at the front of the
input, `read_message` reads exactly them and queues the event `e`. -/
def event_frame (bytes : Str) (e : basic_message) : Prop :=
  ∀ (c : connection) (rest : Str), c.input = bytes ++ rest →
    read_message c = (.ok (), { c with input := rest, events := c.events ++ [e] })

/-- The bytes `bytes` are one response on the wire: wherever they stand at the front of
the input, `read_message` reads exactly them and queues the response `r`. -/
def response_frame (bytes : Str) (r : basic_message) : Prop :=
  ∀ (c : connection) (rest : Str), c.input = bytes ++ rest →
    read_message c = (.ok (), { c with input := rest, responses := c.responses ++ [r] })

/-- The bytes of a sequence of messages on the wire, each given with its bytes. -/
def frames_bytes : List (Str × basic_message) → Str
  | [] => []
  | x :: xs => x.1 ++ frames_bytes xs

/-- What the waiter slot holds after the handlers of `calls` ran in order. -/
def rw_after (calls : List (response_handler_t × basic_message)) (rw : basic_message) :
    basic_message :=
  calls.foldl (fun rw p => match p.1 with
    | .waiter => p.2
    | .callback _ => rw) rw

/-- One synchronous call of a session, with what the peer sends for it: the events
that arrive before the response, and the response, each with its bytes. -/
structure exchange where
  command : basic_action
  events : List (Str × basic_message)
  reply : Str × basic_message

/-- The inbound bytes of a session: for every call its events, then its response. -/
def session_bytes : List exchange → Str
  | [] => []
  | x :: xs => frames_bytes x.events ++ x.reply.1 ++ session_bytes xs

/-- The events of a session in arrival order. -/
def session_events : List exchange → List basic_message
  | [] => []
  | x :: xs => x.events.map (·.2) ++ session_events xs

/-- The message `send_action_async` serializes for a command. -/
def sent_message (command : basic_action) : basic_message :=
  if !command.action_id.isEmpty then
    command.action.index_assign "ActionID".toList command.action_id
  else command.action

/-- The bytes a session writes: the serialized actions in call order. -/
def session_output : List exchange → Str
  | [] => []
  | x :: xs =>
    (match (sent_message x.command).format.2 with
      | .ok s => s
      | .error _ => []) ++ session_output xs

/-- A session of synchronous calls: `send_action` for each command in turn, collecting
the responses returned; it stops at the first call that raises. -/
def send_actions (budget : Nat) :
    List basic_action → connection → Except error (List basic_message) × connection
  | [], c => (.ok [], c)
  | a :: as, c =>
    match send_action budget a c with
    | (.error e, c1) => (.error e, c1)
    | (.ok r, c1) =>
      match send_actions budget as c1 with
      | (.error e, c2) => (.error e, c2)
      | (.ok rs, c2) => (.ok (r :: rs), c2)

/-- The callbacks connected to the signal stored under `name`, in connection order. -/
def subscribers (name : Str) (handlers : event_handlers_t) : List Nat :=
  match handlers_find name handlers with
  | some s => (s.filter (·.2)).map (·.1)
  | none => []

/-- The calls an event gives rise to: the subscribers of its name, then those of the
empty name, each called with the event. -/
def dispatch (handlers : event_handlers_t) (e : basic_message) : List (Nat × basic_message) :=
  match e.main_header with
  | .ok name => (subscribers name handlers ++ subscribers [] handlers).map (fun f => (f, e))
  | .error _ => []

/-- The calls a queue of events gives rise to, event after event. -/
def dispatch_all (handlers : event_handlers_t) : List basic_message → List (Nat × basic_message)
  | [] => []
  | e :: es => dispatch handlers e ++ dispatch_all handlers es

/-- The value of the first `Message` header of a response, empty when it has none: what
`response["Message"]` reads. -/
def message_of (response : basic_message) : Str :=
  (equal_range_first "Message".toList response.headers).getD []

/-- The texts `basic_action::handle_response` answers with `missing_data`. -/
def missing_data_messages : List Str :=
  ["No timeout specified".toList, "No channel specified".toList,
   "Channel not specified".toList, "Extension not specified".toList,
   "No variable specified".toList, "No value specified".toList,
   "Mailbox not specified".toList]

/-- The texts `basic_action::handle_response` answers with `bad_data`. -/
def bad_data_messages : List Str :=
  ["Invalid priority".toList, "Invalid channel".toList, "Invalid timeout".toList]

/-- The reference definition of header parsing: an empty line is `empty_header`; a line
without a colon is `parse_error` (with the text the source gives it); any
other line gives the text before its first colon as the name and the text
after that colon, without one leading space, as the value. -/
def parse_header_reference (line : Str) : Except error (Str × Str) :=
  if line = [] then .error .empty_header
  else if ':' ∉ line then .error (.parse_error ("missing ':' in header: ".toList ++ line))
  else
    .ok (line.takeWhile (fun c => c != ':'),
      strip_space ((line.dropWhile (fun c => c != ':')).drop 1))

/-- An operation on a connection that changes its queues. -/
inductive operation where
  | send (command : basic_action) (handler : response_handler_t)
  | read
  | process
  deriving DecidableEq, Repr

/-- One operation: the state after it and the number of actions it sent, 1 for a
`send_action_async` that returned and 0 otherwise. -/
def operation.apply (o : operation) (c : connection) : connection × Nat :=
  match o with
  | .send command handler =>
    match send_action_async command handler c with
    | (.ok _, c1) => (c1, 1)
    | (.error _, c1) => (c1, 0)
  | .read => ((read_message c).2, 0)
  | .process => ((process_responses c).2, 0)

/-- A sequence of operations: the state after them and the number of actions sent. -/
def run_operations : List operation → connection → connection × Nat
  | [], c => (c, 0)
  | o :: os, c =>
    ((run_operations os (o.apply c).1).1, (o.apply c).2 + (run_operations os (o.apply c).1).2)

/-! ## Theorems -/

theorem format_loop_eq (t : Str) (hs : header_t) (ss : Str) :
    basic_message.format_loop t hs ss = ss ++ header_lines (hs.filter (fun q => q.1 != t)) := by
  induction hs generalizing ss with
  | nil => simp [basic_message.format_loop, header_lines]
  | cons q qs ih =>
    by_cases h : q.1 = t
    · simp [basic_message.format_loop, h, ih]
    · simp [basic_message.format_loop, h, ih, header_lines, header_line]

theorem index_of_some (m : basic_message) (key v : Str)
    (h : equal_range_first key m.headers = some v) : m.index key = (v, m) := by
  simp [basic_message.index, h]

theorem format_of_some (m : basic_message) (v : Str)
    (h : equal_range_first m.traits m.headers = some v) (hv : v ≠ []) :
    m.format = (m, .ok (m.traits ++ [':', ' '] ++ v ++ CRLF
      ++ header_lines (m.headers.filter (fun q => q.1 != m.traits)) ++ CRLF)) := by
  simp [basic_message.format, index_of_some m m.traits v h, hv, format_loop_eq]

/-! ### The order of the multimap -/

theorem str_lt_irrefl (a : Str) : str_lt a a = false := by
  induction a with
  | nil => rfl
  | cons x xs ih => simp [str_lt, ih]

theorem str_lt_asymm (a b : Str) (h : str_lt a b = true) : str_lt b a = false := by
  induction a generalizing b with
  | nil => cases b <;> simp [str_lt] at h ⊢
  | cons x xs ih =>
    cases b with
    | nil => simp [str_lt] at h
    | cons y ys =>
      simp only [str_lt] at h ⊢
      split_ifs at h ⊢ with h1 h2 <;> first | omega | simp_all

theorem str_le_trans (a b c : Str) (hab : str_lt b a = false) (hbc : str_lt c b = false) :
    str_lt c a = false := by
  induction a generalizing b c with
  | nil =>
    cases b with
    | nil => exact hbc
    | cons y ys => cases c <;> simp [str_lt] at hab hbc ⊢
  | cons x xs ih =>
    cases b with
    | nil => cases c <;> simp [str_lt] at hab hbc ⊢
    | cons y ys =>
      cases c with
      | nil => simp [str_lt] at hbc
      | cons z zs =>
        simp only [str_lt] at hab hbc ⊢
        split_ifs at hab hbc ⊢ <;> first | omega | exact ih ys zs hab hbc | simp_all

theorem multimap_insert_perm (p : Str × Str) (l : header_t) :
    (multimap_insert p l).Perm (p :: l) := by
  induction l with
  | nil => simp [multimap_insert]
  | cons q qs ih =>
    simp only [multimap_insert]
    split_ifs
    · exact List.Perm.refl _
    · exact (List.Perm.cons q ih).trans (List.Perm.swap p q qs)

theorem mem_multimap_insert (p x : Str × Str) (l : header_t) :
    x ∈ multimap_insert p l ↔ x = p ∨ x ∈ l := by
  rw [(multimap_insert_perm p l).mem_iff]; simp

theorem multimap_insert_sorted (p : Str × Str) (l : header_t)
    (hl : l.Pairwise (fun a b => str_lt b.1 a.1 = false)) :
    (multimap_insert p l).Pairwise (fun a b => str_lt b.1 a.1 = false) := by
  induction l with
  | nil => simp [multimap_insert]
  | cons q qs ih =>
    rw [List.pairwise_cons] at hl
    simp only [multimap_insert]
    split_ifs with h
    · refine List.Pairwise.cons ?_ (List.Pairwise.cons hl.1 hl.2)
      intro x hx
      rcases List.mem_cons.1 hx with rfl | hx
      · exact str_lt_asymm _ _ h
      · exact str_le_trans _ _ _ (str_lt_asymm _ _ h) (hl.1 x hx)
    · refine List.Pairwise.cons ?_ (ih hl.2)
      intro x hx
      rcases (mem_multimap_insert p x qs).1 hx with rfl | hx
      · simpa using h
      · exact hl.1 x hx

theorem filter_key_multimap_insert (k : Str) (p : Str × Str) (l : header_t)
    (hl : l.Pairwise (fun a b => str_lt b.1 a.1 = false)) :
    (multimap_insert p l).filter (fun q => q.1 == k)
      = l.filter (fun q => q.1 == k) ++ (if p.1 == k then [p] else []) := by
  induction l with
  | nil => by_cases h : p.1 = k <;> simp [multimap_insert, h]
  | cons q qs ih =>
    rw [List.pairwise_cons] at hl
    simp only [multimap_insert]
    by_cases h : str_lt p.1 q.1 = true
    · rw [if_pos h]
      by_cases h2 : p.1 = k
      · have hnone : (q :: qs).filter (fun q => q.1 == k) = [] := by
          rw [List.filter_eq_nil_iff]
          intro x hx hxk
          have hxk : x.1 = p.1 := by rw [beq_iff_eq] at hxk; rw [hxk, h2]
          rcases List.mem_cons.1 hx with rfl | hx
          · rw [hxk, str_lt_irrefl] at h; exact absurd h (by simp)
          · have := hl.1 x hx
            rw [hxk, h] at this; exact absurd this (by simp)
        rw [hnone, List.filter_cons, hnone]; simp [h2]
      · rw [List.filter_cons]; simp [h2]
    · rw [if_neg h, List.filter_cons, ih hl.2, List.filter_cons]
      split_ifs <;> simp

theorem filter_ne_multimap_insert (t : Str) (p : Str × Str) (l : header_t) (hp : p.1 = t) :
    (multimap_insert p l).filter (fun q => q.1 != t) = l.filter (fun q => q.1 != t) := by
  induction l with
  | nil => simp [multimap_insert, hp]
  | cons q qs ih =>
    simp only [multimap_insert]
    split_ifs with h
    · rw [List.filter_cons]; simp [hp]
    · rw [List.filter_cons, ih, List.filter_cons]

theorem equal_range_first_eq_head (k : Str) (l : header_t) :
    equal_range_first k l = ((l.filter (fun q => q.1 == k)).head?).map (·.2) := by
  induction l with
  | nil => rfl
  | cons q qs ih =>
    unfold equal_range_first at ih ⊢
    by_cases h : q.1 = k
    · simp [List.find?_cons, List.filter_cons, h]
    · have hb : (q.1 == k) = false := by simpa using h
      simp [List.find?_cons, List.filter_cons, hb, ih]

theorem insert_all_traits (m : basic_message) (ps : header_t) :
    (m.insert_all ps).traits = m.traits := by
  induction ps generalizing m with
  | nil => rfl
  | cons p ps ih =>
    simp only [basic_message.insert_all, List.foldl_cons] at ih ⊢
    rw [ih]; rfl

theorem insert_all_data (m : basic_message) (ps : header_t) :
    (m.insert_all ps).data = m.data := by
  induction ps generalizing m with
  | nil => rfl
  | cons p ps ih =>
    simp only [basic_message.insert_all, List.foldl_cons] at ih ⊢
    rw [ih]; rfl

theorem insert_all_sorted (m : basic_message) (ps : header_t)
    (hm : m.headers.Pairwise (fun a b => str_lt b.1 a.1 = false)) :
    (m.insert_all ps).headers.Pairwise (fun a b => str_lt b.1 a.1 = false)
    ∧ ∀ k, (m.insert_all ps).headers.filter (fun q => q.1 == k)
        = m.headers.filter (fun q => q.1 == k) ++ ps.filter (fun q => q.1 == k) := by
  induction ps generalizing m with
  | nil => simp [basic_message.insert_all, hm]
  | cons p ps ih =>
    have h1 := ih (m.insert p) (multimap_insert_sorted p m.headers hm)
    simp only [basic_message.insert_all, List.foldl_cons] at h1 ⊢
    refine ⟨h1.1, fun k => ?_⟩
    rw [h1.2 k]
    show (multimap_insert p m.headers).filter _ ++ _ = _
    rw [filter_key_multimap_insert k p m.headers hm, List.filter_cons]
    split_ifs <;> simp

theorem insert_all_perm (m : basic_message) (ps : header_t) :
    (m.insert_all ps).headers.Perm (m.headers ++ ps) := by
  induction ps generalizing m with
  | nil => simp [basic_message.insert_all]
  | cons p ps ih =>
    have h1 := ih (m.insert p)
    simp only [basic_message.insert_all, List.foldl_cons] at h1 ⊢
    refine h1.trans ?_
    show (multimap_insert p m.headers ++ ps).Perm _
    refine ((multimap_insert_perm p m.headers).append_right ps).trans ?_
    simpa using (@List.perm_middle _ p m.headers ps).symm

theorem mk_value_headers (traits v : Str) :
    basic_message.mk_value traits v = { traits := traits, headers := [(traits, v)], data := [] } := by
  simp [basic_message.mk_value, basic_message.index_assign, equal_range_first, multimap_insert]

/-! ### Serialization -/

/-- C2, counterexample: the Login action built from "u" and "s" does not serialize
with Username before Secret. -/
theorem login_format_not_insertion_order :
    (login_action "u".toList "s".toList).format.2
      ≠ .ok "Action: Login\r\nUsername: u\r\nSecret: s\r\n\r\n".toList := by
  decide

/-- C2, amended: for a message built from a primary value and a sequence of inserted
headers, the lines after the primary line are the inserted non-primary headers in
ascending order of their names, and the headers of one name keep their insertion
order; the Login action built from "u" and "s" serializes to
`Action: Login\r\nSecret: s\r\nUsername: u\r\n\r\n`. -/
theorem format_headers_in_key_order (traits v : Str) (ps : header_t) (hv : v ≠ []) :
    (∃ out : header_t,
      ((basic_message.mk_value traits v).insert_all ps).format.2
        = .ok (header_line (traits, v) ++ header_lines out ++ CRLF)
      ∧ out.Pairwise (fun a b => str_lt b.1 a.1 = false)
      ∧ ∀ k, out.filter (fun q => q.1 == k)
          = (ps.filter (fun q => q.1 != traits)).filter (fun q => q.1 == k))
    ∧ (login_action "u".toList "s".toList).format.2
        = .ok "Action: Login\r\nSecret: s\r\nUsername: u\r\n\r\n".toList := by
  refine ⟨?_, by decide⟩
  have hs := insert_all_sorted (basic_message.mk_value traits v) ps
    (by simp [mk_value_headers])
  have ht := insert_all_traits (basic_message.mk_value traits v) ps
  rw [mk_value_headers] at hs ht
  simp only at ht
  refine ⟨(({ traits := traits, headers := [(traits, v)], data := [] } :
      basic_message).insert_all ps).headers.filter (fun q => q.1 != traits), ?_, ?_, ?_⟩
  · rw [mk_value_headers]
    have hfirst : equal_range_first
        (({ traits := traits, headers := [(traits, v)], data := [] } :
          basic_message).insert_all ps).traits
        (({ traits := traits, headers := [(traits, v)], data := [] } :
          basic_message).insert_all ps).headers = some v := by
      rw [equal_range_first_eq_head, ht, hs.2 traits]
      simp
    rw [format_of_some _ v hfirst hv, ht]
    simp [header_line]
  · exact hs.1.filter _
  · intro k
    rw [List.filter_filter, List.filter_filter]
    have h2 := congrArg (List.filter (fun q => q.1 != traits)) (hs.2 k)
    rw [List.filter_filter, List.filter_append, List.filter_filter, List.filter_filter] at h2
    have h3 : List.filter (fun a => (a.1 != traits && a.1 == k))
        [(traits, v)] = [] := by simp
    rw [h3, List.nil_append] at h2
    simpa [Bool.and_comm] using h2

/-- C2, the amended statement at a concrete message: three headers inserted as
`b`, `a`, `b` are written as `a`, `b`, `b`. -/
theorem format_headers_in_key_order_witness :
    ∃ out : header_t,
      ((basic_message.mk_value "Event".toList "E".toList).insert_all
          [("b".toList, "1".toList), ("a".toList, "2".toList), ("b".toList, "3".toList)]).format.2
        = .ok (header_line ("Event".toList, "E".toList) ++ header_lines out ++ CRLF)
      ∧ out.Pairwise (fun a b => str_lt b.1 a.1 = false)
      ∧ ∀ k, out.filter (fun q => q.1 == k)
          = (([("b".toList, "1".toList), ("a".toList, "2".toList), ("b".toList, "3".toList)] :
              header_t).filter (fun q => q.1 != "Event".toList)).filter (fun q => q.1 == k) :=
  (format_headers_in_key_order "Event".toList "E".toList
    [("b".toList, "1".toList), ("a".toList, "2".toList), ("b".toList, "3".toList)]
    (by decide)).1

/-- C3: when the first primary header has the non-empty value `v`, `format()` returns
the primary line, then one line for every stored header whose name is not the
primary name, in the order of the container, then an empty line; this holds as
well when the primary header was inserted last, into a message that had none. -/
theorem format_wire_form (m : basic_message) (v : Str)
    (h : equal_range_first m.traits m.headers = some v) (hv : v ≠ []) :
    m.format.2 = .ok (m.traits ++ [':', ' '] ++ v ++ CRLF
        ++ header_lines (m.headers.filter (fun q => q.1 != m.traits)) ++ CRLF)
    ∧ ∀ m0 : basic_message, equal_range_first m0.traits m0.headers = none →
        (m0.insert (m0.traits, v)).format.2
          = .ok (m0.traits ++ [':', ' '] ++ v ++ CRLF ++ header_lines m0.headers ++ CRLF) := by
  refine ⟨by rw [format_of_some m v h hv], fun m0 h0 => ?_⟩
  have hnone : m0.headers.filter (fun q => q.1 == m0.traits) = [] := by
    rw [equal_range_first_eq_head] at h0
    cases hf : m0.headers.filter (fun q => q.1 == m0.traits) with
    | nil => rfl
    | cons a l => rw [hf] at h0; simp at h0
  have hfirst : equal_range_first (m0.insert (m0.traits, v)).traits
      (m0.insert (m0.traits, v)).headers = some v := by
    show equal_range_first m0.traits (multimap_insert (m0.traits, v) m0.headers) = some v
    rw [equal_range_first_eq_head]
    have hp := (multimap_insert_perm (m0.traits, v) m0.headers).filter (fun q => q.1 == m0.traits)
    rw [List.filter_cons, hnone] at hp
    simp only [beq_self_eq_true, if_true] at hp
    rw [List.perm_singleton.1 hp]; rfl
  rw [format_of_some _ v hfirst hv]
  show Except.ok (m0.traits ++ [':', ' '] ++ v ++ CRLF
    ++ header_lines ((multimap_insert (m0.traits, v) m0.headers).filter
      (fun q => q.1 != m0.traits)) ++ CRLF) = _
  rw [filter_ne_multimap_insert m0.traits (m0.traits, v) m0.headers rfl]
  have hall : m0.headers.filter (fun q => q.1 != m0.traits) = m0.headers := by
    rw [List.filter_eq_self]
    intro a ha
    rw [List.filter_eq_nil_iff] at hnone
    have := hnone a ha
    simpa using this
  rw [hall]

/-- C3 at a concrete message: the primary header is inserted after two headers of one
name. -/
theorem format_wire_form_witness :
    (({ traits := "Event".toList,
        headers := [("Event".toList, "Hangup".toList), ("Var".toList, "a".toList),
          ("Var".toList, "b".toList)],
        data := [] } : basic_message).format.2
      = .ok "Event: Hangup\r\nVar: a\r\nVar: b\r\n\r\n".toList)
    ∧ (({ traits := "Event".toList,
          headers := [("Var".toList, "a".toList), ("Var".toList, "b".toList)],
          data := [] } : basic_message).insert ("Event".toList, "Hangup".toList)).format.2
      = .ok "Event: Hangup\r\nVar: a\r\nVar: b\r\n\r\n".toList := by
  have h := format_wire_form
    ({ traits := "Event".toList,
       headers := [("Event".toList, "Hangup".toList), ("Var".toList, "a".toList),
         ("Var".toList, "b".toList)],
       data := [] } : basic_message) "Hangup".toList (by decide) (by decide)
  exact ⟨h.1, h.2
    ({ traits := "Event".toList,
       headers := [("Var".toList, "a".toList), ("Var".toList, "b".toList)],
       data := [] } : basic_message) (by decide)⟩

/-- C4: `format()` raises `header_missing`, naming the primary header, exactly when the
message has no primary header or the first primary value is empty; in every
other case it returns a string; it raises nothing else. -/
theorem format_header_missing_iff (m : basic_message) :
    (m.format.2 = .error (.header_missing m.traits)
      ↔ (equal_range_first m.traits m.headers = none
          ∨ equal_range_first m.traits m.headers = some []))
    ∧ ((∃ v, equal_range_first m.traits m.headers = some v ∧ v ≠ []) → ∃ s, m.format.2 = .ok s)
    ∧ ∀ e, m.format.2 = .error e → e = .header_missing m.traits := by
  cases h : equal_range_first m.traits m.headers with
  | none => simp [basic_message.format, basic_message.index, h]
  | some v =>
    by_cases hv : v = []
    · subst hv
      simp [basic_message.format, basic_message.index, h]
    · rw [format_of_some m v h hv]
      simp [hv]

/-! ### The greeting -/

theorem find_last_of_none (s : Str) (c : Char) (h : find_last_of s c = none) : c ∉ s := by
  induction s with
  | nil => simp
  | cons x xs ih =>
    simp only [find_last_of] at h
    cases hx : find_last_of xs c with
    | some j => rw [hx] at h; simp at h
    | none =>
      rw [hx] at h
      by_cases hxc : x = c
      · simp [hxc] at h
      · simp only [List.mem_cons, not_or]
        exact ⟨fun hc => hxc hc.symm, ih hx⟩

theorem find_last_of_some (s : Str) (c : Char) (i : Nat) (h : find_last_of s c = some i) :
    s.take i ++ [c] ++ s.drop (i + 1) = s ∧ c ∉ s.drop (i + 1) := by
  induction s generalizing i with
  | nil => simp [find_last_of] at h
  | cons x xs ih =>
    simp only [find_last_of] at h
    cases hx : find_last_of xs c with
    | some j =>
      rw [hx] at h
      simp only [Option.some.injEq] at h
      subst h
      have := ih j hx
      simp only [List.take_succ_cons, List.drop_succ_cons, List.cons_append] at this ⊢
      exact ⟨by rw [this.1], this.2⟩
    | none =>
      rw [hx] at h
      by_cases hxc : x = c
      · simp only [hxc, if_true, Option.some.injEq] at h
        subst h
        subst hxc
        simpa using find_last_of_none xs x hx
      · simp [hxc] at h

theorem find_last_of_isSome (s : Str) (c : Char) (h : c ∈ s) : ∃ i, find_last_of s c = some i := by
  cases hx : find_last_of s c with
  | some i => exact ⟨i, rfl⟩
  | none => exact absurd h (find_last_of_none s c hx)

/-- C7: when the greeting line read from the socket contains a slash, `connect` sets
the name and the version so that name, slash, version is the line and the
version has no slash; the line `Asterisk Call Manager/1.1` gives the name
`Asterisk Call Manager` and the version `1.1`. -/
theorem connect_greeting_split (c c1 : connection) (g : Str)
    (hread : read_line c = (.ok g, c1)) (hslash : '/' ∈ g) :
    (∃ name version : Str,
      connect c = (.ok (), { c1 with m_name := name, m_version := version })
      ∧ name ++ ['/'] ++ version = g ∧ '/' ∉ version)
    ∧ connect (connection.fresh "Asterisk Call Manager/1.1\r\n".toList)
      = (.ok (), { connection.fresh [] with
          m_name := "Asterisk Call Manager".toList, m_version := "1.1".toList }) := by
  refine ⟨?_, by decide⟩
  obtain ⟨i, hi⟩ := find_last_of_isSome g '/' hslash
  refine ⟨g.take i, g.drop (i + 1), ?_, find_last_of_some g '/' i hi⟩
  simp [connect, hread, hi]

/-- C7 at a greeting with two slashes: the split is at the last one. -/
theorem connect_greeting_split_witness :
    ∃ name version : Str,
      connect (connection.fresh "Asterisk/Call Manager/1.1\r\nrest".toList)
        = (.ok (), { connection.fresh "rest".toList with m_name := name, m_version := version })
      ∧ name ++ ['/'] ++ version = "Asterisk/Call Manager/1.1".toList ∧ '/' ∉ version :=
  (connect_greeting_split (connection.fresh "Asterisk/Call Manager/1.1\r\nrest".toList)
    (connection.fresh "rest".toList) "Asterisk/Call Manager/1.1".toList
    (by decide) (by decide)).1

/-! ### The Follows scenario -/

/-- C6, counterexample: on the bytes of the scenario `read_message` raises a parse error
for the line `Asterisk 1.8.0 built by ...`, which has neither a colon nor the
marker, and queues no response. -/
theorem read_message_follows_scenario_fails :
    read_message (connection.fresh
        "Response: Follows\r\nPrivilege: Command\r\nAsterisk 1.8.0 built by ...\r\n--END COMMAND--\r\n\r\n".toList)
      = (.error (.parse_error "missing ':' in header: Asterisk 1.8.0 built by ...".toList),
          connection.fresh "--END COMMAND--\r\n\r\n".toList) := by
  decide

/-- C6, amended: with the command output and the marker on one line, `read_message`
queues one response whose primary value is `Follows`, which has the header
`Privilege: Command` and the output as its data; with the output on a line of
its own it raises a parse error and queues nothing. -/
theorem read_message_follows_same_line :
    read_message (connection.fresh
        "Response: Follows\r\nPrivilege: Command\r\nAsterisk 1.8.0 built by ...--END COMMAND--\r\n\r\n".toList)
      = (.ok (), { connection.fresh [] with
          responses := [{ traits := "Response".toList,
                          headers := [("Privilege".toList, "Command".toList),
                            ("Response".toList, "Follows".toList)],
                          data := "Asterisk 1.8.0 built by ...".toList }] })
    ∧ (read_message (connection.fresh
        "Response: Follows\r\nPrivilege: Command\r\nAsterisk 1.8.0 built by ...\r\n--END COMMAND--\r\n\r\n".toList)).1
      = .error (.parse_error "missing ':' in header: Asterisk 1.8.0 built by ...".toList)
    ∧ (read_message (connection.fresh
        "Response: Follows\r\nPrivilege: Command\r\nAsterisk 1.8.0 built by ...\r\n--END COMMAND--\r\n\r\n".toList)).2.responses
      = [] := by
  decide

/-! ### Reading lines -/

theorem find_cons (x : Char) (xs p : Str) :
    find (x :: xs) p = if starts_with (x :: xs) p then some 0 else (find xs p).map (· + 1) := rfl

theorem find_cons_none (x : Char) (xs p : Str) (h : find (x :: xs) p = none) :
    starts_with (x :: xs) p = false ∧ find xs p = none := by
  rw [find_cons] at h
  split_ifs at h with h1
  exact ⟨by simpa using h1, by simpa using h⟩

theorem read_line_loop_line (l : Str) (c : Char) (acc rest : Str)
    (h : find (c :: l) CRLF = none) :
    read_line_loop (l ++ CRLF ++ rest) c acc = (.ok (acc ++ l ++ CRLF), rest) := by
  induction l generalizing c acc with
  | nil => simp [CRLF, read_line_loop]
  | cons x l ih =>
    obtain ⟨h1, h2⟩ := find_cons_none c (x :: l) CRLF h
    have hne : ¬(x = '\n' ∧ c = '\r') := by
      rintro ⟨rfl, rfl⟩
      simp [starts_with, CRLF] at h1
    show read_line_loop (x :: (l ++ CRLF ++ rest)) c acc = _
    rw [read_line_loop, if_neg hne, ih x (acc ++ [x]) h2]
    simp

theorem find_append_CRLF (l : Str) (h : find l CRLF = none) :
    find (l ++ CRLF) CRLF = some l.length := by
  induction l with
  | nil => decide
  | cons x l ih =>
    obtain ⟨h1, h2⟩ := find_cons_none x l CRLF h
    have h3 : starts_with (x :: (l ++ CRLF)) CRLF = false := by
      cases l with
      | nil =>
        simp only [CRLF, starts_with, List.nil_append, Bool.and_eq_false_imp] at h1 ⊢
        intro _; decide
      | cons y l => simpa [CRLF, starts_with] using h1
    rw [List.cons_append, find_cons, h3, ih h2]
    simp

theorem read_line_of_line (c : connection) (l rest : Str) (hc : c.input = l ++ CRLF ++ rest)
    (h : find l CRLF = none) :
    read_line c = (.ok l, { c with input := rest }) := by
  have h0 : find (Char.ofNat 0 :: l) CRLF = none := by
    rw [find_cons, h]
    have : starts_with (Char.ofNat 0 :: l) CRLF = false := by
      simp only [CRLF, starts_with, Bool.and_eq_false_imp]
      intro h; exact absurd h (by decide)
    simp [this]
  simp only [read_line, hc, read_line_loop_line l (Char.ofNat 0) [] rest h0, List.nil_append,
    find_append_CRLF l h, List.take_left']

theorem find_first_of_append (n r : Str) (c : Char) (h : c ∉ n) :
    find_first_of (n ++ c :: r) c = some n.length := by
  induction n with
  | nil => simp [find_first_of]
  | cons x n ih =>
    simp only [List.mem_cons, not_or] at h
    have hx : ¬ x = c := fun hxc => h.1 hxc.symm
    simp [find_first_of, hx, ih h.2]

theorem parse_header_header (n v : Str) (h : ':' ∉ n) :
    parse_header (n ++ [':', ' '] ++ v) = .ok (n, v) := by
  have h1 : find_first_of (n ++ [':', ' '] ++ v) ':' = some n.length := by
    rw [List.append_assoc]; exact find_first_of_append n _ ':' h
  have h2 : (n ++ [':', ' '] ++ v).isEmpty = false := by
    cases n <;> rfl
  have h3 : (n ++ [':', ' '] ++ v).getD (n.length + 1) (Char.ofNat 0) = ' ' := by
    rw [List.append_assoc, List.getD_append_right _ _ _ _ (by omega)]
    simp
  simp only [parse_header, h2, h1, h3, if_true]
  rw [List.append_assoc, List.take_left' rfl, Nat.add_assoc, List.drop_append]
  rfl

theorem length_le_wire_lines (lines : List Str) : lines.length ≤ (wire_lines lines).length := by
  induction lines with
  | nil => simp
  | cons l ls ih => simp only [wire_lines, List.length_cons, List.length_append, CRLF]; omega

theorem read_response_loop_lines (second : Str) (lines : List Str)
    (hl : ∀ l ∈ lines, l ≠ [] ∧ find l CRLF = none) (n : Nat) (r : basic_message)
    (c : connection) (rest : Str) (hn : lines.length < n)
    (hc : c.input = wire_lines lines ++ CRLF ++ rest) :
    (∀ r1, response_lines second lines r = .ok r1 →
        read_response_loop second n r c = (.ok r1, { c with input := rest }))
    ∧ ∀ e, response_lines second lines r = .error e →
        (read_response_loop second n r c).1 = .error e := by
  induction lines generalizing n r c with
  | nil =>
    obtain ⟨n, rfl⟩ : ∃ m, n = m + 1 := ⟨n - 1, by simp at hn; omega⟩
    have hr := read_line_of_line c [] rest (by simpa [wire_lines] using hc) (by decide)
    simp [response_lines, read_response_loop, hr]
  | cons l ls ih =>
    obtain ⟨n, rfl⟩ : ∃ m, n = m + 1 := ⟨n - 1, by simp at hn; omega⟩
    have hl1 := hl l (List.mem_cons_self _ _)
    have hr := read_line_of_line c l (wire_lines ls ++ CRLF ++ rest)
      (by simp [hc, wire_lines]) hl1.2
    have hne : l.isEmpty = false := by
      cases l with
      | nil => exact absurd rfl hl1.1
      | cons _ _ => rfl
    have ih1 := fun r1 => ih (fun x hx => hl x (List.mem_cons_of_mem _ hx)) n r1
      { c with input := wire_lines ls ++ CRLF ++ rest } (by simp at hn; omega) rfl
    simp only [response_lines, read_response_loop, hr, hne]
    by_cases hs : second = "Follows".toList
    · simp only [hs, if_true]
      cases hf : find l END_COMMAND with
      | some ec => simpa [hs] using ih1 { r with data := l.take ec }
      | none =>
        cases hp : parse_header l with
        | error e => simp
        | ok p => simpa [hs] using ih1 (r.insert p)
    · simp only [hs, if_false]
      cases hp : parse_header l with
      | error e => simp
      | ok p => simpa [hs] using ih1 (r.insert p)

theorem read_event_loop_lines (lines : List Str)
    (hl : ∀ l ∈ lines, l ≠ [] ∧ find l CRLF = none) (n : Nat) (r : basic_message)
    (c : connection) (rest : Str) (hn : lines.length < n)
    (hc : c.input = wire_lines lines ++ CRLF ++ rest) :
    (∀ r1, event_lines lines r = .ok r1 →
        read_event_loop n r c = (.ok r1, { c with input := rest }))
    ∧ ∀ e, event_lines lines r = .error e → (read_event_loop n r c).1 = .error e := by
  induction lines generalizing n r c with
  | nil =>
    obtain ⟨n, rfl⟩ : ∃ m, n = m + 1 := ⟨n - 1, by simp at hn; omega⟩
    have hr := read_line_of_line c [] rest (by simpa [wire_lines] using hc) (by decide)
    simp [event_lines, read_event_loop, hr]
  | cons l ls ih =>
    obtain ⟨n, rfl⟩ : ∃ m, n = m + 1 := ⟨n - 1, by simp at hn; omega⟩
    have hl1 := hl l (List.mem_cons_self _ _)
    have hr := read_line_of_line c l (wire_lines ls ++ CRLF ++ rest)
      (by simp [hc, wire_lines]) hl1.2
    have hne : l.isEmpty = false := by
      cases l with
      | nil => exact absurd rfl hl1.1
      | cons _ _ => rfl
    have ih1 := fun r1 => ih (fun x hx => hl x (List.mem_cons_of_mem _ hx)) n r1
      { c with input := wire_lines ls ++ CRLF ++ rest } (by simp at hn; omega) rfl
    simp only [event_lines, read_event_loop, hr, hne]
    cases hp : parse_header l with
    | error e => simp
    | ok p => simpa using ih1 (r.insert p)

theorem read_message_response_lines (c : connection) (first v : Str) (lines : List Str)
    (rest : Str) (hfirst : parse_header first = .ok ("Response".toList, v))
    (hfc : find first CRLF = none) (hl : ∀ l ∈ lines, l ≠ [] ∧ find l CRLF = none)
    (hc : c.input = wire_lines (first :: lines) ++ CRLF ++ rest) :
    (∀ r, response_lines v lines (basic_message.mk_value response_traits v) = .ok r →
        read_message c = (.ok (), { c with input := rest, responses := c.responses ++ [r] }))
    ∧ ∀ e, response_lines v lines (basic_message.mk_value response_traits v) = .error e →
        (read_message c).1 = .error e := by
  have hr := read_line_of_line c first (wire_lines lines ++ CRLF ++ rest)
    (by simp [hc, wire_lines]) hfc
  have hloop := read_response_loop_lines v lines hl ((wire_lines lines ++ CRLF ++ rest).length + 1)
    (basic_message.mk_value response_traits v)
    { c with input := wire_lines lines ++ CRLF ++ rest } rest
    (by have := length_le_wire_lines lines; simp only [List.length_append]; omega) rfl
  have hne : ¬ ("Response".toList = "Event".toList) := by decide
  constructor
  · intro r h
    simp only [read_message, hr, hfirst, hne, if_false, if_true]
    rw [hloop.1 r h]
  · intro e h
    have h2 := hloop.2 e h
    simp only [read_message, hr, hfirst, hne, if_false, if_true]
    revert h2
    cases read_response_loop v ((wire_lines lines ++ CRLF ++ rest).length + 1)
      (basic_message.mk_value response_traits v)
      { c with input := wire_lines lines ++ CRLF ++ rest } with
    | mk a b =>
      intro h2
      simp only at h2
      subst h2
      rfl

theorem read_message_event_lines (c : connection) (first v : Str) (lines : List Str)
    (rest : Str) (hfirst : parse_header first = .ok ("Event".toList, v))
    (hfc : find first CRLF = none) (hl : ∀ l ∈ lines, l ≠ [] ∧ find l CRLF = none)
    (hc : c.input = wire_lines (first :: lines) ++ CRLF ++ rest) :
    (∀ r, event_lines lines (basic_message.mk_value event_traits v) = .ok r →
        read_message c = (.ok (), { c with input := rest, events := c.events ++ [r] }))
    ∧ ∀ e, event_lines lines (basic_message.mk_value event_traits v) = .error e →
        (read_message c).1 = .error e := by
  have hr := read_line_of_line c first (wire_lines lines ++ CRLF ++ rest)
    (by simp [hc, wire_lines]) hfc
  have hloop := read_event_loop_lines lines hl ((wire_lines lines ++ CRLF ++ rest).length + 1)
    (basic_message.mk_value event_traits v)
    { c with input := wire_lines lines ++ CRLF ++ rest } rest
    (by have := length_le_wire_lines lines; simp only [List.length_append]; omega) rfl
  constructor
  · intro r h
    simp only [read_message, hr, hfirst, if_true]
    rw [hloop.1 r h]
  · intro e h
    have h2 := hloop.2 e h
    simp only [read_message, hr, hfirst, if_true]
    revert h2
    cases read_event_loop ((wire_lines lines ++ CRLF ++ rest).length + 1)
      (basic_message.mk_value event_traits v)
      { c with input := wire_lines lines ++ CRLF ++ rest } with
    | mk a b =>
      intro h2
      simp only at h2
      subst h2
      rfl

/-! ### Lines as headers -/

theorem insert_all_with_data (m : basic_message) (d : Str) (hs : header_t) :
    ({ m with data := d } : basic_message).insert_all hs = { m.insert_all hs with data := d } := by
  induction hs generalizing m with
  | nil => rfl
  | cons p ps ih =>
    simp only [basic_message.insert_all, List.foldl_cons] at ih ⊢
    exact ih (m.insert p)

theorem insert_all_append (m : basic_message) (hs1 hs2 : header_t) :
    m.insert_all (hs1 ++ hs2) = (m.insert_all hs1).insert_all hs2 := by
  simp [basic_message.insert_all, List.foldl_append]

theorem response_lines_plain (second : Str) (ls : List Str) (m : basic_message)
    (h : second = "Follows".toList → ∀ l ∈ ls, find l END_COMMAND = none) :
    response_lines second ls m
      = match parse_headers ls with
        | .ok hs => .ok (m.insert_all hs)
        | .error e => .error e := by
  induction ls generalizing m with
  | nil => rfl
  | cons l ls ih =>
    have ih1 := fun m1 => ih m1 (fun hs x hx => h hs x (List.mem_cons_of_mem _ hx))
    simp only [response_lines, parse_headers]
    by_cases hs : second = "Follows".toList
    · rw [if_pos hs, h hs l (List.mem_cons_self _ _)]
      cases hp : parse_header l with
      | error e => rfl
      | ok p =>
        simp only [ih1]
        cases parse_headers ls <;> rfl
    · rw [if_neg hs]
      cases hp : parse_header l with
      | error e => rfl
      | ok p =>
        simp only [ih1]
        cases parse_headers ls <;> rfl

theorem event_lines_plain (ls : List Str) (m : basic_message) :
    event_lines ls m
      = match parse_headers ls with
        | .ok hs => .ok (m.insert_all hs)
        | .error e => .error e := by
  induction ls generalizing m with
  | nil => rfl
  | cons l ls ih =>
    simp only [event_lines, parse_headers]
    cases hp : parse_header l with
    | error e => rfl
    | ok p =>
      simp only [ih]
      cases parse_headers ls <;> rfl

theorem response_lines_append (second : Str) (ls1 ls2 : List Str) (m : basic_message) :
    response_lines second (ls1 ++ ls2) m
      = match response_lines second ls1 m with
        | .ok m1 => response_lines second ls2 m1
        | .error e => .error e := by
  induction ls1 generalizing m with
  | nil => rfl
  | cons l ls ih =>
    simp only [List.cons_append, response_lines, List.append_eq]
    split_ifs
    · cases find l END_COMMAND with
      | some ec => exact ih _
      | none =>
        cases parse_header l with
        | error e => rfl
        | ok p => exact ih _
    · cases parse_header l with
      | error e => rfl
      | ok p => exact ih _

theorem parse_headers_append (ls1 ls2 : List Str) :
    parse_headers (ls1 ++ ls2)
      = match parse_headers ls1 with
        | .ok hs1 =>
          match parse_headers ls2 with
          | .ok hs2 => .ok (hs1 ++ hs2)
          | .error e => .error e
        | .error e => .error e := by
  induction ls1 with
  | nil => simp only [List.nil_append, parse_headers]; cases parse_headers ls2 <;> rfl
  | cons l ls ih =>
    simp only [List.cons_append, parse_headers, List.append_eq]
    cases parse_header l with
    | error e => rfl
    | ok p =>
      simp only [ih]
      cases parse_headers ls with
      | error e => rfl
      | ok hs1 => cases parse_headers ls2 <;> rfl

theorem starts_with_split (s p : Str) (h : starts_with s p = true) :
    s = p ++ s.drop p.length := by
  induction p generalizing s with
  | nil => rfl
  | cons y ys ih =>
    cases s with
    | nil => simp [starts_with] at h
    | cons x xs =>
      simp only [starts_with, Bool.and_eq_true, beq_iff_eq] at h
      obtain ⟨rfl, h2⟩ := h
      simp only [List.length_cons, List.drop_succ_cons, List.cons_append]
      rw [← ih xs h2]

theorem find_some_split (s p : Str) (i : Nat) (h : find s p = some i) :
    s = s.take i ++ p ++ s.drop (i + p.length) := by
  induction s generalizing i with
  | nil =>
    simp only [find] at h
    split_ifs at h with h1
    simp only [Option.some.injEq] at h
    subst h
    simpa using starts_with_split [] p h1
  | cons x xs ih =>
    rw [find_cons] at h
    split_ifs at h with h1
    · simp only [Option.some.injEq] at h
      subst h
      simpa using starts_with_split (x :: xs) p h1
    · cases hf : find xs p with
      | none => rw [hf] at h; simp at h
      | some j =>
        rw [hf] at h
        simp only [Option.map_some', Option.some.injEq] at h
        subst h
        have := ih j hf
        simp only [List.take_succ_cons, List.cons_append, Nat.add_right_comm j 1 p.length,
          List.drop_succ_cons]
        rw [← this]

theorem response_lines_marked (pre post : List Str) (line : Str) (ec : Nat) (m : basic_message)
    (hpre : ∀ l ∈ pre, find l END_COMMAND = none) (hpost : ∀ l ∈ post, find l END_COMMAND = none)
    (hline : find line END_COMMAND = some ec) :
    response_lines "Follows".toList (pre ++ line :: post) m
      = match parse_headers (pre ++ post) with
        | .ok hs => .ok { m.insert_all hs with data := line.take ec }
        | .error e => .error e := by
  rw [response_lines_append, response_lines_plain _ pre m (fun _ => hpre), parse_headers_append]
  cases parse_headers pre with
  | error e => rfl
  | ok hs1 =>
    simp only [response_lines, if_true, hline]
    rw [response_lines_plain _ post _ (fun _ => hpost)]
    cases parse_headers post with
    | error e => rfl
    | ok hs2 =>
      simp only [insert_all_with_data, insert_all_append]

/-! ### The body of a Follows response -/

/-- C5: after a first line `Response: Follows`, when exactly one of the lines before the
blank line contains the marker, `read_message` stores the text of that line
before the marker in `data`, adds no header for it, parses every other line as
a header (raising the failure of the first line that does not parse), and
leaves the bytes after the blank line unread.  After a first line with any
other Response value every line is parsed as a header and `data` stays empty. -/
theorem read_message_follows_body (c : connection) (first v : Str) (rest : Str)
    (hfirst : parse_header first = .ok ("Response".toList, v)) (hfc : find first CRLF = none) :
    (v = "Follows".toList → ∀ (pre post : List Str) (line : Str) (ec : Nat),
        (∀ l ∈ pre ++ line :: post, l ≠ [] ∧ find l CRLF = none) →
        (∀ l ∈ pre ++ post, find l END_COMMAND = none) →
        find line END_COMMAND = some ec →
        line = line.take ec ++ END_COMMAND ++ line.drop (ec + END_COMMAND.length)
        ∧ (∀ hs, parse_headers (pre ++ post) = .ok hs →
            read_message
                { c with input := wire_lines (first :: (pre ++ line :: post)) ++ CRLF ++ rest }
              = (.ok (), { c with
                  input := rest,
                  responses := c.responses ++
                    [{ (basic_message.mk_value response_traits v).insert_all hs with
                        data := line.take ec }] }))
        ∧ ∀ e, parse_headers (pre ++ post) = .error e →
            (read_message
                { c with input := wire_lines (first :: (pre ++ line :: post)) ++ CRLF ++ rest }).1
              = .error e)
    ∧ (v ≠ "Follows".toList → ∀ lines : List Str,
        (∀ l ∈ lines, l ≠ [] ∧ find l CRLF = none) →
        (∀ hs, parse_headers lines = .ok hs →
            read_message { c with input := wire_lines (first :: lines) ++ CRLF ++ rest }
              = (.ok (), { c with
                  input := rest,
                  responses := c.responses ++
                    [(basic_message.mk_value response_traits v).insert_all hs] })
            ∧ ((basic_message.mk_value response_traits v).insert_all hs).data = [])
        ∧ ∀ e, parse_headers lines = .error e →
            (read_message { c with input := wire_lines (first :: lines) ++ CRLF ++ rest }).1
              = .error e) := by
  constructor
  · intro hv pre post line ec hl hmark hline
    subst hv
    have hm := response_lines_marked pre post line ec
      (basic_message.mk_value response_traits "Follows".toList)
      (fun l h => hmark l (List.mem_append_left _ h))
      (fun l h => hmark l (List.mem_append_right _ h)) hline
    have hrm := read_message_response_lines
      { c with input := wire_lines (first :: (pre ++ line :: post)) ++ CRLF ++ rest }
      first _ (pre ++ line :: post) rest hfirst hfc hl rfl
    rw [hm] at hrm
    refine ⟨find_some_split line END_COMMAND ec hline, ?_, ?_⟩
    · intro hs hp
      rw [hp] at hrm
      exact hrm.1 _ rfl
    · intro e hp
      rw [hp] at hrm
      exact hrm.2 e rfl
  · intro hv lines hl
    have hrm := read_message_response_lines
      { c with input := wire_lines (first :: lines) ++ CRLF ++ rest }
      first v lines rest hfirst hfc hl rfl
    rw [response_lines_plain v lines _ (fun h => absurd h hv)] at hrm
    refine ⟨?_, ?_⟩
    · intro hs hp
      rw [hp] at hrm
      exact ⟨hrm.1 _ rfl, by rw [insert_all_data, mk_value_headers]⟩
    · intro e hp
      rw [hp] at hrm
      exact hrm.2 e rfl

/-! ### The round trip -/

theorem header_lines_eq_wire_lines (hs : header_t) :
    header_lines hs = wire_lines (hs.map header_text) := by
  induction hs with
  | nil => rfl
  | cons q qs ih => simp [header_lines, wire_lines, header_line, header_text, ih]

theorem parse_headers_header_text (hs : header_t) (h : ∀ q ∈ hs, ':' ∉ q.1) :
    parse_headers (hs.map header_text) = .ok hs := by
  induction hs with
  | nil => rfl
  | cons q qs ih =>
    simp only [List.map_cons, parse_headers, header_text,
      parse_header_header q.1 q.2 (h q (List.mem_cons_self _ _))]
    have := ih (fun x hx => h x (List.mem_cons_of_mem _ hx))
    simp only [header_text] at this
    rw [this]

theorem header_text_ne_nil (q : Str × Str) : header_text q ≠ [] := by
  simp [header_text]

theorem mem_filter_ne (hs : header_t) (t : Str) (q : Str × Str)
    (h : q ∈ hs.filter (fun q => q.1 != t)) : q ∈ hs ∧ q.1 ≠ t := by
  rw [List.mem_filter] at h
  exact ⟨h.1, by simpa using h.2⟩

/-- C1, counterexample: four messages that `format()` serializes and that do not come
back with the same headers: an event with two `Event` headers (only the first
is written), an event with a colon in a header name (the name is cut at the
colon), an event with a line terminator in a value (the value is read as two
headers), and a `Follows` response with the marker in a value (the line goes
to `data`). -/
theorem format_read_message_not_roundtrip :
    ((({ traits := "Event".toList,
         headers := [("Event".toList, "a".toList), ("Event".toList, "b".toList)],
         data := [] } : basic_message).format.2 = .ok "Event: a\r\n\r\n".toList)
      ∧ read_message (connection.fresh "Event: a\r\n\r\n".toList)
        = (.ok (), { connection.fresh [] with
            events := [{ traits := "Event".toList,
                         headers := [("Event".toList, "a".toList)], data := [] }] })
      ∧ ¬ ([("Event".toList, "a".toList)] : header_t).Perm
            [("Event".toList, "a".toList), ("Event".toList, "b".toList)])
    ∧ ((({ traits := "Event".toList,
           headers := [("Event".toList, "a".toList), ("k:x".toList, "v".toList)],
           data := [] } : basic_message).format.2 = .ok "Event: a\r\nk:x: v\r\n\r\n".toList)
      ∧ read_message (connection.fresh "Event: a\r\nk:x: v\r\n\r\n".toList)
        = (.ok (), { connection.fresh [] with
            events := [{ traits := "Event".toList,
                         headers := [("Event".toList, "a".toList), ("k".toList, "x: v".toList)],
                         data := [] }] })
      ∧ ¬ ([("Event".toList, "a".toList), ("k".toList, "x: v".toList)] : header_t).Perm
            [("Event".toList, "a".toList), ("k:x".toList, "v".toList)])
    ∧ ((({ traits := "Event".toList,
           headers := [("Event".toList, "a".toList), ("k".toList, "v\r\nw: z".toList)],
           data := [] } : basic_message).format.2
          = .ok "Event: a\r\nk: v\r\nw: z\r\n\r\n".toList)
      ∧ read_message (connection.fresh "Event: a\r\nk: v\r\nw: z\r\n\r\n".toList)
        = (.ok (), { connection.fresh [] with
            events := [{ traits := "Event".toList,
                         headers := [("Event".toList, "a".toList), ("k".toList, "v".toList),
                           ("w".toList, "z".toList)],
                         data := [] }] })
      ∧ ¬ ([("Event".toList, "a".toList), ("k".toList, "v".toList),
              ("w".toList, "z".toList)] : header_t).Perm
            [("Event".toList, "a".toList), ("k".toList, "v\r\nw: z".toList)])
    ∧ ((({ traits := "Response".toList,
           headers := [("Message".toList, "x--END COMMAND--".toList),
             ("Response".toList, "Follows".toList)],
           data := [] } : basic_message).format.2
          = .ok "Response: Follows\r\nMessage: x--END COMMAND--\r\n\r\n".toList)
      ∧ read_message
          (connection.fresh "Response: Follows\r\nMessage: x--END COMMAND--\r\n\r\n".toList)
        = (.ok (), { connection.fresh [] with
            responses := [{ traits := "Response".toList,
                            headers := [("Response".toList, "Follows".toList)],
                            data := "Message: x".toList }] })
      ∧ ¬ ([("Response".toList, "Follows".toList)] : header_t).Perm
            [("Message".toList, "x--END COMMAND--".toList),
              ("Response".toList, "Follows".toList)]) := by
  refine ⟨⟨by decide, by decide, ?_⟩, ⟨by decide, by decide, ?_⟩, ⟨by decide, by decide, ?_⟩,
    ⟨by decide, by decide, ?_⟩⟩
  · intro h
    exact absurd h.length_eq (by decide)
  · intro h
    have := h.subset (List.mem_cons_of_mem _ (List.mem_singleton_self _))
    revert this
    decide
  · intro h
    exact absurd h.length_eq (by decide)
  · intro h
    exact absurd h.length_eq (by decide)

/-- C1, amended: for a Response or Event message with exactly one primary header, of a
non-empty value, in which no header name has a colon, no header line has a
line terminator inside and, for `Response: Follows`, no header line contains
the marker, `format()` returns bytes from which `read_message` queues a
message of the same kind whose headers are a permutation of the original ones,
and it reads nothing after those bytes. -/
theorem format_read_message_roundtrip (m : basic_message) (v : Str) (c : connection)
    (rest : Str)
    (hkind : m.traits = response_traits ∨ m.traits = event_traits)
    (hprimary : m.headers.filter (fun q => q.1 == m.traits) = [(m.traits, v)])
    (hv : v ≠ [])
    (hcolon : ∀ q ∈ m.headers, ':' ∉ q.1)
    (hcrlf : ∀ q ∈ m.headers, find (header_text q) CRLF = none)
    (hmarker : m.traits = response_traits → v = "Follows".toList →
      ∀ q ∈ m.headers, q.1 ≠ m.traits → find (header_text q) END_COMMAND = none) :
    ∃ (s : Str) (m1 : basic_message),
      m.format.2 = .ok s
      ∧ m1.traits = m.traits
      ∧ m1.headers.Perm m.headers
      ∧ read_message { c with input := s ++ rest }
        = (.ok (),
            if m.traits = response_traits then
              { c with input := rest, responses := c.responses ++ [m1] }
            else { c with input := rest, events := c.events ++ [m1] }) := by
  have hfirst : equal_range_first m.traits m.headers = some v := by
    rw [equal_range_first_eq_head, hprimary]; rfl
  have hmem : (m.traits, v) ∈ m.headers := by
    have : (m.traits, v) ∈ m.headers.filter (fun q => q.1 == m.traits) := by
      rw [hprimary]; exact List.mem_singleton_self _
    exact (List.mem_filter.1 this).1
  have hfmt := (format_of_some m v hfirst hv)
  have hperm : ((basic_message.mk_value m.traits v).insert_all
      (m.headers.filter (fun q => q.1 != m.traits))).headers.Perm m.headers := by
    refine (insert_all_perm _ _).trans ?_
    rw [mk_value_headers]
    show ([(m.traits, v)] ++ _).Perm _
    rw [← hprimary]
    exact List.filter_append_perm _ _
  have hlines : ∀ l ∈ (m.headers.filter (fun q => q.1 != m.traits)).map header_text,
      l ≠ [] ∧ find l CRLF = none := by
    intro l hl
    obtain ⟨q, hq, rfl⟩ := List.mem_map.1 hl
    exact ⟨header_text_ne_nil q, hcrlf q (mem_filter_ne _ _ q hq).1⟩
  have hparse := parse_headers_header_text (m.headers.filter (fun q => q.1 != m.traits))
    (fun q hq => hcolon q (mem_filter_ne _ _ q hq).1)
  have hs : m.traits ++ [':', ' '] ++ v ++ CRLF
      ++ header_lines (m.headers.filter (fun q => q.1 != m.traits)) ++ CRLF ++ rest
      = wire_lines (header_text (m.traits, v)
          :: (m.headers.filter (fun q => q.1 != m.traits)).map header_text) ++ CRLF ++ rest := by
    rw [header_lines_eq_wire_lines]
    simp [wire_lines, header_text]
  refine ⟨_, (basic_message.mk_value m.traits v).insert_all
      (m.headers.filter (fun q => q.1 != m.traits)), by rw [hfmt], ?_, hperm, ?_⟩
  · rw [insert_all_traits, mk_value_headers]
  · rcases hkind with hk | hk
    · have hp1 : parse_header (header_text (m.traits, v)) = .ok ("Response".toList, v) := by
        rw [hk]; exact parse_header_header response_traits v (by decide)
      have hrm := read_message_response_lines
        { c with input := m.traits ++ [':', ' '] ++ v ++ CRLF
            ++ header_lines (m.headers.filter (fun q => q.1 != m.traits)) ++ CRLF ++ rest }
        (header_text (m.traits, v)) v _ rest hp1 (hcrlf _ hmem) hlines hs
      rw [response_lines_plain, hparse] at hrm
      · rw [if_pos hk, hrm.1 _ rfl, hk]
      · intro hF l hl
        obtain ⟨q, hq, rfl⟩ := List.mem_map.1 hl
        exact hmarker hk hF q (mem_filter_ne _ _ q hq).1 (mem_filter_ne _ _ q hq).2
    · have hp1 : parse_header (header_text (m.traits, v)) = .ok ("Event".toList, v) := by
        rw [hk]; exact parse_header_header event_traits v (by decide)
      have hrm := read_message_event_lines
        { c with input := m.traits ++ [':', ' '] ++ v ++ CRLF
            ++ header_lines (m.headers.filter (fun q => q.1 != m.traits)) ++ CRLF ++ rest }
        (header_text (m.traits, v)) v _ rest hp1 (hcrlf _ hmem) hlines hs
      rw [event_lines_plain, hparse] at hrm
      have hne : ¬ m.traits = response_traits := by rw [hk]; decide
      rw [if_neg hne, hrm.1 _ rfl, hk]

/-! ### The queues -/

theorem read_message_nil (c : connection) (hc : c.input = []) :
    (read_message c).1 = .error .io_error := by
  simp [read_message, read_line, hc, read_line_loop]

theorem event_frame_ne_nil (b : Str) (e : basic_message) (h : event_frame b e) : b ≠ [] := by
  rintro rfl
  have h1 := h (connection.fresh []) [] rfl
  have h2 := read_message_nil (connection.fresh []) rfl
  rw [h1] at h2
  simp at h2

theorem response_frame_ne_nil (b : Str) (r : basic_message) (h : response_frame b r) :
    b ≠ [] := by
  rintro rfl
  have h1 := h (connection.fresh []) [] rfl
  have h2 := read_message_nil (connection.fresh []) rfl
  rw [h1] at h2
  simp at h2

theorem length_le_frames_bytes (fs : List (Str × basic_message))
    (h : ∀ x ∈ fs, x.1 ≠ []) : fs.length ≤ (frames_bytes fs).length := by
  induction fs with
  | nil => simp
  | cons x xs ih =>
    have h1 : 0 < x.1.length := List.length_pos.2 (h x (List.mem_cons_self _ _))
    have h2 := ih (fun y hy => h y (List.mem_cons_of_mem _ hy))
    simp only [frames_bytes, List.length_cons, List.length_append]
    omega

theorem wait_response_loop_of_ne_nil (n : Nat) (c : connection) (h : c.responses ≠ []) :
    wait_response_loop n c = (.ok (), c) := by
  have : c.responses.isEmpty = false := by
    cases hr : c.responses with
    | nil => exact absurd hr h
    | cons _ _ => rfl
  cases n <;> simp [wait_response_loop, this]

theorem wait_event_loop_of_ne_nil (n : Nat) (c : connection) (h : c.events ≠ []) :
    wait_event_loop n c = (.ok (), c) := by
  have : c.events.isEmpty = false := by
    cases hr : c.events with
    | nil => exact absurd hr h
    | cons _ _ => rfl
  cases n <;> simp [wait_event_loop, this]

theorem wait_response_loop_frames (evs : List (Str × basic_message)) (rb : Str)
    (r : basic_message) (rest : Str) (hev : ∀ x ∈ evs, event_frame x.1 x.2)
    (hr : response_frame rb r) (n : Nat) (c : connection) (hn : evs.length < n)
    (hq : c.responses = []) (hc : c.input = frames_bytes evs ++ rb ++ rest) :
    wait_response_loop n c
      = (.ok (), { c with input := rest, events := c.events ++ evs.map (·.2),
                          responses := [r] }) := by
  induction evs generalizing n c with
  | nil =>
    obtain ⟨n, rfl⟩ : ∃ m, n = m + 1 := ⟨n - 1, by simp at hn; omega⟩
    have h1 := hr c rest (by simpa [frames_bytes] using hc)
    simp only [wait_response_loop, hq, List.isEmpty_nil, if_true, h1]
    rw [wait_response_loop_of_ne_nil _ _ (by simp)]
    simp [hq]
  | cons x xs ih =>
    obtain ⟨n, rfl⟩ : ∃ m, n = m + 1 := ⟨n - 1, by simp at hn; omega⟩
    have h1 := hev x (List.mem_cons_self _ _) c (frames_bytes xs ++ rb ++ rest)
      (by simp [hc, frames_bytes])
    simp only [wait_response_loop, hq, List.isEmpty_nil, if_true, h1]
    have h2 := ih (fun y hy => hev y (List.mem_cons_of_mem _ hy)) n
      { c with input := frames_bytes xs ++ rb ++ rest, events := c.events ++ [x.2] }
      (by simp at hn; omega) hq rfl
    simpa [hq] using h2

theorem wait_event_loop_frames (rs : List (Str × basic_message)) (eb : Str)
    (e : basic_message) (rest : Str) (hrs : ∀ x ∈ rs, response_frame x.1 x.2)
    (he : event_frame eb e) (n : Nat) (c : connection) (hn : rs.length < n)
    (hq : c.events = []) (hc : c.input = frames_bytes rs ++ eb ++ rest) :
    wait_event_loop n c
      = (.ok (), { c with input := rest, responses := c.responses ++ rs.map (·.2),
                          events := [e] }) := by
  induction rs generalizing n c with
  | nil =>
    obtain ⟨n, rfl⟩ : ∃ m, n = m + 1 := ⟨n - 1, by simp at hn; omega⟩
    have h1 := he c rest (by simpa [frames_bytes] using hc)
    simp only [wait_event_loop, hq, List.isEmpty_nil, if_true, h1]
    rw [wait_event_loop_of_ne_nil _ _ (by simp)]
    simp [hq]
  | cons x xs ih =>
    obtain ⟨n, rfl⟩ : ∃ m, n = m + 1 := ⟨n - 1, by simp at hn; omega⟩
    have h1 := hrs x (List.mem_cons_self _ _) c (frames_bytes xs ++ eb ++ rest)
      (by simp [hc, frames_bytes])
    simp only [wait_event_loop, hq, List.isEmpty_nil, if_true, h1]
    have h2 := ih (fun y hy => hrs y (List.mem_cons_of_mem _ hy)) n
      { c with input := frames_bytes xs ++ eb ++ rest, responses := c.responses ++ [x.2] }
      (by simp at hn; omega) hq rfl
    simpa [hq] using h2

theorem wait_response_frames (evs : List (Str × basic_message)) (rb : Str)
    (r : basic_message) (rest : Str) (hev : ∀ x ∈ evs, event_frame x.1 x.2)
    (hr : response_frame rb r) (c : connection)
    (hq : c.responses = []) (hc : c.input = frames_bytes evs ++ rb ++ rest) :
    wait_response c
      = (.ok (), { c with input := rest, events := c.events ++ evs.map (·.2),
                          responses := [r] }) := by
  refine wait_response_loop_frames evs rb r rest hev hr _ c ?_ hq hc
  have := length_le_frames_bytes evs (fun x hx => event_frame_ne_nil _ _ (hev x hx))
  rw [hc]
  simp only [List.length_append]
  omega

theorem wait_event_frames (rs : List (Str × basic_message)) (eb : Str)
    (e : basic_message) (rest : Str) (hrs : ∀ x ∈ rs, response_frame x.1 x.2)
    (he : event_frame eb e) (c : connection)
    (hq : c.events = []) (hc : c.input = frames_bytes rs ++ eb ++ rest) :
    wait_event c
      = (.ok (), { c with input := rest, responses := c.responses ++ rs.map (·.2),
                          events := [e] }) := by
  refine wait_event_loop_frames rs eb e rest hrs he _ c ?_ hq hc
  have := length_le_frames_bytes rs (fun x hx => response_frame_ne_nil _ _ (hrs x hx))
  rw [hc]
  simp only [List.length_append]
  omega

/-- C10: started with an empty response queue on an input of events followed by a
response, `wait_response` appends the events to the event queue in arrival
order, queues the response and leaves the bytes after it unread; started with
a response queued it reads nothing and changes nothing.  `wait_event` does the
same with the two kinds exchanged. -/
theorem wait_response_keeps_events (c : connection) (ms : List (Str × basic_message))
    (lb : Str) (last : basic_message) (rest : Str)
    (hc : c.input = frames_bytes ms ++ lb ++ rest) :
    ((∀ x ∈ ms, event_frame x.1 x.2) → response_frame lb last → c.responses = [] →
        wait_response c
          = (.ok (), { c with input := rest, events := c.events ++ ms.map (·.2),
                              responses := [last] }))
    ∧ (c.responses ≠ [] → wait_response c = (.ok (), c))
    ∧ ((∀ x ∈ ms, response_frame x.1 x.2) → event_frame lb last → c.events = [] →
        wait_event c
          = (.ok (), { c with input := rest, responses := c.responses ++ ms.map (·.2),
                              events := [last] }))
    ∧ (c.events ≠ [] → wait_event c = (.ok (), c)) :=
  ⟨fun hev hr hq => wait_response_frames ms lb last rest hev hr c hq hc,
   fun hq => wait_response_loop_of_ne_nil _ c hq,
   fun hrs he hq => wait_event_frames ms lb last rest hrs he c hq hc,
   fun hq => wait_event_loop_of_ne_nil _ c hq⟩

theorem read_response_cons (c : connection) (r : basic_message) (rs : List basic_message)
    (h : c.responses = r :: rs) : read_response c = (.ok r, { c with responses := rs }) := by
  simp only [read_response, wait_response, wait_response_loop_of_ne_nil _ c (by simp [h]), h]

theorem process_responses_loop_mk (n : Nat) (inp out nm ver : Str) (evs R : List basic_message)
    (H : List response_handler_t) (rw : basic_message)
    (inv : List (response_handler_t × basic_message)) (eh : event_handlers_t)
    (einv : List (Nat × basic_message)) (hn : H.length ≤ n) :
    process_responses_loop n ⟨inp, out, nm, ver, evs, R, H, rw, inv, eh, einv⟩
      = (.ok (), ⟨inp, out, nm, ver, evs, R.drop H.length, H.drop R.length,
          rw_after (H.zip R) rw, inv ++ H.zip R, eh, einv⟩) := by
  induction n generalizing R H rw inv with
  | zero =>
    have h0 : H = [] := List.length_eq_zero.1 (Nat.le_zero.1 hn)
    subst h0
    simp [process_responses_loop, rw_after]
  | succ n ih =>
    cases H with
    | nil => simp [process_responses_loop, rw_after]
    | cons f fs =>
      cases R with
      | nil => simp [process_responses_loop, rw_after]
      | cons r rs =>
        have hrr := read_response_cons ⟨inp, out, nm, ver, evs, r :: rs, fs, rw, inv, eh, einv⟩
          r rs rfl
        simp only [process_responses_loop, List.isEmpty_cons, Bool.not_false,
          Bool.and_self, if_true, hrr]
        have hlen : fs.length ≤ n := by simp only [List.length_cons] at hn; omega
        cases f with
        | waiter =>
          simp only [invoke]
          rw [ih rs fs r (inv ++ [(response_handler_t.waiter, r)]) hlen]
          simp [rw_after]
        | callback id =>
          simp only [invoke]
          rw [ih rs fs rw (inv ++ [(response_handler_t.callback id, r)]) hlen]
          simp [rw_after]

theorem process_responses_loop_eq (n : Nat) (c : connection)
    (hn : c.response_handlers.length ≤ n) :
    process_responses_loop n c
      = (.ok (), { c with
          response_handlers := c.response_handlers.drop c.responses.length,
          responses := c.responses.drop c.response_handlers.length,
          rw_response := rw_after (c.response_handlers.zip c.responses) c.rw_response,
          invoked := c.invoked ++ c.response_handlers.zip c.responses }) := by
  cases c with
  | mk inp out nm ver evs R H rw inv eh einv =>
    exact process_responses_loop_mk n inp out nm ver evs R H rw inv eh einv hn

/-- C9: `process_responses` calls the i-th queued handler with the i-th queued response,
in order, for as long as both queues have an entry, calls nothing else, reads
nothing, and leaves the unpaired rest of each queue, so that one of the two
queues is empty on return. -/
theorem process_responses_pairs (c : connection) :
    process_responses c
      = (.ok (), { c with
          response_handlers :=
            c.response_handlers.drop (min c.response_handlers.length c.responses.length),
          responses := c.responses.drop (min c.response_handlers.length c.responses.length),
          rw_response := rw_after (c.response_handlers.zip c.responses) c.rw_response,
          invoked := c.invoked ++ c.response_handlers.zip c.responses })
    ∧ (c.response_handlers.zip c.responses).length
        = min c.response_handlers.length c.responses.length
    ∧ (∀ i (hi : i < (c.response_handlers.zip c.responses).length),
        ∃ (h1 : i < c.response_handlers.length) (h2 : i < c.responses.length),
          (c.response_handlers.zip c.responses).get ⟨i, hi⟩
            = (c.response_handlers.get ⟨i, h1⟩, c.responses.get ⟨i, h2⟩))
    ∧ ((process_responses c).2.response_handlers = []
        ∨ (process_responses c).2.responses = []) := by
  have hd1 : c.response_handlers.drop (min c.response_handlers.length c.responses.length)
      = c.response_handlers.drop c.responses.length := by
    rcases Nat.le_total c.response_handlers.length c.responses.length with h | h
    · rw [Nat.min_eq_left h, List.drop_length, List.drop_eq_nil_of_le h]
    · rw [Nat.min_eq_right h]
  have hd2 : c.responses.drop (min c.response_handlers.length c.responses.length)
      = c.responses.drop c.response_handlers.length := by
    rcases Nat.le_total c.response_handlers.length c.responses.length with h | h
    · rw [Nat.min_eq_left h]
    · rw [Nat.min_eq_right h, List.drop_length, List.drop_eq_nil_of_le h]
  have hp := process_responses_loop_eq c.response_handlers.length c (Nat.le_refl _)
  refine ⟨?_, List.length_zip _ _, ?_, ?_⟩
  · rw [hd1, hd2]; exact hp
  · intro i hi
    have hi2 := hi
    rw [List.length_zip] at hi2
    refine ⟨by omega, by omega, ?_⟩
    simp
  · rw [process_responses, hp]
    rcases Nat.le_total c.response_handlers.length c.responses.length with h | h
    · left; exact List.drop_eq_nil_of_le h
    · right; exact List.drop_eq_nil_of_le h

/-! ### Synchronous sessions -/

theorem response_waiter_wait_done (n : Nat) (c : connection) (v : Str)
    (hv : c.rw_response.main_header = .ok v) (hne : v ≠ []) :
    response_waiter_wait (n + 1) c = (.ok c.rw_response, c) := by
  have : (v == ([] : Str)) = false := by
    cases v with
    | nil => exact absurd rfl hne
    | cons _ _ => rfl
  simp [response_waiter_wait, basic_message.eq_string, hv, this]

theorem send_action_exchange (x : exchange) (c : connection) (rest : Str) (budget : Nat)
    (s v : Str) (hb : 2 ≤ budget) (hR : c.responses = []) (hH : c.response_handlers = [])
    (hc : c.input = frames_bytes x.events ++ x.reply.1 ++ rest)
    (hs : (sent_message x.command).format.2 = .ok s)
    (hev : ∀ f ∈ x.events, event_frame f.1 f.2) (hr : response_frame x.reply.1 x.reply.2)
    (hv : x.reply.2.main_header = .ok v) (hvne : v ≠ []) :
    send_action budget x.command c
      = (.ok x.reply.2, { c with
          input := rest, output := c.output ++ s,
          events := c.events ++ x.events.map (·.2),
          rw_response := x.reply.2,
          invoked := c.invoked ++ [(response_handler_t.waiter, x.reply.2)] }) := by
  obtain ⟨b, rfl⟩ : ∃ b, budget = b + 2 := ⟨budget - 2, by omega⟩
  cases c with
  | mk inp out nm ver evs R H rw inv eh einv =>
    simp only at hR hH hc
    subst hR hH hc
    have hs1 : (if (!x.command.action_id.isEmpty) = true then
        x.command.action.index_assign "ActionID".toList x.command.action_id
        else x.command.action).format.2 = .ok s := hs
    have hw := wait_response_frames x.events x.reply.1 x.reply.2 rest hev hr
      ⟨frames_bytes x.events ++ x.reply.1 ++ rest, out ++ s, nm, ver, evs, [],
        [response_handler_t.waiter], basic_message.mk_value response_traits [], inv, eh,
        einv⟩ rfl rfl
    have hp := process_responses_loop_mk 1 rest (out ++ s) nm ver (evs ++ x.events.map (·.2))
      [x.reply.2] [response_handler_t.waiter] (basic_message.mk_value response_traits []) inv
      eh einv (Nat.le_refl _)
    have h0 : (basic_message.mk_value response_traits []).eq_string [] = .ok true := by decide
    simp only [send_action, send_action_async, hs1, List.nil_append]
    rw [response_waiter_wait]
    simp only [h0, hw, process_responses, List.length_singleton, hp]
    rw [response_waiter_wait_done b _ v (by simpa [rw_after] using hv) hvne]
    simp [rw_after]

/-- C8: in a session of synchronous `send_action` calls started with empty response and
handler queues, on an input that holds, for every call in turn, any number of
events followed by one response with a non-empty `Response` value, the k-th
call returns the k-th response, the waiter is invoked once per call and
nothing else is invoked, every event is on the event queue in arrival order,
and nothing after the last response is read. -/
theorem send_action_session_order (xs : List exchange) (c : connection) (rest : Str)
    (budget : Nat) (hb : 2 ≤ budget) (hR : c.responses = []) (hH : c.response_handlers = [])
    (hc : c.input = session_bytes xs ++ rest)
    (hs : ∀ x ∈ xs, ∃ s, (sent_message x.command).format.2 = .ok s)
    (hev : ∀ x ∈ xs, ∀ f ∈ x.events, event_frame f.1 f.2)
    (hr : ∀ x ∈ xs, response_frame x.reply.1 x.reply.2)
    (hv : ∀ x ∈ xs, ∃ v, x.reply.2.main_header = .ok v ∧ v ≠ []) :
    ∃ c1, send_actions budget (xs.map (·.command)) c = (.ok (xs.map (·.reply.2)), c1)
      ∧ c1.invoked = c.invoked ++ xs.map (fun x => (response_handler_t.waiter, x.reply.2))
      ∧ c1.events = c.events ++ session_events xs
      ∧ c1.input = rest
      ∧ c1.output = c.output ++ session_output xs
      ∧ c1.responses = [] ∧ c1.response_handlers = [] := by
  induction xs generalizing c with
  | nil =>
    exact ⟨c, rfl, by simp, by simp [session_events], by simpa [session_bytes] using hc,
      by simp [session_output], hR, hH⟩
  | cons x xs ih =>
    obtain ⟨s, hs1⟩ := hs x (List.mem_cons_self _ _)
    obtain ⟨v, hv1, hv2⟩ := hv x (List.mem_cons_self _ _)
    have hstep := send_action_exchange x c (session_bytes xs ++ rest) budget s v hb hR hH
      (by rw [hc, session_bytes, List.append_assoc])
      hs1 (hev x (List.mem_cons_self _ _)) (hr x (List.mem_cons_self _ _)) hv1 hv2
    obtain ⟨c1, h1, h2, h3, h4, h5, h6, h7⟩ := ih
      { c with
        input := session_bytes xs ++ rest, output := c.output ++ s,
        events := c.events ++ x.events.map (·.2),
        rw_response := x.reply.2,
        invoked := c.invoked ++ [(response_handler_t.waiter, x.reply.2)] }
      hR hH rfl
      (fun y hy => hs y (List.mem_cons_of_mem _ hy))
      (fun y hy => hev y (List.mem_cons_of_mem _ hy))
      (fun y hy => hr y (List.mem_cons_of_mem _ hy))
      (fun y hy => hv y (List.mem_cons_of_mem _ hy))
    refine ⟨c1, ?_, ?_, ?_, h4, ?_, h6, h7⟩
    · simp only [List.map_cons, send_actions, hstep, h1]
    · rw [h2]; simp
    · rw [h3]; simp [session_events]
    · rw [h5]; simp [session_output, hs1]

/-! ### The loop budgets of the model are never used up -/

theorem read_line_loop_length (s : Str) (c : Char) (acc : Str) :
    (read_line_loop s c acc).2.length ≤ s.length
    ∧ (∀ l, (read_line_loop s c acc).1 = .ok l → (read_line_loop s c acc).2.length < s.length)
    ∧ ∀ e, (read_line_loop s c acc).1 = .error e → e = .io_error := by
  induction s generalizing c acc with
  | nil => simp [read_line_loop]
  | cons x xs ih =>
    simp only [read_line_loop]
    split_ifs with h
    · simp
    · obtain ⟨h1, h2, h3⟩ := ih x (acc ++ [x])
      refine ⟨by simp only [List.length_cons]; omega, fun l hl => ?_, h3⟩
      have := h2 l hl
      simp only [List.length_cons]; omega

theorem read_line_length (c : connection) :
    (read_line c).2.input.length ≤ c.input.length
    ∧ (∀ l, (read_line c).1 = .ok l → (read_line c).2.input.length < c.input.length)
    ∧ ∀ e, (read_line c).1 = .error e → e = .io_error := by
  obtain ⟨h1, h2, h3⟩ := read_line_loop_length c.input (Char.ofNat 0) []
  unfold read_line
  rcases hr : read_line_loop c.input (Char.ofNat 0) [] with ⟨r, rest⟩
  rw [hr] at h1 h2 h3
  simp only at h1 h2 h3
  cases r with
  | error e =>
    simp only
    exact ⟨h1, fun l hl => by simp at hl, fun e1 he => by
      simp only [Except.error.injEq] at he; subst he; exact h3 e rfl⟩
  | ok line =>
    have := h2 line rfl
    simp only
    cases find line CRLF <;> simp only <;>
      exact ⟨h1, fun _ _ => this, fun e1 he => by simp at he⟩

theorem parse_header_ne_diverged (l : Str) (e : error) (h : parse_header l = .error e) :
    e ≠ .diverged := by
  unfold parse_header at h
  split_ifs at h
  · simp only [Except.error.injEq] at h; subst h; simp
  · cases hf : find_first_of l ':' with
    | none => rw [hf] at h; simp only [Except.error.injEq] at h; subst h; simp
    | some i => rw [hf] at h; simp at h

theorem read_event_loop_length (n : Nat) (m : basic_message) (c : connection)
    (hn : c.input.length < n) :
    (∀ e, (read_event_loop n m c).1 = .error e → e ≠ .diverged)
    ∧ (read_event_loop n m c).2.input.length ≤ c.input.length := by
  induction n generalizing m c with
  | zero => omega
  | succ n ih =>
    obtain ⟨h1, h2, h3⟩ := read_line_length c
    unfold read_event_loop
    rcases hr : read_line c with ⟨r, c1⟩
    rw [hr] at h1 h2 h3
    simp only at h1 h2 h3
    cases r with
    | error e =>
      simp only
      refine ⟨fun e1 he => ?_, h1⟩
      simp only [Except.error.injEq] at he
      subst he
      rw [h3 e rfl]; simp
    | ok line =>
      have hlt := h2 line rfl
      simp only
      split_ifs
      · exact ⟨fun e1 he => by simp at he, h1⟩
      · cases hp : parse_header line with
        | error e =>
          simp only
          refine ⟨fun e1 he => ?_, h1⟩
          simp only [Except.error.injEq] at he
          subst he
          exact parse_header_ne_diverged line e hp
        | ok p =>
          simp only
          obtain ⟨h4, h5⟩ := ih (m.insert p) c1 (by omega)
          exact ⟨h4, by omega⟩

theorem read_response_loop_length (second : Str) (n : Nat) (m : basic_message)
    (c : connection) (hn : c.input.length < n) :
    (∀ e, (read_response_loop second n m c).1 = .error e → e ≠ .diverged)
    ∧ (read_response_loop second n m c).2.input.length ≤ c.input.length := by
  induction n generalizing m c with
  | zero => omega
  | succ n ih =>
    obtain ⟨h1, h2, h3⟩ := read_line_length c
    unfold read_response_loop
    rcases hr : read_line c with ⟨r, c1⟩
    rw [hr] at h1 h2 h3
    simp only at h1 h2 h3
    cases r with
    | error e =>
      simp only
      refine ⟨fun e1 he => ?_, h1⟩
      simp only [Except.error.injEq] at he
      subst he
      rw [h3 e rfl]; simp
    | ok line =>
      have hlt := h2 line rfl
      simp only
      have hparse : ∀ m1 : basic_message,
          (∀ e, (match parse_header line with
            | .error e => (Except.error e, c1)
            | .ok p => read_response_loop second n (basic_message.insert m1 p) c1).1
              = .error e → e ≠ .diverged)
          ∧ (match parse_header line with
            | .error e => ((Except.error e : Except error basic_message), c1)
            | .ok p => read_response_loop second n (basic_message.insert m1 p) c1).2.input.length
              ≤ c.input.length := by
        intro m1
        cases hp : parse_header line with
        | error e =>
          simp only
          refine ⟨fun e1 he => ?_, h1⟩
          simp only [Except.error.injEq] at he
          subst he
          exact parse_header_ne_diverged line e hp
        | ok p =>
          simp only
          obtain ⟨h4, h5⟩ := ih (m1.insert p) c1 (by omega)
          exact ⟨h4, by omega⟩
      split_ifs
      · exact ⟨fun e1 he => by simp at he, h1⟩
      · cases find line END_COMMAND with
        | some ec =>
          simp only
          obtain ⟨h4, h5⟩ := ih { m with data := line.take ec } c1 (by omega)
          exact ⟨h4, by omega⟩
        | none => simp only; exact hparse m
      · exact hparse m

theorem read_message_length (c : connection) :
    (∀ e, (read_message c).1 = .error e → e ≠ .diverged)
    ∧ (read_message c).2.input.length ≤ c.input.length
    ∧ ((read_message c).1 = .ok () → (read_message c).2.input.length < c.input.length) := by
  obtain ⟨h1, h2, h3⟩ := read_line_length c
  unfold read_message
  rcases hr : read_line c with ⟨r, c1⟩
  rw [hr] at h1 h2 h3
  simp only at h1 h2 h3
  cases r with
  | error e =>
    simp only
    refine ⟨fun e1 he => ?_, h1, fun h => by simp at h⟩
    simp only [Except.error.injEq] at he
    subst he
    rw [h3 e rfl]; simp
  | ok line =>
    have hlt := h2 line rfl
    simp only
    cases hp : parse_header line with
    | error e =>
      simp only
      refine ⟨fun e1 he => ?_, h1, fun h => by simp at h⟩
      simp only [Except.error.injEq] at he
      subst he
      exact parse_header_ne_diverged line e hp
    | ok pair =>
      simp only
      split_ifs
      · obtain ⟨h4, h5⟩ := read_event_loop_length (c1.input.length + 1)
          (basic_message.mk_value event_traits pair.2) c1 (by omega)
        rcases hl : read_event_loop (c1.input.length + 1)
            (basic_message.mk_value event_traits pair.2) c1 with ⟨r2, c2⟩
        rw [hl] at h4 h5
        simp only at h4 h5
        cases r2 with
        | error e =>
          simp only
          refine ⟨fun e1 he => ?_, by omega, fun h => by simp at h⟩
          simp only [Except.error.injEq] at he
          subst he
          exact h4 e rfl
        | ok ev =>
          simp only
          exact ⟨fun e1 he => by simp at he, by omega, fun _ => by omega⟩
      · obtain ⟨h4, h5⟩ := read_response_loop_length pair.2 (c1.input.length + 1)
          (basic_message.mk_value response_traits pair.2) c1 (by omega)
        rcases hl : read_response_loop pair.2 (c1.input.length + 1)
            (basic_message.mk_value response_traits pair.2) c1 with ⟨r2, c2⟩
        rw [hl] at h4 h5
        simp only at h4 h5
        cases r2 with
        | error e =>
          simp only
          refine ⟨fun e1 he => ?_, by omega, fun h => by simp at h⟩
          simp only [Except.error.injEq] at he
          subst he
          exact h4 e rfl
        | ok ev =>
          simp only
          exact ⟨fun e1 he => by simp at he, by omega, fun _ => by omega⟩
      · exact ⟨fun e1 he => by
          simp only [Except.error.injEq] at he; subst he; simp, h1, fun h => by simp at h⟩

theorem wait_response_loop_ne_diverged (n : Nat) (c : connection) (hn : c.input.length < n) :
    ∀ e, (wait_response_loop n c).1 = .error e → e ≠ .diverged := by
  induction n generalizing c with
  | zero => omega
  | succ n ih =>
    unfold wait_response_loop
    split_ifs
    · obtain ⟨h1, h2, h3⟩ := read_message_length c
      rcases hr : read_message c with ⟨r, c1⟩
      rw [hr] at h1 h2 h3
      simp only at h1 h2 h3
      cases r with
      | error e =>
        simp only
        intro e1 he
        simp only [Except.error.injEq] at he
        subst he
        exact h1 e rfl
      | ok u =>
        simp only
        exact ih c1 (by have := h3 rfl; omega)
    · intro e he; simp at he

/-- The budgets the model gives to the loops of `read_message` and `wait_response` are
never used up: they fail only with a failure of the source. -/
theorem wait_response_ne_diverged (c : connection) :
    ∀ e, (wait_response c).1 = .error e → e ≠ .diverged :=
  wait_response_loop_ne_diverged _ c (Nat.lt_succ_self _)

/-! ### Concrete instances -/

theorem event_frame_of_lines (first v : Str) (lines : List Str) (hs : header_t)
    (hfirst : parse_header first = .ok ("Event".toList, v)) (hfc : find first CRLF = none)
    (hl : ∀ l ∈ lines, l ≠ [] ∧ find l CRLF = none) (hp : parse_headers lines = .ok hs) :
    event_frame (wire_lines (first :: lines) ++ CRLF)
      ((basic_message.mk_value event_traits v).insert_all hs) := by
  intro c rest hc
  have h := (read_message_event_lines c first v lines rest hfirst hfc hl hc).1
  rw [event_lines_plain, hp] at h
  exact h _ rfl

theorem response_frame_of_lines (first v : Str) (lines : List Str) (hs : header_t)
    (hfirst : parse_header first = .ok ("Response".toList, v)) (hfc : find first CRLF = none)
    (hl : ∀ l ∈ lines, l ≠ [] ∧ find l CRLF = none)
    (hm : v = "Follows".toList → ∀ l ∈ lines, find l END_COMMAND = none)
    (hp : parse_headers lines = .ok hs) :
    response_frame (wire_lines (first :: lines) ++ CRLF)
      ((basic_message.mk_value response_traits v).insert_all hs) := by
  intro c rest hc
  have h := (read_message_response_lines c first v lines rest hfirst hfc hl hc).1
  rw [response_lines_plain v lines _ hm, hp] at h
  exact h _ rfl

/-- C1 at a concrete response with two headers of one name. -/
theorem format_read_message_roundtrip_witness :
    ∃ (s : Str) (m1 : basic_message),
      ({ traits := "Response".toList,
         headers := [("Message".toList, "Authentication accepted".toList),
           ("Response".toList, "Success".toList), ("Var".toList, "a=1".toList),
           ("Var".toList, "b: 2".toList)],
         data := [] } : basic_message).format.2 = .ok s
      ∧ m1.traits = "Response".toList
      ∧ m1.headers.Perm [("Message".toList, "Authentication accepted".toList),
           ("Response".toList, "Success".toList), ("Var".toList, "a=1".toList),
           ("Var".toList, "b: 2".toList)]
      ∧ read_message { connection.fresh [] with input := s ++ "Event: x".toList }
        = (.ok (),
            if "Response".toList = response_traits then
              { connection.fresh [] with
                input := "Event: x".toList,
                responses := (connection.fresh []).responses ++ [m1] }
            else
              { connection.fresh [] with
                input := "Event: x".toList, events := (connection.fresh []).events ++ [m1] }) :=
  format_read_message_roundtrip
    { traits := "Response".toList,
      headers := [("Message".toList, "Authentication accepted".toList),
        ("Response".toList, "Success".toList), ("Var".toList, "a=1".toList),
        ("Var".toList, "b: 2".toList)],
      data := [] }
    "Success".toList (connection.fresh []) "Event: x".toList
    (by decide) (by decide) (by decide) (by decide) (by decide) (by decide)

/-- C5 at a concrete Follows response: one header before the marked line, one after. -/
theorem read_message_follows_body_witness :
    read_message (connection.fresh
        "Response: Follows\r\nPrivilege: Command\r\nline one\nline two\n--END COMMAND--\r\nActionID: 7\r\n\r\nEvent: x".toList)
      = (.ok (), { connection.fresh "Event: x".toList with
          responses := [{ traits := "Response".toList,
                          headers := [("ActionID".toList, "7".toList),
                            ("Privilege".toList, "Command".toList),
                            ("Response".toList, "Follows".toList)],
                          data := "line one\nline two\n".toList }] })
    ∧ read_message (connection.fresh
        "Response: Success\r\nMessage: --END COMMAND--\r\n\r\nEvent: x".toList)
      = (.ok (), { connection.fresh "Event: x".toList with
          responses := [{ traits := "Response".toList,
                          headers := [("Message".toList, "--END COMMAND--".toList),
                            ("Response".toList, "Success".toList)],
                          data := [] }] }) :=
  ⟨((read_message_follows_body (connection.fresh []) "Response: Follows".toList
      "Follows".toList "Event: x".toList (by decide) (by decide)).1 rfl
      ["Privilege: Command".toList] ["ActionID: 7".toList]
      "line one\nline two\n--END COMMAND--".toList 18 (by decide) (by decide) (by decide)).2.1
      [("Privilege".toList, "Command".toList), ("ActionID".toList, "7".toList)] (by decide),
   (((read_message_follows_body (connection.fresh []) "Response: Success".toList
      "Success".toList "Event: x".toList (by decide) (by decide)).2 (by decide)
      ["Message: --END COMMAND--".toList] (by decide)).1
      [("Message".toList, "--END COMMAND--".toList)] (by decide)).1⟩

/-- C10 at a concrete input: two events, a response, and an event that stays unread. -/
theorem wait_response_keeps_events_witness :
    wait_response (connection.fresh
        "Event: A\r\n\r\nEvent: B\r\nK: v\r\n\r\nResponse: Success\r\n\r\nEvent: C\r\n\r\n".toList)
      = (.ok (), { connection.fresh "Event: C\r\n\r\n".toList with
          events := [{ traits := "Event".toList, headers := [("Event".toList, "A".toList)],
                       data := [] },
                     { traits := "Event".toList,
                       headers := [("Event".toList, "B".toList), ("K".toList, "v".toList)],
                       data := [] }],
          responses := [{ traits := "Response".toList,
                          headers := [("Response".toList, "Success".toList)], data := [] }] }) := by
  have hA : event_frame "Event: A\r\n\r\n".toList
      { traits := "Event".toList, headers := [("Event".toList, "A".toList)], data := [] } :=
    event_frame_of_lines "Event: A".toList "A".toList [] [] (by decide) (by decide)
      (by decide) (by decide)
  have hB : event_frame "Event: B\r\nK: v\r\n\r\n".toList
      { traits := "Event".toList,
        headers := [("Event".toList, "B".toList), ("K".toList, "v".toList)], data := [] } :=
    event_frame_of_lines "Event: B".toList "B".toList ["K: v".toList]
      [("K".toList, "v".toList)] (by decide) (by decide) (by decide) (by decide)
  have hR : response_frame "Response: Success\r\n\r\n".toList
      { traits := "Response".toList, headers := [("Response".toList, "Success".toList)],
        data := [] } :=
    response_frame_of_lines "Response: Success".toList "Success".toList [] []
      (by decide) (by decide) (by decide) (by decide) (by decide)
  exact (wait_response_keeps_events
    (connection.fresh
      "Event: A\r\n\r\nEvent: B\r\nK: v\r\n\r\nResponse: Success\r\n\r\nEvent: C\r\n\r\n".toList)
    [("Event: A\r\n\r\n".toList,
        { traits := "Event".toList, headers := [("Event".toList, "A".toList)], data := [] }),
      ("Event: B\r\nK: v\r\n\r\n".toList,
        { traits := "Event".toList,
          headers := [("Event".toList, "B".toList), ("K".toList, "v".toList)], data := [] })]
    "Response: Success\r\n\r\n".toList
    { traits := "Response".toList, headers := [("Response".toList, "Success".toList)],
      data := [] }
    "Event: C\r\n\r\n".toList (by decide)).1
    (by
      intro x hx
      simp only [List.mem_cons, List.mem_singleton, List.not_mem_nil, or_false] at hx
      rcases hx with rfl | rfl
      · exact hA
      · exact hB)
    hR rfl

/-- C8 at a concrete session: a login whose response comes after an event, then a ping
with an ActionID; an event after the second response stays unread. -/
theorem send_action_session_order_witness :
    ∃ c1, send_actions 2
        [{ action := login_action "u".toList "s".toList, action_id := [] },
         { action := basic_message.mk_value action_traits "Ping".toList,
           action_id := "7".toList }]
        (connection.fresh
          "Event: A\r\n\r\nResponse: Success\r\n\r\nResponse: Pong\r\nActionID: 7\r\n\r\nEvent: C\r\n\r\n".toList)
        = (.ok [{ traits := "Response".toList,
                  headers := [("Response".toList, "Success".toList)], data := [] },
                { traits := "Response".toList,
                  headers := [("ActionID".toList, "7".toList),
                    ("Response".toList, "Pong".toList)], data := [] }], c1)
      ∧ c1.invoked
        = [(response_handler_t.waiter,
            { traits := "Response".toList,
              headers := [("Response".toList, "Success".toList)], data := [] }),
           (response_handler_t.waiter,
            { traits := "Response".toList,
              headers := [("ActionID".toList, "7".toList),
                ("Response".toList, "Pong".toList)], data := [] })]
      ∧ c1.events
        = [{ traits := "Event".toList, headers := [("Event".toList, "A".toList)], data := [] }]
      ∧ c1.input = "Event: C\r\n\r\n".toList
      ∧ c1.output
        = "Action: Login\r\nSecret: s\r\nUsername: u\r\n\r\nAction: Ping\r\nActionID: 7\r\n\r\n".toList
      ∧ c1.responses = [] ∧ c1.response_handlers = [] := by
  have hA : event_frame "Event: A\r\n\r\n".toList
      { traits := "Event".toList, headers := [("Event".toList, "A".toList)], data := [] } :=
    event_frame_of_lines "Event: A".toList "A".toList [] [] (by decide) (by decide)
      (by decide) (by decide)
  have hR1 : response_frame "Response: Success\r\n\r\n".toList
      { traits := "Response".toList, headers := [("Response".toList, "Success".toList)],
        data := [] } :=
    response_frame_of_lines "Response: Success".toList "Success".toList [] []
      (by decide) (by decide) (by decide) (by decide) (by decide)
  have hR2 : response_frame "Response: Pong\r\nActionID: 7\r\n\r\n".toList
      { traits := "Response".toList,
        headers := [("ActionID".toList, "7".toList), ("Response".toList, "Pong".toList)],
        data := [] } :=
    response_frame_of_lines "Response: Pong".toList "Pong".toList ["ActionID: 7".toList]
      [("ActionID".toList, "7".toList)] (by decide) (by decide) (by decide) (by decide)
      (by decide)
  exact send_action_session_order
    [{ command := { action := login_action "u".toList "s".toList, action_id := [] },
       events := [("Event: A\r\n\r\n".toList,
         { traits := "Event".toList, headers := [("Event".toList, "A".toList)], data := [] })],
       reply := ("Response: Success\r\n\r\n".toList,
         { traits := "Response".toList, headers := [("Response".toList, "Success".toList)],
           data := [] }) },
     { command := { action := basic_message.mk_value action_traits "Ping".toList,
                    action_id := "7".toList },
       events := [],
       reply := ("Response: Pong\r\nActionID: 7\r\n\r\n".toList,
         { traits := "Response".toList,
           headers := [("ActionID".toList, "7".toList), ("Response".toList, "Pong".toList)],
           data := [] }) }]
    (connection.fresh
      "Event: A\r\n\r\nResponse: Success\r\n\r\nResponse: Pong\r\nActionID: 7\r\n\r\nEvent: C\r\n\r\n".toList)
    "Event: C\r\n\r\n".toList 2 (Nat.le_refl 2) rfl rfl (by decide)
    (by
      intro x hx
      simp only [List.mem_cons, List.mem_singleton, List.not_mem_nil, or_false] at hx
      rcases hx with rfl | rfl
      · exact ⟨"Action: Login\r\nSecret: s\r\nUsername: u\r\n\r\n".toList, by decide⟩
      · exact ⟨"Action: Ping\r\nActionID: 7\r\n\r\n".toList, by decide⟩)
    (by
      intro x hx
      simp only [List.mem_cons, List.mem_singleton, List.not_mem_nil, or_false] at hx
      rcases hx with rfl | rfl
      · intro f hf
        simp only [List.mem_singleton] at hf
        subst hf
        exact hA
      · intro f hf
        simp at hf)
    (by
      intro x hx
      simp only [List.mem_cons, List.mem_singleton, List.not_mem_nil, or_false] at hx
      rcases hx with rfl | rfl
      · exact hR1
      · exact hR2)
    (by
      intro x hx
      simp only [List.mem_cons, List.mem_singleton, List.not_mem_nil, or_false] at hx
      rcases hx with rfl | rfl
      · exact ⟨"Success".toList, by decide, by decide⟩
      · exact ⟨"Pong".toList, by decide, by decide⟩)

/-! ### The waiter and an empty `Response` value -/

theorem process_responses_of_no_handler (c : connection) (h : c.response_handlers = []) :
    process_responses c = (.ok (), c) := by
  simp [process_responses, h, process_responses_loop]

theorem response_waiter_wait_stuck (n : Nat) (c : connection)
    (h1 : c.rw_response.eq_string [] = .ok true) (h2 : c.responses ≠ [])
    (h3 : c.response_handlers = []) :
    response_waiter_wait n c = (.error .diverged, c) := by
  induction n with
  | zero => rfl
  | succ n ih =>
    simp only [response_waiter_wait, h1, wait_response, wait_response_loop_of_ne_nil _ c h2,
      process_responses_of_no_handler c h3, ih]

/-- C11, the code at a response with an empty `Response` value: the waiter is called
with it, and `send_action` does not return it: it reads the next message and,
with a second response queued and no handler left, goes round the loop of
`response_waiter::wait` without end, whatever the number of turns allowed. -/
theorem send_action_empty_response_value (budget : Nat) :
    send_action (budget + 2) { action := login_action "u".toList "s".toList, action_id := [] }
        (connection.fresh "Response: \r\n\r\nResponse: Success\r\n\r\n".toList)
      = (.error .diverged, { connection.fresh [] with
          output := "Action: Login\r\nSecret: s\r\nUsername: u\r\n\r\n".toList,
          responses := [{ traits := "Response".toList,
                          headers := [("Response".toList, "Success".toList)], data := [] }],
          rw_response := { traits := "Response".toList,
                           headers := [("Response".toList, [])], data := [] },
          invoked := [(response_handler_t.waiter,
            { traits := "Response".toList, headers := [("Response".toList, [])],
              data := [] })] }) := by
  have h : send_action (budget + 2)
      { action := login_action "u".toList "s".toList, action_id := [] }
      (connection.fresh "Response: \r\n\r\nResponse: Success\r\n\r\n".toList)
      = response_waiter_wait budget { connection.fresh [] with
          output := "Action: Login\r\nSecret: s\r\nUsername: u\r\n\r\n".toList,
          responses := [{ traits := "Response".toList,
                          headers := [("Response".toList, "Success".toList)], data := [] }],
          rw_response := { traits := "Response".toList,
                           headers := [("Response".toList, [])], data := [] },
          invoked := [(response_handler_t.waiter,
            { traits := "Response".toList, headers := [("Response".toList, [])],
              data := [] })] } := rfl
  rw [h, response_waiter_wait_stuck budget _ (by decide) (by decide) rfl]

/-! ### Event dispatch -/

theorem signal_call_eq (s : signal) (e : basic_message) :
    signal_call s e = ((s.filter (·.2)).map (·.1)).map (fun f => (f, e)) := by
  simp [signal_call, List.map_map, Function.comp_def]

theorem call_handlers_eq (name : Str) (e : basic_message) (c : connection) :
    call_handlers name e c
      = { c with event_invoked := c.event_invoked
            ++ (subscribers name c.event_handlers).map (fun f => (f, e)) } := by
  unfold call_handlers subscribers
  cases handlers_find name c.event_handlers with
  | none => simp
  | some s => simp only [signal_call_eq]

theorem process_events_loop_mk (n : Nat) (inp out nm ver : Str) (evs R : List basic_message)
    (H : List response_handler_t) (rw : basic_message)
    (inv : List (response_handler_t × basic_message)) (eh : event_handlers_t)
    (einv : List (Nat × basic_message)) (hn : evs.length ≤ n)
    (hp : ∀ e ∈ evs, ∃ name, e.main_header = .ok name) :
    process_events_loop n ⟨inp, out, nm, ver, evs, R, H, rw, inv, eh, einv⟩
      = (.ok (), ⟨inp, out, nm, ver, [], R, H, rw, inv, eh, einv ++ dispatch_all eh evs⟩) := by
  induction evs generalizing n einv with
  | nil => cases n <;> simp [process_events_loop, dispatch_all]
  | cons e es ih =>
    obtain ⟨n, rfl⟩ : ∃ m, n = m + 1 := ⟨n - 1, by simp at hn; omega⟩
    obtain ⟨name, hname⟩ := hp e (List.mem_cons_self _ _)
    simp only [process_events_loop, hname, call_handlers_eq]
    rw [ih n _ (by simp at hn; omega) (fun x hx => hp x (List.mem_cons_of_mem _ hx))]
    simp [dispatch_all, dispatch, hname]

theorem process_events_eq (c : connection)
    (hp : ∀ e ∈ c.events, ∃ name, e.main_header = .ok name) :
    process_events c
      = (.ok (), { c with
          events := [],
          event_invoked := c.event_invoked ++ dispatch_all c.event_handlers c.events }) := by
  cases c with
  | mk inp out nm ver evs R H rw inv eh einv =>
    exact process_events_loop_mk evs.length inp out nm ver evs R H rw inv eh einv
      (Nat.le_refl _) hp

/-! ### The subscriber registry -/

theorem handlers_find_append_new (e name : Str) (m : event_handlers_t)
    (h : handlers_find e m = none) :
    handlers_find name (m ++ [(e, [])])
      = if name = e then some [] else handlers_find name m := by
  induction m with
  | nil =>
    by_cases hn : name = e
    · simp [handlers_find, hn]
    · have : ¬ e = name := fun h => hn h.symm
      simp [handlers_find, hn, this]
  | cons q m ih =>
    unfold handlers_find at h ih ⊢
    by_cases hq : q.1 = e
    · simp [List.find?_cons, hq] at h
    · have hb : (q.1 == e) = false := by simpa using hq
      simp only [List.find?_cons, hb] at h
      by_cases hqn : q.1 = name
      · have : ¬ name = e := fun h => hq (hqn.trans h)
        simp [List.find?_cons, hqn, this]
      · have hb2 : (q.1 == name) = false := by simpa using hqn
        simp only [List.cons_append, List.find?_cons, hb2]
        exact ih h

theorem subscribers_handlers_insert (e name : Str) (m : event_handlers_t) :
    subscribers name (handlers_insert e m) = subscribers name m := by
  unfold handlers_insert
  cases h : handlers_find e m with
  | some s => rfl
  | none =>
    simp only [subscribers, handlers_find_append_new e name m h]
    by_cases hn : name = e
    · subst hn; simp [h]
    · simp [hn]

theorem handlers_find_insert_isSome (e : Str) (m : event_handlers_t) :
    ∃ s, handlers_find e (handlers_insert e m) = some s := by
  unfold handlers_insert
  cases h : handlers_find e m with
  | some s => exact ⟨s, h⟩
  | none => exact ⟨[], by simp [handlers_find_append_new e e m h]⟩

theorem handlers_connect_find (e : Str) (f : Nat) (m : event_handlers_t) (s : signal)
    (h : handlers_find e m = some s) :
    (handlers_connect e f m).2 = s.length
    ∧ ∀ name, handlers_find name (handlers_connect e f m).1
        = if name = e then some (s ++ [(f, true)]) else handlers_find name m := by
  induction m with
  | nil => simp [handlers_find] at h
  | cons q m ih =>
    unfold handlers_find at h ih ⊢
    by_cases hq : q.1 = e
    · simp only [List.find?_cons, hq, beq_self_eq_true, Option.map_some',
        Option.some.injEq] at h
      subst h
      refine ⟨by simp [handlers_connect, hq, signal_connect], fun name => ?_⟩
      by_cases hn : name = e
      · simp [handlers_connect, hq, signal_connect, hn, List.find?_cons]
      · have hb : (e == name) = false := by simpa using fun h => hn h.symm
        simp [handlers_connect, hq, signal_connect, hn, List.find?_cons, hb]
    · have hb : (q.1 == e) = false := by simpa using hq
      simp only [List.find?_cons, hb] at h
      obtain ⟨h1, h2⟩ := ih h
      refine ⟨by simp [handlers_connect, hb, h1], fun name => ?_⟩
      simp only [handlers_connect, hb, Bool.false_eq_true, if_false, List.cons_eq_cons,
        List.find?_cons]
      by_cases hqn : q.1 = name
      · have : ¬ name = e := fun h => hq (hqn.trans h)
        simp [hqn, this]
      · have hb2 : (q.1 == name) = false := by simpa using hqn
        simp only [hb2]
        exact h2 name

theorem handlers_disconnect_find (h : subscription) (m : event_handlers_t) (s : signal)
    (hs : handlers_find h.1 m = some s) :
    ∀ name, handlers_find name (handlers_disconnect h m)
        = if name = h.1 then some (signal_disconnect s h.2) else handlers_find name m := by
  induction m with
  | nil => simp [handlers_find] at hs
  | cons q m ih =>
    unfold handlers_find at hs ih ⊢
    intro name
    by_cases hq : q.1 = h.1
    · simp only [List.find?_cons, hq, beq_self_eq_true, Option.map_some',
        Option.some.injEq] at hs
      subst hs
      by_cases hn : name = h.1
      · simp [handlers_disconnect, hq, hn, List.find?_cons]
      · have hb : (h.1 == name) = false := by simpa using fun h => hn h.symm
        simp [handlers_disconnect, hq, hn, List.find?_cons, hb]
    · have hb : (q.1 == h.1) = false := by simpa using hq
      simp only [List.find?_cons, hb] at hs
      simp only [handlers_disconnect, hb, Bool.false_eq_true, if_false, List.find?_cons]
      by_cases hqn : q.1 = name
      · have : ¬ name = h.1 := fun h => hq (hqn.trans h)
        simp [hqn, this]
      · have hb2 : (q.1 == name) = false := by simpa using hqn
        simp only [hb2]
        exact ih hs name

theorem signal_disconnect_append (s t : signal) (p : Nat × Bool) :
    signal_disconnect (s ++ p :: t) s.length = s ++ (p.1, false) :: t := by
  induction s with
  | nil => rfl
  | cons q s ih => simp [signal_disconnect, ih]

theorem register_event_find (e : Str) (f : Nat) (c : connection) :
    (register_event e f c).1 = (e, ((handlers_find e c.event_handlers).getD []).length)
    ∧ ∀ name, handlers_find name (register_event e f c).2.event_handlers
        = if name = e then some ((handlers_find e c.event_handlers).getD [] ++ [(f, true)])
          else handlers_find name c.event_handlers := by
  unfold register_event handlers_insert
  cases h : handlers_find e c.event_handlers with
  | some s =>
    obtain ⟨h1, h2⟩ := handlers_connect_find e f c.event_handlers s h
    exact ⟨by simp [h1], fun name => by simpa using h2 name⟩
  | none =>
    have h0 : handlers_find e (c.event_handlers ++ [(e, [])]) = some [] := by
      simp [handlers_find_append_new e e c.event_handlers h]
    obtain ⟨h1, h2⟩ := handlers_connect_find e f (c.event_handlers ++ [(e, [])]) [] h0
    refine ⟨by simp [h1], fun name => ?_⟩
    simp only [h2 name, handlers_find_append_new e name c.event_handlers h, Option.getD_none]
    by_cases hn : name = e <;> simp [hn]

theorem subscribers_register_event (e : Str) (f : Nat) (c : connection) (name : Str) :
    subscribers name (register_event e f c).2.event_handlers
      = if name = e then subscribers e c.event_handlers ++ [f]
        else subscribers name c.event_handlers := by
  simp only [subscribers, (register_event_find e f c).2 name]
  by_cases hn : name = e
  · subst hn
    simp only [if_true]
    cases handlers_find name c.event_handlers <;> simp
  · simp [hn]

theorem release_find (h : subscription) (c : connection) (s : signal)
    (hs : handlers_find h.1 c.event_handlers = some s) (name : Str) :
    handlers_find name (release h c).event_handlers
      = if name = h.1 then some (signal_disconnect s h.2)
        else handlers_find name c.event_handlers :=
  handlers_disconnect_find h c.event_handlers s hs name

/-- C12: `process_events` takes the queued events in queue order; for each event it calls
the subscribers registered under the name of the event, in registration
order, then the subscribers registered under the empty name, in registration
order; the event queue is empty when it returns, whether a subscriber
matched or not.  Registration puts a subscriber after those registered
earlier under the same name. -/
theorem process_events_order (c : connection)
    (hp : ∀ e ∈ c.events, ∃ name, e.main_header = .ok name) :
    process_events c
      = (.ok (), { c with
          events := [],
          event_invoked := c.event_invoked ++ dispatch_all c.event_handlers c.events })
    ∧ (∀ e name, e.main_header = .ok name →
        dispatch c.event_handlers e
          = (subscribers name c.event_handlers).map (fun f => (f, e))
            ++ (subscribers [] c.event_handlers).map (fun f => (f, e)))
    ∧ ∀ name f,
        subscribers name (register_event name f c).2.event_handlers
          = subscribers name c.event_handlers ++ [f] := by
  refine ⟨process_events_eq c hp, fun e name h => ?_, fun name f => ?_⟩
  · simp [dispatch, h]
  · simp [subscribers_register_event]

/-- C13, the code at an event with an empty name: with one subscriber registered under
the empty name, reading `Event: ` and dispatching calls that subscriber
twice with the one event. -/
theorem process_events_empty_name_twice :
    (process_events
        (read_message (register_event [] 7 (connection.fresh "Event: \r\n\r\n".toList)).2).2).2.event_invoked
      = [(7, { traits := "Event".toList, headers := [("Event".toList, [])], data := [] }),
         (7, { traits := "Event".toList, headers := [("Event".toList, [])], data := [] })] := by
  decide

/-- C14: registering a callback under a name keeps the subscribers that name has and
puts the callback after them, and touches no other name; registering the same
callback twice gives two handles and two calls per event of that name;
releasing either handle leaves one of the two and every other subscriber. -/
theorem register_event_twice_release_one (c : connection) (name : Str) (f : Nat) :
    subscribers name (register_event name f c).2.event_handlers
      = subscribers name c.event_handlers ++ [f]
    ∧ subscribers name (register_event name f (register_event name f c).2).2.event_handlers
      = subscribers name c.event_handlers ++ [f, f]
    ∧ (register_event name f c).1 ≠ (register_event name f (register_event name f c).2).1
    ∧ subscribers name
        (release (register_event name f c).1
          (register_event name f (register_event name f c).2).2).event_handlers
      = subscribers name c.event_handlers ++ [f]
    ∧ subscribers name
        (release (register_event name f (register_event name f c).2).1
          (register_event name f (register_event name f c).2).2).event_handlers
      = subscribers name c.event_handlers ++ [f]
    ∧ (∀ other, other ≠ name →
        subscribers other (register_event name f (register_event name f c).2).2.event_handlers
          = subscribers other c.event_handlers
        ∧ subscribers other
            (release (register_event name f c).1
              (register_event name f (register_event name f c).2).2).event_handlers
          = subscribers other c.event_handlers
        ∧ subscribers other
            (release (register_event name f (register_event name f c).2).1
              (register_event name f (register_event name f c).2).2).event_handlers
          = subscribers other c.event_handlers)
    ∧ ∀ e, e.main_header = .ok name → name ≠ [] →
        (process_events { (register_event name f (register_event name f c).2).2 with
            events := [e] }).2.event_invoked
          = c.event_invoked
            ++ (subscribers name c.event_handlers ++ [f, f]
                ++ subscribers [] c.event_handlers).map (fun g => (g, e))
        ∧ (process_events { release (register_event name f c).1
              (register_event name f (register_event name f c).2).2 with
            events := [e] }).2.event_invoked
          = c.event_invoked
            ++ (subscribers name c.event_handlers ++ [f]
                ++ subscribers [] c.event_handlers).map (fun g => (g, e)) := by
  have hs1 := subscribers_register_event name f c
  have hs2 := subscribers_register_event name f (register_event name f c).2
  have hf1 := register_event_find name f c
  have hf2 := register_event_find name f (register_event name f c).2
  have hfind2 : handlers_find name
      (register_event name f (register_event name f c).2).2.event_handlers
      = some ((handlers_find name c.event_handlers).getD [] ++ [(f, true)] ++ [(f, true)]) := by
    rw [hf2.2 name, if_pos rfl, hf1.2 name, if_pos rfl]; rfl
  have hh1 : (register_event name f c).1
      = (name, ((handlers_find name c.event_handlers).getD []).length) := hf1.1
  have hh2 : (register_event name f (register_event name f c).2).1
      = (name, ((handlers_find name c.event_handlers).getD []).length + 1) := by
    rw [hf2.1, hf1.2 name, if_pos rfl]; simp
  have hsub0 : subscribers name c.event_handlers
      = (((handlers_find name c.event_handlers).getD []).filter (·.2)).map (·.1) := by
    unfold subscribers
    cases handlers_find name c.event_handlers <;> rfl
  have hr1 : ∀ nm, handlers_find nm
      (release (name, ((handlers_find name c.event_handlers).getD []).length)
        (register_event name f (register_event name f c).2).2).event_handlers
      = if nm = name then some (signal_disconnect
          ((handlers_find name c.event_handlers).getD [] ++ [(f, true)] ++ [(f, true)])
          ((handlers_find name c.event_handlers).getD []).length)
        else handlers_find nm
          (register_event name f (register_event name f c).2).2.event_handlers :=
    fun nm => release_find (name, ((handlers_find name c.event_handlers).getD []).length)
      (register_event name f (register_event name f c).2).2 _ hfind2 nm
  have hr2 : ∀ nm, handlers_find nm
      (release (name, ((handlers_find name c.event_handlers).getD []).length + 1)
        (register_event name f (register_event name f c).2).2).event_handlers
      = if nm = name then some (signal_disconnect
          ((handlers_find name c.event_handlers).getD [] ++ [(f, true)] ++ [(f, true)])
          (((handlers_find name c.event_handlers).getD []).length + 1))
        else handlers_find nm
          (register_event name f (register_event name f c).2).2.event_handlers :=
    fun nm => release_find (name, ((handlers_find name c.event_handlers).getD []).length + 1)
      (register_event name f (register_event name f c).2).2 _ hfind2 nm
  have hd1 : signal_disconnect
      ((handlers_find name c.event_handlers).getD [] ++ [(f, true)] ++ [(f, true)])
      ((handlers_find name c.event_handlers).getD []).length
      = (handlers_find name c.event_handlers).getD [] ++ [(f, false), (f, true)] := by
    rw [List.append_assoc]
    exact signal_disconnect_append _ [(f, true)] (f, true)
  have hd2 : signal_disconnect
      ((handlers_find name c.event_handlers).getD [] ++ [(f, true)] ++ [(f, true)])
      (((handlers_find name c.event_handlers).getD []).length + 1)
      = (handlers_find name c.event_handlers).getD [] ++ [(f, true), (f, false)] := by
    have := signal_disconnect_append ((handlers_find name c.event_handlers).getD [] ++ [(f, true)])
      [] (f, true)
    simpa using this
  have hrel1 : subscribers name
      (release (register_event name f c).1
        (register_event name f (register_event name f c).2).2).event_handlers
      = subscribers name c.event_handlers ++ [f] := by
    rw [hsub0, hh1]
    simp only [subscribers, hr1 name, if_true, hd1]
    simp [List.filter_cons]
  have hrel2 : subscribers name
      (release (register_event name f (register_event name f c).2).1
        (register_event name f (register_event name f c).2).2).event_handlers
      = subscribers name c.event_handlers ++ [f] := by
    rw [hsub0, hh2]
    simp only [subscribers, hr2 name, if_true, hd2]
    simp [List.filter_cons]
  have hother : ∀ other, other ≠ name →
      subscribers other (register_event name f (register_event name f c).2).2.event_handlers
        = subscribers other c.event_handlers
      ∧ subscribers other
          (release (register_event name f c).1
            (register_event name f (register_event name f c).2).2).event_handlers
        = subscribers other c.event_handlers
      ∧ subscribers other
          (release (register_event name f (register_event name f c).2).1
            (register_event name f (register_event name f c).2).2).event_handlers
        = subscribers other c.event_handlers := by
    intro other ho
    have h2 : subscribers other
        (register_event name f (register_event name f c).2).2.event_handlers
        = subscribers other c.event_handlers := by
      rw [hs2 other, if_neg ho, hs1 other, if_neg ho]
    refine ⟨h2, ?_, ?_⟩
    · rw [← h2, hh1]
      simp only [subscribers, hr1 other, if_neg ho]
    · rw [← h2, hh2]
      simp only [subscribers, hr2 other, if_neg ho]
  have htwice : subscribers name
      (register_event name f (register_event name f c).2).2.event_handlers
      = subscribers name c.event_handlers ++ [f, f] := by
    rw [hs2 name, if_pos rfl, hs1 name, if_pos rfl]; simp
  refine ⟨by rw [hs1 name, if_pos rfl], htwice, ?_, hrel1, hrel2, hother, ?_⟩
  · rw [hh1, hh2]
    intro h
    simp at h
  · intro e he hne
    have hne2 : ([] : Str) ≠ name := fun h => hne h.symm
    constructor
    · rw [process_events_eq _ (by
        intro x hx
        simp only [List.mem_singleton] at hx
        subst hx
        exact ⟨name, he⟩)]
      simp only [dispatch_all, dispatch, he, List.append_nil, htwice, (hother [] hne2).1]
      rfl
    · rw [process_events_eq _ (by
        intro x hx
        simp only [List.mem_singleton] at hx
        subst hx
        exact ⟨name, he⟩)]
      simp only [dispatch_all, dispatch, he, List.append_nil]
      have h1 : (release (register_event name f c).1
          (register_event name f (register_event name f c).2).2).event_invoked
          = c.event_invoked := rfl
      have h2 : ({ release (register_event name f c).1
            (register_event name f (register_event name f c).2).2 with
          events := [e] } : connection).event_handlers
          = (release (register_event name f c).1
              (register_event name f (register_event name f c).2).2).event_handlers := rfl
      rw [h2, hrel1, (hother [] hne2).2.1]
      rfl

/-- C12 at the scenario of the spec: `H` (2, then 1) under `QueueMember`, a catch-all 9;
an event `QueueMember` and an event of another name. -/
theorem process_events_order_witness :
    process_events { connection.fresh [] with
        events := [{ traits := "Event".toList,
                     headers := [("Event".toList, "QueueMember".toList),
                       ("Paused".toList, "1".toList)], data := [] },
                   { traits := "Event".toList,
                     headers := [("Event".toList, "Other".toList)], data := [] }],
        event_handlers := [("QueueMember".toList, [(2, true), (1, true)]),
          ([], [(9, true)])] }
      = (.ok (), { connection.fresh [] with
          event_handlers := [("QueueMember".toList, [(2, true), (1, true)]),
            ([], [(9, true)])],
          event_invoked :=
            [(2, { traits := "Event".toList,
                   headers := [("Event".toList, "QueueMember".toList),
                     ("Paused".toList, "1".toList)], data := [] }),
             (1, { traits := "Event".toList,
                   headers := [("Event".toList, "QueueMember".toList),
                     ("Paused".toList, "1".toList)], data := [] }),
             (9, { traits := "Event".toList,
                   headers := [("Event".toList, "QueueMember".toList),
                     ("Paused".toList, "1".toList)], data := [] }),
             (9, { traits := "Event".toList,
                   headers := [("Event".toList, "Other".toList)], data := [] })] }) :=
  (process_events_order { connection.fresh [] with
      events := [{ traits := "Event".toList,
                   headers := [("Event".toList, "QueueMember".toList),
                     ("Paused".toList, "1".toList)], data := [] },
                 { traits := "Event".toList,
                   headers := [("Event".toList, "Other".toList)], data := [] }],
      event_handlers := [("QueueMember".toList, [(2, true), (1, true)]),
        ([], [(9, true)])] }
    (by
      intro e he
      simp only [List.mem_cons, List.mem_singleton, List.not_mem_nil, or_false] at he
      rcases he with rfl | rfl
      · exact ⟨"QueueMember".toList, by decide⟩
      · exact ⟨"Other".toList, by decide⟩)).1

/-- C14 at a concrete registry: callback 5 registered twice under `QueueMember`, after a
callback 4 of that name and beside a catch-all 9; then the first handle
released. -/
theorem register_event_twice_release_one_witness :
    (process_events { release (register_event "QueueMember".toList 5
          { connection.fresh [] with
            event_handlers := [("QueueMember".toList, [(4, true)]), ([], [(9, true)])] }).1
        (register_event "QueueMember".toList 5 (register_event "QueueMember".toList 5
          { connection.fresh [] with
            event_handlers := [("QueueMember".toList, [(4, true)]),
              ([], [(9, true)])] }).2).2 with
        events := [{ traits := "Event".toList,
                     headers := [("Event".toList, "QueueMember".toList)],
                     data := [] }] }).2.event_invoked
      = [(4, { traits := "Event".toList, headers := [("Event".toList, "QueueMember".toList)],
               data := [] }),
         (5, { traits := "Event".toList, headers := [("Event".toList, "QueueMember".toList)],
               data := [] }),
         (9, { traits := "Event".toList, headers := [("Event".toList, "QueueMember".toList)],
               data := [] })] :=
  ((register_event_twice_release_one
    { connection.fresh [] with
      event_handlers := [("QueueMember".toList, [(4, true)]), ([], [(9, true)])] }
    "QueueMember".toList 5).2.2.2.2.2.2
    { traits := "Event".toList, headers := [("Event".toList, "QueueMember".toList)],
      data := [] } (by decide) (by decide)).2

/-! ### The default error mapping -/

theorem index_fst (m : basic_message) (k : Str) :
    (m.index k).1 = (equal_range_first k m.headers).getD [] := by
  unfold basic_message.index
  cases equal_range_first k m.headers <;> rfl

theorem eq_string_of_main_header (m : basic_message) (v s : Str)
    (h : m.main_header = .ok v) : m.eq_string s = .ok (v == s) := by
  simp [basic_message.eq_string, h]

/-- C15: for a response whose primary value is `Error`, `handle_response` raises the
failure that belongs to the text of the first `Message` header: permission
denied and authentication required for the two constants, `missing_data`,
`bad_data` and `channel_not_found`, with that text and the message of the
action, for the eleven fixed texts, and nothing for any other text; it raises
nothing when the primary value is not `Error`.  The two constants are taken
to differ from each other and from the eleven texts. -/
theorem handle_response_error_mapping (perm auth : Str) (self : basic_action)
    (r : basic_message) (hpa : perm ≠ auth)
    (hp : perm ∉ missing_data_messages ++ bad_data_messages ++ ["No such channel".toList])
    (ha : auth ∉ missing_data_messages ++ bad_data_messages ++ ["No such channel".toList]) :
    (r.main_header = .ok "Error".toList →
        (message_of r = perm → handle_response perm auth self r = .error .permission_denied)
      ∧ (message_of r = auth →
          handle_response perm auth self r = .error .authentication_required)
      ∧ (message_of r ∈ missing_data_messages →
          handle_response perm auth self r
            = .error (.missing_data (message_of r) self.action))
      ∧ (message_of r ∈ bad_data_messages →
          handle_response perm auth self r = .error (.bad_data (message_of r) self.action))
      ∧ (message_of r = "No such channel".toList →
          handle_response perm auth self r
            = .error (.channel_not_found (message_of r) self.action))
      ∧ (message_of r ≠ perm → message_of r ≠ auth →
          message_of r ∉ missing_data_messages ++ bad_data_messages
            ++ ["No such channel".toList] →
          ∃ r1, handle_response perm auth self r = .ok r1))
    ∧ ∀ v, r.main_header = .ok v → v ≠ "Error".toList →
        handle_response perm auth self r = .ok r := by
  constructor
  · intro hmain
    have he : r.eq_string "Error".toList = .ok true := by
      rw [eq_string_of_main_header r _ _ hmain]; rfl
    simp only [handle_response, he, index_fst, message_of]
    generalize (equal_range_first "Message".toList r.headers).getD [] = msg
    have hall : ∀ p : Str,
        p ∉ missing_data_messages ++ bad_data_messages ++ ["No such channel".toList] →
        (msg ∈ missing_data_messages ∨ msg ∈ bad_data_messages
          ∨ msg = "No such channel".toList) → ¬ msg = p := by
      intro p hp h e
      apply hp
      rw [← e]
      simp only [List.mem_append, List.mem_singleton]
      tauto
    refine ⟨?_, ?_, ?_, ?_, ?_, ?_⟩
    · intro h; rw [if_pos h]
    · intro h
      rw [if_neg (fun e => hpa (e.symm.trans h)), if_pos h]
    · intro h
      rw [if_neg (hall perm hp (Or.inl h)), if_neg (hall auth ha (Or.inl h))]
      simp only [missing_data_messages, List.mem_cons, List.mem_singleton, List.not_mem_nil,
        or_false] at h
      rcases h with h | h | h | h | h | h | h <;> subst h <;> simp +decide
    · intro h
      rw [if_neg (hall perm hp (Or.inr (Or.inl h))), if_neg (hall auth ha (Or.inr (Or.inl h)))]
      simp only [bad_data_messages, List.mem_cons, List.mem_singleton, List.not_mem_nil,
        or_false] at h
      rcases h with h | h | h <;> subst h <;> simp +decide
    · intro h
      rw [if_neg (hall perm hp (Or.inr (Or.inr h))), if_neg (hall auth ha (Or.inr (Or.inr h)))]
      subst h
      simp +decide
    · intro h1 h2 h3
      simp only [missing_data_messages, bad_data_messages, List.cons_append, List.nil_append,
        List.mem_cons, List.mem_singleton, List.not_mem_nil, or_false, not_or] at h3
      obtain ⟨a1, a2, a3, a4, a5, a6, a7, a8, a9, a10, a11⟩ := h3
      simp only [if_neg h1, if_neg h2, if_neg a1, if_neg a2, if_neg a3, if_neg a4, if_neg a5,
        if_neg a6, if_neg a7, if_neg a8, if_neg a9, if_neg a10, if_neg a11]
      exact ⟨_, rfl⟩
  · intro v hv hne
    have : (v == "Error".toList) = false := by simpa using hne
    simp only [handle_response, eq_string_of_main_header r v _ hv, this]

/-- C15 at concrete constants and responses: `No such channel` raises
`channel_not_found` with the text and the action, and the same text in lower
case raises nothing. -/
theorem handle_response_error_mapping_witness :
    handle_response "Permission denied".toList "Authentication Required".toList
        { action := login_action "u".toList "s".toList, action_id := [] }
        { traits := "Response".toList,
          headers := [("Message".toList, "No such channel".toList),
            ("Response".toList, "Error".toList)], data := [] }
      = .error (.channel_not_found "No such channel".toList (login_action "u".toList "s".toList))
    ∧ ∃ r1, handle_response "Permission denied".toList "Authentication Required".toList
        { action := login_action "u".toList "s".toList, action_id := [] }
        { traits := "Response".toList,
          headers := [("Message".toList, "no such channel".toList),
            ("Response".toList, "Error".toList)], data := [] }
      = .ok r1 :=
  ⟨((handle_response_error_mapping "Permission denied".toList "Authentication Required".toList
      { action := login_action "u".toList "s".toList, action_id := [] }
      { traits := "Response".toList,
        headers := [("Message".toList, "No such channel".toList),
          ("Response".toList, "Error".toList)], data := [] }
      (by decide) (by decide) (by decide)).1 (by decide)).2.2.2.2.1 (by decide),
   ((handle_response_error_mapping "Permission denied".toList "Authentication Required".toList
      { action := login_action "u".toList "s".toList, action_id := [] }
      { traits := "Response".toList,
        headers := [("Message".toList, "no such channel".toList),
          ("Response".toList, "Error".toList)], data := [] }
      (by decide) (by decide) (by decide)).1 (by decide)).2.2.2.2.2
      (by decide) (by decide) (by decide)⟩

/-- C16, the code at an `Error` response without a `Message` header: when neither
constant is the empty text, `handle_response` raises nothing and returns the
response with one header more, an empty `Message`, which `response["Message"]`
created. -/
theorem handle_response_adds_message_header (perm auth : Str) (self : basic_action)
    (r : basic_message) (hmain : r.main_header = .ok "Error".toList)
    (hnone : equal_range_first "Message".toList r.headers = none)
    (hp : perm ≠ []) (ha : auth ≠ []) :
    handle_response perm auth self r
      = .ok { r with headers := multimap_insert ("Message".toList, []) r.headers }
    ∧ (multimap_insert ("Message".toList, []) r.headers).length = r.headers.length + 1 := by
  have he : r.eq_string "Error".toList = .ok true := by
    rw [eq_string_of_main_header r _ _ hmain]; rfl
  refine ⟨?_, by rw [(multimap_insert_perm _ _).length_eq]; rfl⟩
  have h1 : ¬ ([] : Str) = perm := fun h => hp h.symm
  have h2 : ¬ ([] : Str) = auth := fun h => ha h.symm
  simp only [handle_response, he, basic_message.index, hnone, if_neg h1, if_neg h2]
  simp +decide

/-- C16 at the response `Response: Error` alone. -/
theorem handle_response_adds_message_header_witness :
    handle_response "Permission denied".toList "Authentication Required".toList
        { action := login_action "u".toList "s".toList, action_id := [] }
        { traits := "Response".toList, headers := [("Response".toList, "Error".toList)],
          data := [] }
      = .ok { traits := "Response".toList,
              headers := [("Message".toList, []), ("Response".toList, "Error".toList)],
              data := [] } :=
  (handle_response_adds_message_header "Permission denied".toList
    "Authentication Required".toList
    { action := login_action "u".toList "s".toList, action_id := [] }
    { traits := "Response".toList, headers := [("Response".toList, "Error".toList)],
      data := [] }
    (by decide) (by decide) (by decide) (by decide)).1

/-! ### The login action -/

/-- C17: `login::handle_response` returns a response exactly when its primary value is
`Success`, and then returns it as passed; it passes on what the default
mapping raises; when the default mapping raises nothing and the primary value
is not `Success` it raises `login_error` with the value of the first
`Message` header; for `Response: Error`, `Message: Authentication failed`
that is `login_error` with `Authentication failed`, the two constants being
other texts. -/
theorem login_handle_response_spec (perm auth : Str) (self : basic_action)
    (r : basic_message) :
    (∀ r1, login_handle_response perm auth self r = .ok r1
        ↔ (r.main_header = .ok "Success".toList ∧ r1 = r))
    ∧ (∀ e, handle_response perm auth self r = .error e →
        login_handle_response perm auth self r = .error e)
    ∧ (∀ r0, handle_response perm auth self r = .ok r0 →
        r.main_header ≠ .ok "Success".toList →
        login_handle_response perm auth self r = .error (.login_error (message_of r)))
    ∧ (perm ≠ "Authentication failed".toList → auth ≠ "Authentication failed".toList →
        login_handle_response perm auth self
            { traits := "Response".toList,
              headers := [("Message".toList, "Authentication failed".toList),
                ("Response".toList, "Error".toList)], data := [] }
          = .error (.login_error "Authentication failed".toList)) := by
  have hbase_ok : ∀ v, r.main_header = .ok v → v ≠ "Error".toList →
      handle_response perm auth self r = .ok r := by
    intro v hv hne
    have : (v == "Error".toList) = false := by simpa using hne
    simp only [handle_response, eq_string_of_main_header r v _ hv, this]
  have hbase_missing : ∀ e, r.main_header = .error e →
      handle_response perm auth self r = .error (.manager e) := by
    intro e he
    simp only [handle_response, basic_message.eq_string, he]
  refine ⟨?_, ?_, ?_, ?_⟩
  · intro r1
    constructor
    · intro h
      unfold login_handle_response at h
      cases hb : handle_response perm auth self r with
      | error e => rw [hb] at h; simp at h
      | ok r0 =>
        rw [hb] at h
        simp only at h
        cases hm : r.main_header with
        | error e => rw [hbase_missing e hm] at hb; simp at hb
        | ok v =>
          rw [eq_string_of_main_header r v _ hm] at h
          by_cases hv : v = "Success".toList
          · subst hv
            simp only [beq_self_eq_true, Except.ok.injEq] at h
            exact ⟨rfl, h.symm⟩
          · have : (v == "Success".toList) = false := by simpa using hv
            rw [this] at h
            simp at h
    · rintro ⟨hm, rfl⟩
      unfold login_handle_response
      rw [hbase_ok _ hm (by decide), eq_string_of_main_header r1 _ _ hm]
      simp
  · intro e he
    simp only [login_handle_response, he]
  · intro r0 h0 hne
    unfold login_handle_response
    rw [h0]
    simp only
    cases hm : r.main_header with
    | error e => rw [hbase_missing e hm] at h0; simp at h0
    | ok v =>
      have hv : v ≠ "Success".toList := fun h => hne (by rw [hm, h])
      have : (v == "Success".toList) = false := by simpa using hv
      rw [eq_string_of_main_header r v _ hm, this]
      simp only [index_fst, message_of]
  · intro hp ha
    have h1 : ¬ "Authentication failed".toList = perm := fun h => hp h.symm
    have h2 : ¬ "Authentication failed".toList = auth := fun h => ha h.symm
    have hm : message_of
        { traits := "Response".toList,
          headers := [("Message".toList, "Authentication failed".toList),
            ("Response".toList, "Error".toList)],
          data := [] }
        = "Authentication failed".toList := by decide
    have hmain : basic_message.main_header
        { traits := "Response".toList,
          headers := [("Message".toList, "Authentication failed".toList),
            ("Response".toList, "Error".toList)],
          data := [] }
        = .ok "Error".toList := by decide
    have he := eq_string_of_main_header _ _ "Error".toList hmain
    have hs := eq_string_of_main_header _ _ "Success".toList hmain
    simp only [login_handle_response, handle_response, he, hs, index_fst]
    change message_of _ = _ at hm
    simp only [message_of] at hm
    simp only [hm, if_neg h1, if_neg h2]
    simp +decide

/-- C17 at the constants `Permission denied` and `Authentication Required`: the
scenario of the spec. -/
theorem login_handle_response_spec_witness :
    login_handle_response "Permission denied".toList "Authentication Required".toList
        { action := login_action "u".toList "s".toList, action_id := [] }
        { traits := "Response".toList,
          headers := [("Message".toList, "Authentication failed".toList),
            ("Response".toList, "Error".toList)], data := [] }
      = .error (.login_error "Authentication failed".toList) :=
  (login_handle_response_spec "Permission denied".toList "Authentication Required".toList
    { action := login_action "u".toList "s".toList, action_id := [] }
    { traits := "Response".toList, headers := [], data := [] }).2.2.2 (by decide) (by decide)

/-! ### The ActionID header -/

theorem equal_range_first_assign_first (t k v : Str) (hs : header_t) (h : t ≠ k) :
    equal_range_first t (assign_first k v hs) = equal_range_first t hs := by
  induction hs with
  | nil => rfl
  | cons q qs ih =>
    unfold equal_range_first at ih ⊢
    simp only [assign_first]
    by_cases hq : q.1 = k
    · have hqt : (q.1 == t) = false := by
        simpa using fun e => h (e.symm.trans hq)
      simp [hq, List.find?_cons, hqt]
      have : (k == t) = false := by simpa using fun e => h e.symm
      simp [this]
    · have hb : (q.1 == k) = false := by simpa using hq
      simp only [hb, Bool.false_eq_true, if_false, List.find?_cons]
      cases (q.1 == t)
      · exact ih
      · rfl

theorem equal_range_first_multimap_insert (t : Str) (p : Str × Str) (hs : header_t)
    (h : p.1 ≠ t) :
    equal_range_first t (multimap_insert p hs) = equal_range_first t hs := by
  have hp : (p.1 == t) = false := by simpa using h
  induction hs with
  | nil => simp [multimap_insert, equal_range_first, List.find?_cons, hp]
  | cons q qs ih =>
    unfold equal_range_first at ih ⊢
    simp only [multimap_insert]
    split_ifs
    · simp only [List.find?_cons, hp]
    · simp only [List.find?_cons]
      cases (q.1 == t)
      · exact ih
      · rfl

theorem equal_range_first_index_assign (m : basic_message) (t k v : Str) (h : t ≠ k) :
    equal_range_first t (m.index_assign k v).headers = equal_range_first t m.headers := by
  unfold basic_message.index_assign
  cases equal_range_first k m.headers with
  | some _ => exact equal_range_first_assign_first t k v m.headers h
  | none => exact equal_range_first_multimap_insert t (k, v) m.headers (fun e => h e.symm)

theorem index_assign_traits (m : basic_message) (k v : Str) :
    (m.index_assign k v).traits = m.traits := by
  unfold basic_message.index_assign
  cases equal_range_first k m.headers <;> rfl

theorem count_assign_first (k v : Str) (hs : header_t)
    (h : equal_range_first k hs ≠ none) :
    (assign_first k v hs).count (k, v)
      = 1 + ((hs.filter (fun q => q.1 == k)).tail).count (k, v) := by
  induction hs with
  | nil => exact absurd rfl h
  | cons q qs ih =>
    simp only [assign_first]
    by_cases hq : q.1 = k
    · have hf : ∀ l : header_t, (l.filter (fun q => q.1 == k)).count (k, v) = l.count (k, v) := by
        intro l
        exact List.count_filter (by simp)
      simp only [hq, beq_self_eq_true, if_true, List.filter_cons, List.tail_cons, hf,
        List.count_cons_self]
      omega
    · have hb : (q.1 == k) = false := by simpa using hq
      have hne : ¬ (q == (k, v)) = true := by
        intro e
        rw [beq_iff_eq] at e
        exact hq (by rw [e])
      have h2 : equal_range_first k qs ≠ none := by
        unfold equal_range_first at h ⊢
        simpa [List.find?_cons, hb] using h
      simp only [hb, Bool.false_eq_true, if_false, List.filter_cons, List.count_cons, hne,
        Nat.add_zero]
      exact ih h2

theorem count_of_no_key (k v : Str) (hs : header_t) (h : equal_range_first k hs = none) :
    hs.count (k, v) = 0 := by
  rw [List.count_eq_zero]
  intro hmem
  unfold equal_range_first at h
  have : hs.find? (fun q => q.1 == k) = none := by
    cases hf : hs.find? (fun q => q.1 == k) with
    | none => rfl
    | some x => rw [hf] at h; simp at h
  rw [List.find?_eq_none] at this
  exact this (k, v) hmem (by simp)

theorem count_index_assign (m : basic_message) (k v : Str)
    (h : (k, v) ∉ (m.headers.filter (fun q => q.1 == k)).tail) :
    (m.index_assign k v).headers.count (k, v) = 1 := by
  unfold basic_message.index_assign
  cases he : equal_range_first k m.headers with
  | some x =>
    show (assign_first k v m.headers).count (k, v) = 1
    rw [count_assign_first k v m.headers (by rw [he]; simp), List.count_eq_zero.2 h]
  | none =>
    show (multimap_insert (k, v) m.headers).count (k, v) = 1
    have hc : (multimap_insert (k, v) m.headers).count (k, v)
        = ((k, v) :: m.headers).count (k, v) := (multimap_insert_perm _ _).countP_eq _
    rw [hc, List.count_cons_self, count_of_no_key k v m.headers he]

/-- C18, counterexample: an action whose message has two `ActionID` headers, the second
with the value `b`, sent with the action id `b`, is written with two lines
`ActionID: b`. -/
theorem send_action_async_two_action_id_lines :
    (send_action_async
        { action := { traits := "Action".toList,
                      headers := [("Action".toList, "X".toList),
                        ("ActionID".toList, "a".toList), ("ActionID".toList, "b".toList)],
                      data := [] },
          action_id := "b".toList }
        (response_handler_t.callback 0) (connection.fresh [])).2.output
      = "Action: X\r\nActionID: b\r\nActionID: b\r\n\r\n".toList := by
  decide

/-- C18, amended: for an action whose message has a non-empty `Action` value, sent with a
non-empty action id, when no `ActionID` header of the message after the first
has that id as its value, `send_action_async` writes the `Action` line, then
the lines of headers among which `ActionID` with the id occurs exactly once,
then the empty line; with an empty action id it writes the message of the
action as it is; and `parse_header` gives back the name and the id from the
line `ActionID: ` followed by the id. -/
theorem send_action_async_action_id (command : basic_action) (handler : response_handler_t)
    (c : connection) (v : Str) (htraits : command.action.traits = action_traits)
    (hprim : equal_range_first action_traits command.action.headers = some v) (hv : v ≠ []) :
    (command.action_id ≠ [] →
      ("ActionID".toList, command.action_id)
        ∉ (command.action.headers.filter (fun q => q.1 == "ActionID".toList)).tail →
      ∃ hs : header_t,
        send_action_async command handler c
          = (.ok (), { c with
              output := c.output
                ++ (action_traits ++ [':', ' '] ++ v ++ CRLF ++ header_lines hs ++ CRLF),
              response_handlers := c.response_handlers ++ [handler] })
        ∧ hs.count ("ActionID".toList, command.action_id) = 1)
    ∧ (command.action_id = [] →
        sent_message command = command.action
        ∧ send_action_async command handler c
          = (.ok (), { c with
              output := c.output
                ++ (action_traits ++ [':', ' '] ++ v ++ CRLF
                  ++ header_lines (command.action.headers.filter
                      (fun q => q.1 != action_traits)) ++ CRLF),
              response_handlers := c.response_handlers ++ [handler] }))
    ∧ parse_header ("ActionID".toList ++ [':', ' '] ++ command.action_id)
        = .ok ("ActionID".toList, command.action_id) := by
  refine ⟨fun hne hdup => ?_, fun he => ?_, parse_header_header _ _ (by decide)⟩
  · have hb : (!command.action_id.isEmpty) = true := by
      cases h : command.action_id with
      | nil => exact absurd h hne
      | cons _ _ => rfl
    have ht : (command.action.index_assign "ActionID".toList command.action_id).traits
        = action_traits := by rw [index_assign_traits, htraits]
    have hf : equal_range_first
        (command.action.index_assign "ActionID".toList command.action_id).traits
        (command.action.index_assign "ActionID".toList command.action_id).headers = some v := by
      rw [ht, equal_range_first_index_assign _ _ _ _ (by decide), hprim]
    refine ⟨(command.action.index_assign "ActionID".toList command.action_id).headers.filter
      (fun q => q.1 != action_traits), ?_, ?_⟩
    · simp only [send_action_async, hb, if_true, format_of_some _ v hf hv, ht]
    · have hk : ("ActionID".toList != action_traits) = true := by decide
      exact (List.count_filter (p := fun q : Str × Str => q.1 != action_traits) hk).trans
        (count_index_assign _ _ _ hdup)
  · have hb : (!command.action_id.isEmpty) = false := by rw [he]; rfl
    have hf : equal_range_first command.action.traits command.action.headers = some v := by
      rw [htraits]; exact hprim
    refine ⟨by simp [sent_message, hb], ?_⟩
    simp only [send_action_async, hb, Bool.false_eq_true, if_false, format_of_some _ v hf hv,
      htraits]

/-- C18 at a ping sent with the action id `7`. -/
theorem send_action_async_action_id_witness :
    ∃ hs : header_t,
      send_action_async
          { action := basic_message.mk_value action_traits "Ping".toList,
            action_id := "7".toList }
          (response_handler_t.callback 0) (connection.fresh [])
        = (.ok (), { connection.fresh [] with
            output := (connection.fresh []).output
              ++ (action_traits ++ [':', ' '] ++ "Ping".toList ++ CRLF ++ header_lines hs
                ++ CRLF),
            response_handlers := (connection.fresh []).response_handlers
              ++ [response_handler_t.callback 0] })
      ∧ hs.count ("ActionID".toList, "7".toList) = 1 :=
  (send_action_async_action_id
    { action := basic_message.mk_value action_traits "Ping".toList, action_id := "7".toList }
    (response_handler_t.callback 0) (connection.fresh []) "Ping".toList
    (by decide) (by decide) (by decide)).1 (by decide) (by decide)

/-! ### The Timeout header of Originate -/

theorem filter_multimap_insert_of_false (f : Str × Str → Bool) (p : Str × Str) (l : header_t)
    (hp : f p = false) : (multimap_insert p l).filter f = l.filter f := by
  induction l with
  | nil => simp [multimap_insert, hp]
  | cons q qs ih =>
    simp only [multimap_insert]
    split_ifs
    · rw [List.filter_cons, hp]; simp
    · rw [List.filter_cons, ih, List.filter_cons]

theorem filter_key_assign_first (t k v : Str) (hs : header_t) (h : k ≠ t) :
    (assign_first k v hs).filter (fun q => q.1 == t) = hs.filter (fun q => q.1 == t) := by
  induction hs with
  | nil => rfl
  | cons q qs ih =>
    simp only [assign_first]
    by_cases hq : q.1 = k
    · have hqt : (q.1 == t) = false := by simpa using fun e => h (hq.symm.trans e)
      simp only [hq, beq_self_eq_true, if_true, List.filter_cons]
      have hkt : (k == t) = false := by simpa using h
      rw [hq] at hqt
      simp [hkt]
    · have hb : (q.1 == k) = false := by simpa using hq
      simp only [hb, Bool.false_eq_true, if_false, List.filter_cons, ih]

theorem filter_key_index_assign_ne (m : basic_message) (t k v : Str) (h : k ≠ t) :
    (m.index_assign k v).headers.filter (fun q => q.1 == t)
      = m.headers.filter (fun q => q.1 == t) := by
  unfold basic_message.index_assign
  cases equal_range_first k m.headers with
  | some _ => exact filter_key_assign_first t k v m.headers h
  | none =>
    exact filter_multimap_insert_of_false _ (k, v) m.headers (by simpa using h)

theorem filter_key_index_assign_new (m : basic_message) (t v : Str)
    (h : m.headers.filter (fun q => q.1 == t) = []) :
    (m.index_assign t v).headers.filter (fun q => q.1 == t) = [(t, v)] := by
  have hnone : equal_range_first t m.headers = none := by
    rw [equal_range_first_eq_head, h]; rfl
  unfold basic_message.index_assign
  rw [hnone]
  have hp := (multimap_insert_perm (t, v) m.headers).filter (fun q => q.1 == t)
  rw [List.filter_cons, h] at hp
  simp only [beq_self_eq_true, if_true] at hp
  exact List.perm_singleton.1 hp

theorem filter_key_insert_ne (m : basic_message) (t : Str) (p : Str × Str) (h : p.1 ≠ t) :
    (m.insert p).headers.filter (fun q => q.1 == t) = m.headers.filter (fun q => q.1 == t) :=
  filter_multimap_insert_of_false _ p m.headers (by simpa using h)

theorem filter_headers_ite (b : Prop) [Decidable b] (x y : basic_message)
    (f : Str × Str → Bool) :
    (if b then x else y).headers.filter f
      = if b then x.headers.filter f else y.headers.filter f := by
  split_ifs <;> rfl

theorem filter_timeout_originate_variables (vs : List (Str × Str)) (a : basic_message) :
    (originate_variables vs a).headers.filter (fun q => q.1 == "Timeout".toList)
      = a.headers.filter (fun q => q.1 == "Timeout".toList) := by
  induction vs generalizing a with
  | nil => rfl
  | cons x xs ih =>
    simp only [originate_variables]
    have hne : ("Variable".toList, x.1 ++ ['='] ++ x.2).1 ≠ "Timeout".toList := by
      show "Variable".toList ≠ "Timeout".toList
      decide
    rw [ih, filter_key_insert_ne _ _ _ hne]

theorem filter_key_optional_assign (b : Bool) (a : basic_message) (t k v : Str) (h : k ≠ t) :
    (if b = true then a.index_assign k v else a).headers.filter (fun q => q.1 == t)
      = a.headers.filter (fun q => q.1 == t) := by
  cases b
  · rfl
  · simp only [if_true]
    exact filter_key_index_assign_ne a t k v h

/-- C19: the message `originate::action()` builds has no `Timeout` header when the
timeout is zero or a special value other than positive infinity, the one
header `Timeout: -1` when it is positive infinity, and otherwise the one
header `Timeout` with the decimal number of whole milliseconds of the
duration. -/
theorem originate_timeout_header (o : originate) :
    (originate_action o).headers.filter (fun q => q.1 == "Timeout".toList)
      = (match o.m_timeout with
        | .ticks n =>
          if n = 0 then [] else [("Timeout".toList, lexical_cast (n.tdiv 1000))]
        | .special .pos_infin => [("Timeout".toList, "-1".toList)]
        | .special _ => [])
    ∧ lexical_cast ((30000500 : Int).tdiv 1000) = "30000".toList
    ∧ lexical_cast ((-1500999 : Int).tdiv 1000) = "-1500".toList
    ∧ lexical_cast ((999 : Int).tdiv 1000) = "0".toList := by
  refine ⟨?_, by decide, by decide, by decide⟩
  have hCo : "Context".toList ≠ "Timeout".toList := by decide
  have hEx : "Exten".toList ≠ "Timeout".toList := by decide
  have hPr : "Priority".toList ≠ "Timeout".toList := by decide
  have hAp : "Application".toList ≠ "Timeout".toList := by decide
  have hDa : "Data".toList ≠ "Timeout".toList := by decide
  have hCh : "Channel".toList ≠ "Timeout".toList := by decide
  have hCa : "CallerID".toList ≠ "Timeout".toList := by decide
  have hAc : "Account".toList ≠ "Timeout".toList := by decide
  have hAs : "Async".toList ≠ "Timeout".toList := by decide
  have h0 : ((basic_message.mk_value action_traits "Originate".toList).index_assign
      "Channel".toList o.channel).headers.filter (fun q => q.1 == "Timeout".toList) = [] := by
    rw [filter_key_index_assign_ne _ _ _ _ hCh]
    decide
  have h1 : (if (!o.context.isEmpty) = true then
          ((((basic_message.mk_value action_traits "Originate".toList).index_assign
            "Channel".toList o.channel).index_assign "Context".toList o.context).index_assign
            "Exten".toList o.exten).index_assign "Priority".toList o.priority
        else
          (((basic_message.mk_value action_traits "Originate".toList).index_assign
            "Channel".toList o.channel).index_assign "Application".toList
            o.application).index_assign
            "Data".toList o.data).headers.filter (fun q => q.1 == "Timeout".toList) = [] := by
    rw [filter_headers_ite]
    split_ifs
    · rw [filter_key_index_assign_ne _ _ _ _ hPr, filter_key_index_assign_ne _ _ _ _ hEx,
        filter_key_index_assign_ne _ _ _ _ hCo, h0]
    · rw [filter_key_index_assign_ne _ _ _ _ hDa, filter_key_index_assign_ne _ _ _ _ hAp, h0]
  unfold originate_action
  simp only []
  rw [filter_timeout_originate_variables, filter_key_optional_assign _ _ _ _ _ hAs,
    filter_key_optional_assign _ _ _ _ _ hAc, filter_key_optional_assign _ _ _ _ _ hCa]
  cases ht : o.m_timeout with
  | ticks n =>
    by_cases hn : n = 0
    · subst hn
      simp only [time_duration.is_special, bne_self_eq_false, Bool.and_false,
        Bool.false_eq_true, if_false, if_true]
      rw [if_neg (by decide)]
      exact h1
    · have hne : (time_duration.ticks n != time_duration.ticks 0) = true := by
        simpa using hn
      simp only [time_duration.is_special, Bool.not_false, Bool.true_and, hne, if_true,
        if_neg hn, time_duration.total_milliseconds]
      exact filter_key_index_assign_new _ _ _ h1
  | special v =>
    cases v with
    | pos_infin =>
      simp only [time_duration.is_special, Bool.not_true, Bool.false_and, Bool.false_eq_true,
        if_false, beq_self_eq_true, if_true]
      exact filter_key_index_assign_new _ _ _ h1
    | not_a_date_time =>
      simp only [time_duration.is_special, Bool.not_true, Bool.false_and, Bool.false_eq_true,
        if_false]
      rw [if_neg (by decide)]
      exact h1
    | neg_infin =>
      simp only [time_duration.is_special, Bool.not_true, Bool.false_and, Bool.false_eq_true,
        if_false]
      rw [if_neg (by decide)]
      exact h1

/-! ### UserEvent -/

theorem user_event_base_headers (event : Str) :
    ((basic_message.mk_value action_traits "UserEvent".toList).index_assign
      "UserEvent".toList event).headers
      = [("Action".toList, "UserEvent".toList), ("UserEvent".toList, event)] := by
  rfl

/-- C20: what `user_event::action()` returns depends on the value its loop variable
happens to hold, which the source never sets.  Started at the beginning of
the extra headers the message is the one described: `Action: UserEvent`,
`UserEvent: n` and every extra header, duplicates kept.  Started at the end
it carries no extra header at all, and started at no position of the
collection it is no message. -/
theorem user_event_action_start (event : Str) (headers : header_t) :
    user_event_action event headers none = none
    ∧ (∃ m, user_event_action event headers (some 0) = some m
        ∧ m.headers.Perm
          (("Action".toList, "UserEvent".toList) :: ("UserEvent".toList, event) :: headers))
    ∧ (∃ m, user_event_action event headers (some headers.length) = some m
        ∧ m.headers = [("Action".toList, "UserEvent".toList), ("UserEvent".toList, event)])
    ∧ user_event_action "Foo".toList [("K".toList, "v".toList)] (some 1)
        ≠ user_event_action "Foo".toList [("K".toList, "v".toList)] (some 0) := by
  refine ⟨rfl, ⟨((basic_message.mk_value action_traits
      "UserEvent".toList).index_assign "UserEvent".toList event).insert_all headers, ?_, ?_⟩,
    ⟨(basic_message.mk_value action_traits
      "UserEvent".toList).index_assign "UserEvent".toList event, ?_, ?_⟩, by decide⟩
  · simp only [user_event_action, Nat.zero_le, if_true, List.drop_zero]
  · have h := insert_all_perm ((basic_message.mk_value action_traits
      "UserEvent".toList).index_assign "UserEvent".toList event) headers
    rw [user_event_base_headers] at h
    exact h
  · simp only [user_event_action, le_refl, if_true, List.drop_length,
      basic_message.insert_all, List.foldl_nil]
  · exact user_event_base_headers event

/-! ### parse_header and its reference definition -/

theorem find_first_of_of_not_mem (l : Str) (c : Char) (h : c ∉ l) : find_first_of l c = none := by
  induction l with
  | nil => rfl
  | cons x xs ih =>
    have hx : x ≠ c := fun e => h (e ▸ List.mem_cons_self _ _)
    simp [find_first_of, hx, ih (fun m => h (List.mem_cons_of_mem _ m))]

theorem split_at_colon (l : Str) (h : ':' ∈ l) :
    ∃ r, l.dropWhile (fun c => c != ':') = ':' :: r
      ∧ l = l.takeWhile (fun c => c != ':') ++ ':' :: r
      ∧ ':' ∉ l.takeWhile (fun c => c != ':') := by
  induction l with
  | nil => simp at h
  | cons x xs ih =>
    by_cases hx : x = ':'
    · subst hx
      exact ⟨xs, by simp [List.dropWhile], by simp [List.takeWhile], by simp [List.takeWhile]⟩
    · have hmem : ':' ∈ xs := by
        rcases List.mem_cons.1 h with e | e
        · exact absurd e.symm hx
        · exact e
      obtain ⟨r, h1, h2, h3⟩ := ih hmem
      have hb : (x != ':') = true := by simpa using hx
      refine ⟨r, by simp [List.dropWhile, hb, h1], ?_, ?_⟩
      · simp only [List.takeWhile, hb, List.cons_append]
        exact congrArg _ h2
      · simp only [List.takeWhile, hb, List.mem_cons, not_or]
        exact ⟨fun e => hx e.symm, h3⟩

/-- C34: `parse_header` equals its reference definition on every line: `empty_header` for
the empty line, `parse_error` for a line without a colon, and otherwise the
text before the first colon with the text after it less one leading space. -/
theorem parse_header_eq_reference (line : Str) :
    parse_header line = parse_header_reference line
    ∧ parse_header "a:  b".toList = .ok ("a".toList, " b".toList)
    ∧ parse_header "a:b:c".toList = .ok ("a".toList, "b:c".toList)
    ∧ parse_header "a:".toList = .ok ("a".toList, [])
    ∧ parse_header [] = .error .empty_header
    ∧ parse_header "abc".toList
      = .error (.parse_error "missing ':' in header: abc".toList) := by
  refine ⟨?_, by decide, by decide, by decide, by decide, by decide⟩
  cases line with
  | nil => rfl
  | cons x xs =>
    by_cases hmem : ':' ∈ x :: xs
    · obtain ⟨r, h1, h2, h3⟩ := split_at_colon (x :: xs) hmem
      have hfind : find_first_of (x :: xs) ':'
          = some ((x :: xs).takeWhile (fun c => c != ':')).length := by
        conv_lhs => rw [h2]
        exact find_first_of_append _ r ':' h3
      have hne : ¬ (x :: xs = []) := by simp
      have hnn : ¬ (':' ∉ x :: xs) := fun e => e hmem
      simp only [parse_header_reference, hne, hnn, if_false, h1, List.drop_succ_cons,
        List.drop_zero]
      simp only [parse_header, List.isEmpty_cons, Bool.false_eq_true, if_false, hfind]
      generalize hn : (x :: xs).takeWhile (fun c => c != ':') = n at h2 h3 ⊢
      rw [h2]
      have htake : (n ++ ':' :: r).take n.length = n := List.take_left' rfl
      have hget : (n ++ ':' :: r).getD (n.length + 1) (Char.ofNat 0) = r.getD 0 (Char.ofNat 0) := by
        rw [List.getD_append_right _ _ _ _ (by omega)]
        simp
      rw [htake, hget]
      cases r with
      | nil =>
        have hd : (n ++ [':']).drop (n.length + 1) = [] := by
          rw [List.drop_eq_nil_iff]; simp
        simp +decide [hd, strip_space]
      | cons y ys =>
        by_cases hy : y = ' '
        · subst hy
          have hd : (n ++ ':' :: ' ' :: ys).drop (n.length + 1 + 1) = ys := by
            rw [show n ++ ':' :: ' ' :: ys = (n ++ [':', ' ']) ++ ys by simp]
            exact List.drop_left' (by simp)
          simp [hd, strip_space]
        · have hd : (n ++ ':' :: y :: ys).drop (n.length + 1) = y :: ys := by
            rw [show n ++ ':' :: y :: ys = (n ++ [':']) ++ (y :: ys) by simp]
            exact List.drop_left' (by simp)
          have hs : strip_space (y :: ys) = y :: ys := by
            unfold strip_space
            split
            · rename_i heq
              exact absurd (List.cons.inj heq).1 hy
            · rfl
          simp [hd, hy, hs]
    · have hfind := find_first_of_of_not_mem (x :: xs) ':' hmem
      have hne : ¬ (x :: xs = []) := by simp
      simp only [parse_header_reference, hne, hmem, not_false_eq_true, if_false, if_true]
      simp only [parse_header, List.isEmpty_cons, Bool.false_eq_true, if_false, hfind]

/-! ### Routing of inbound messages -/

theorem equal_range_first_mem (t x : Str) (hs : header_t)
    (h : equal_range_first t hs = some x) : ∃ b ∈ hs, b.1 = t := by
  unfold equal_range_first at h
  cases hf : hs.find? (fun q => q.1 == t) with
  | none => rw [hf] at h; cases h
  | some b =>
    exact ⟨b, List.mem_of_find?_eq_some hf, by simpa using List.find?_some hf⟩

theorem equal_range_first_cons (t : Str) (q : Str × Str) (qs : header_t) :
    equal_range_first t (q :: qs)
      = if q.1 = t then some q.2 else equal_range_first t qs := by
  unfold equal_range_first
  by_cases h : q.1 = t
  · simp [List.find?_cons, h]
  · have hb : (q.1 == t) = false := by simpa using h
    simp [List.find?_cons, hb, h]

/-- In a multimap in key order a new entry never comes before the first entry of a key. -/
theorem equal_range_first_insert_sorted (t x : Str) (p : Str × Str) (hs : header_t)
    (hsorted : hs.Pairwise (fun a b => str_lt b.1 a.1 = false))
    (h : equal_range_first t hs = some x) :
    equal_range_first t (multimap_insert p hs) = some x := by
  induction hs with
  | nil => simp [equal_range_first] at h
  | cons q qs ih =>
    rw [List.pairwise_cons] at hsorted
    rw [equal_range_first_cons] at h
    simp only [multimap_insert]
    by_cases hlt : str_lt p.1 q.1 = true
    · rw [if_pos hlt, equal_range_first_cons, equal_range_first_cons]
      have hpt : p.1 ≠ t := by
        intro e
        by_cases hq : q.1 = t
        · rw [e, hq, str_lt_irrefl] at hlt; cases hlt
        · rw [if_neg hq] at h
          obtain ⟨b, hb, hbt⟩ := equal_range_first_mem t x qs h
          have := hsorted.1 b hb
          rw [hbt, ← e, hlt] at this
          cases this
      rw [if_neg hpt]
      exact h
    · rw [if_neg hlt, equal_range_first_cons]
      by_cases hq : q.1 = t
      · rw [if_pos hq] at h ⊢
        exact h
      · rw [if_neg hq] at h ⊢
        exact ih hsorted.2 h

theorem event_lines_main (lines : List Str) (m r : basic_message) (x : Str)
    (hsorted : m.headers.Pairwise (fun a b => str_lt b.1 a.1 = false))
    (hx : equal_range_first m.traits m.headers = some x)
    (h : event_lines lines m = .ok r) : r.main_header = .ok x := by
  induction lines generalizing m with
  | nil =>
    simp only [event_lines, Except.ok.injEq] at h
    subst h
    simp [basic_message.main_header, hx]
  | cons l ls ih =>
    simp only [event_lines] at h
    cases hp : parse_header l with
    | error e => rw [hp] at h; cases h
    | ok p =>
      rw [hp] at h
      exact ih (m.insert p) (multimap_insert_sorted p m.headers hsorted)
        (equal_range_first_insert_sorted m.traits x p m.headers hsorted hx) h

theorem response_lines_main (second : Str) (lines : List Str) (m r : basic_message) (x : Str)
    (hsorted : m.headers.Pairwise (fun a b => str_lt b.1 a.1 = false))
    (hx : equal_range_first m.traits m.headers = some x)
    (h : response_lines second lines m = .ok r) : r.main_header = .ok x := by
  induction lines generalizing m with
  | nil =>
    simp only [response_lines, Except.ok.injEq] at h
    subst h
    simp [basic_message.main_header, hx]
  | cons l ls ih =>
    have hins : ∀ p, response_lines second ls (m.insert p) = .ok r → r.main_header = .ok x :=
      fun p hp => ih (m.insert p) (multimap_insert_sorted p m.headers hsorted)
        (equal_range_first_insert_sorted m.traits x p m.headers hsorted hx) hp
    simp only [response_lines] at h
    split_ifs at h
    · split at h
      · rename_i ec _
        exact ih { m with data := l.take ec } hsorted hx h
      · cases hp : parse_header l with
        | error e => rw [hp] at h; cases h
        | ok p => rw [hp] at h; exact hins p h
    · cases hp : parse_header l with
      | error e => rw [hp] at h; cases h
      | ok p => rw [hp] at h; exact hins p h

/-- C35: a message whose first line is `name: value` and whose other lines are handled
without failure is queued once, on the event queue when the name is `Event`
and on the response queue when it is `Response`, the other queue staying as
it is, and its primary value is the value of the first line; for any other
name `read_message` throws `unknown_message` with that name after the first
line and leaves both queues as they are. -/
theorem read_message_routing (c : connection) (name v : Str) (lines : List Str) (rest : Str)
    (hname : ':' ∉ name) (hfc : find (name ++ [':', ' '] ++ v) CRLF = none)
    (hl : ∀ l ∈ lines, l ≠ [] ∧ find l CRLF = none)
    (hc : c.input = wire_lines ((name ++ [':', ' '] ++ v) :: lines) ++ CRLF ++ rest) :
    (name = "Event".toList →
      ∀ m, event_lines lines (basic_message.mk_value event_traits v) = .ok m →
        read_message c = (.ok (), { c with input := rest, events := c.events ++ [m] })
        ∧ m.main_header = .ok v)
    ∧ (name = "Response".toList →
      ∀ r, response_lines v lines (basic_message.mk_value response_traits v) = .ok r →
        read_message c = (.ok (), { c with input := rest, responses := c.responses ++ [r] })
        ∧ r.main_header = .ok v)
    ∧ (name ≠ "Event".toList → name ≠ "Response".toList →
        read_message c
          = (.error (.unknown_message name),
              { c with input := wire_lines lines ++ CRLF ++ rest })) := by
  have hparse := parse_header_header name v hname
  have hmk : ∀ t : Str, (basic_message.mk_value t v).headers.Pairwise
      (fun a b => str_lt b.1 a.1 = false)
      ∧ equal_range_first (basic_message.mk_value t v).traits
          (basic_message.mk_value t v).headers = some v := by
    intro t
    rw [mk_value_headers]
    exact ⟨by simp, by simp [equal_range_first]⟩
  refine ⟨fun hn m hm => ?_, fun hn r hr => ?_, fun h1 h2 => ?_⟩
  · subst hn
    exact ⟨(read_message_event_lines c _ v lines rest hparse hfc hl hc).1 m hm,
      event_lines_main lines _ m v (hmk event_traits).1 (hmk event_traits).2 hm⟩
  · subst hn
    exact ⟨(read_message_response_lines c _ v lines rest hparse hfc hl hc).1 r hr,
      response_lines_main v lines _ r v (hmk response_traits).1 (hmk response_traits).2 hr⟩
  · have hr := read_line_of_line c (name ++ [':', ' '] ++ v) (wire_lines lines ++ CRLF ++ rest)
      (by simp [hc, wire_lines]) hfc
    simp only [read_message, hr, hparse, h1, h2, if_false]

/-- C35 at the event `Event: Hangup` with the header `Channel: SIP/1`. -/
theorem read_message_routing_witness :
    read_message (connection.fresh "Event: Hangup\r\nChannel: SIP/1\r\n\r\n".toList)
      = (.ok (), { connection.fresh [] with
          events := [{ traits := "Event".toList,
                       headers := [("Channel".toList, "SIP/1".toList),
                         ("Event".toList, "Hangup".toList)], data := [] }] }) :=
  ((read_message_routing (connection.fresh "Event: Hangup\r\nChannel: SIP/1\r\n\r\n".toList)
    "Event".toList "Hangup".toList ["Channel: SIP/1".toList] [] (by decide) (by decide)
    (by
      intro l hl
      simp only [List.mem_singleton] at hl
      rw [hl]
      exact ⟨by decide, by decide⟩)
    (by decide)).1 rfl _ (by decide)).1

/-! ### The queue of pending handlers -/

theorem read_line_state (c : connection) :
    (read_line c).2 = { c with input := (read_line c).2.input } := by
  unfold read_line
  rcases read_line_loop c.input (Char.ofNat 0) [] with ⟨r | line, rest⟩
  · rfl
  · simp only []
    split <;> rfl

theorem read_event_loop_state (n : Nat) (m : basic_message) (c : connection) :
    (read_event_loop n m c).2 = { c with input := (read_event_loop n m c).2.input } := by
  induction n generalizing m c with
  | zero => rfl
  | succ n ih =>
    have hl := read_line_state c
    unfold read_event_loop
    rcases hr : read_line c with ⟨r | line, c1⟩
    · rw [hr] at hl; exact hl
    · rw [hr] at hl
      simp only [] at hl ⊢
      split_ifs
      · exact hl
      · cases parse_header line with
        | error e => exact hl
        | ok p =>
          simp only []
          rw [ih (m.insert p) c1, hl]

theorem read_response_loop_state (second : Str) (n : Nat) (m : basic_message)
    (c : connection) :
    (read_response_loop second n m c).2
      = { c with input := (read_response_loop second n m c).2.input } := by
  induction n generalizing m c with
  | zero => rfl
  | succ n ih =>
    have hl := read_line_state c
    unfold read_response_loop
    rcases hr : read_line c with ⟨r | line, c1⟩
    · rw [hr] at hl; exact hl
    · rw [hr] at hl
      simp only [] at hl ⊢
      split_ifs
      · exact hl
      · cases find line END_COMMAND with
        | some ec =>
          simp only []
          rw [ih _ c1, hl]
        | none =>
          cases parse_header line with
          | error e => exact hl
          | ok p =>
            simp only []
            rw [ih (m.insert p) c1, hl]
      · cases parse_header line with
        | error e => exact hl
        | ok p =>
          simp only []
          rw [ih (m.insert p) c1, hl]

/-- `read_message` leaves the queue of handlers and the record of their calls as they
are. -/
theorem read_message_handlers (c : connection) :
    (read_message c).2.response_handlers = c.response_handlers
    ∧ (read_message c).2.invoked = c.invoked := by
  have hl := read_line_state c
  unfold read_message
  rcases hr : read_line c with ⟨r | line, c1⟩
  · rw [hr] at hl
    simp only [] at hl ⊢
    rw [hl]
    exact ⟨rfl, rfl⟩
  · rw [hr] at hl
    simp only [] at hl ⊢
    cases parse_header line with
    | error e =>
      simp only []
      rw [hl]
      exact ⟨rfl, rfl⟩
    | ok pair =>
      simp only []
      split_ifs
      · have he := read_event_loop_state (c1.input.length + 1)
          (basic_message.mk_value event_traits pair.2) c1
        rcases hq : read_event_loop (c1.input.length + 1)
          (basic_message.mk_value event_traits pair.2) c1 with ⟨e | ev, c2⟩
        · rw [hq] at he
          simp only [] at he ⊢
          rw [he, hl]
          exact ⟨rfl, rfl⟩
        · rw [hq] at he
          simp only [] at he ⊢
          rw [he, hl]
          exact ⟨rfl, rfl⟩
      · have he := read_response_loop_state pair.2 (c1.input.length + 1)
          (basic_message.mk_value response_traits pair.2) c1
        rcases hq : read_response_loop pair.2 (c1.input.length + 1)
          (basic_message.mk_value response_traits pair.2) c1 with ⟨e | ev, c2⟩
        · rw [hq] at he
          simp only [] at he ⊢
          rw [he, hl]
          exact ⟨rfl, rfl⟩
        · rw [hq] at he
          simp only [] at he ⊢
          rw [he, hl]
          exact ⟨rfl, rfl⟩
      · rw [hl]
        exact ⟨rfl, rfl⟩

theorem send_action_async_effect (command : basic_action) (handler : response_handler_t)
    (c : connection) :
    (∀ c1, send_action_async command handler c = (.ok (), c1) →
      c1.response_handlers = c.response_handlers ++ [handler] ∧ c1.events = c.events
      ∧ c1.responses = c.responses ∧ c1.invoked = c.invoked ∧ c1.input = c.input)
    ∧ (∀ e c1, send_action_async command handler c = (.error e, c1) → c1 = c) := by
  unfold send_action_async
  simp only []
  split
  · refine ⟨fun c1 h => (by cases h), fun e c1 h => ?_⟩
    cases h
    rfl
  · refine ⟨fun c1 h => ?_, fun e c1 h => (by cases h)⟩
    cases h
    exact ⟨rfl, rfl, rfl, rfl, rfl⟩

theorem operation_apply_count (o : operation) (c : connection) :
    (o.apply c).1.response_handlers.length + (o.apply c).1.invoked.length
      = c.response_handlers.length + c.invoked.length + (o.apply c).2 := by
  cases o with
  | send command handler =>
    have h := send_action_async_effect command handler c
    simp only [operation.apply]
    rcases hs : send_action_async command handler c with ⟨e | u, c1⟩
    · simp only []
      rw [h.2 e c1 hs]
      omega
    · obtain ⟨h1, _, _, h4, _⟩ := h.1 c1 hs
      simp only []
      rw [h1, h4, List.length_append]
      simp only [List.length_singleton]
      omega
  | read =>
    simp only [operation.apply]
    rw [(read_message_handlers c).1, (read_message_handlers c).2]
    rfl
  | process =>
    simp only [operation.apply, process_responses]
    rw [process_responses_loop_eq _ c (le_refl _)]
    simp only [List.length_drop, List.length_append, List.length_zip]
    omega

/-- C36: after any sequence of `send_action_async`, `read_message` and
`process_responses`, the handlers queued and the handler calls made are
together as many as before plus the actions sent, so that on a connection
that started with no handler the queue holds as many handlers as actions
were sent less the responses handed to a handler; a `send_action_async` that
returns puts its handler at the back and leaves the two message queues as
they are, and one that throws leaves the connection as it is. -/
theorem pending_handler_invariant (ops : List operation) (c : connection) :
    ((run_operations ops c).1.response_handlers.length
        + (run_operations ops c).1.invoked.length
      = c.response_handlers.length + c.invoked.length + (run_operations ops c).2)
    ∧ (∀ input : Str,
        (run_operations ops (connection.fresh input)).1.response_handlers.length
          = (run_operations ops (connection.fresh input)).2
            - (run_operations ops (connection.fresh input)).1.invoked.length)
    ∧ (∀ command handler,
        (∀ c1, send_action_async command handler c = (.ok (), c1) →
          c1.response_handlers = c.response_handlers ++ [handler] ∧ c1.events = c.events
          ∧ c1.responses = c.responses)
        ∧ (∀ e c1, send_action_async command handler c = (.error e, c1) → c1 = c)) := by
  have key : ∀ (ops : List operation) (c : connection),
      (run_operations ops c).1.response_handlers.length
          + (run_operations ops c).1.invoked.length
        = c.response_handlers.length + c.invoked.length + (run_operations ops c).2 := by
    intro ops
    induction ops with
    | nil => intro c; rfl
    | cons o os ih =>
      intro c
      have h1 := operation_apply_count o c
      have h2 := ih (o.apply c).1
      simp only [run_operations]
      omega
  refine ⟨key ops c, fun input => ?_, fun command handler => ?_⟩
  · have h := key ops (connection.fresh input)
    have h0 : (connection.fresh input).response_handlers.length
        + (connection.fresh input).invoked.length = 0 := rfl
    omega
  · have h := send_action_async_effect command handler c
    exact ⟨fun c1 hc => ⟨(h.1 c1 hc).1, (h.1 c1 hc).2.1, (h.1 c1 hc).2.2.1⟩, h.2⟩

end manager

/-! ## Theorems on the gateway engine -/

/-! ### Streams -/

theorem takeWhile_append_cons {α : Type} (p : α → Bool) (l r : List α) (c : α)
    (hl : ∀ x ∈ l, p x = true) (hc : p c = false) :
    (l ++ c :: r).takeWhile p = l := by
  induction l with
  | nil => simp [List.takeWhile, hc]
  | cons x xs ih =>
    have hx := hl x (List.mem_cons_self _ _)
    simp only [List.cons_append, List.takeWhile, hx]
    exact congrArg _ (ih (fun y hy => hl y (List.mem_cons_of_mem _ hy)))

theorem dropWhile_append_cons {α : Type} (p : α → Bool) (l r : List α) (c : α)
    (hl : ∀ x ∈ l, p x = true) (hc : p c = false) :
    (l ++ c :: r).dropWhile p = c :: r := by
  induction l with
  | nil => simp [List.dropWhile, hc]
  | cons x xs ih =>
    have hx := hl x (List.mem_cons_self _ _)
    simp only [List.cons_append, List.dropWhile, hx]
    exact ih (fun y hy => hl y (List.mem_cons_of_mem _ hy))

theorem takeWhile_all {α : Type} (p : α → Bool) (l : List α) (hl : ∀ x ∈ l, p x = true) :
    l.takeWhile p = l := by
  induction l with
  | nil => rfl
  | cons x xs ih =>
    simp only [List.takeWhile, hl x (List.mem_cons_self _ _)]
    rw [ih (fun y hy => hl y (List.mem_cons_of_mem _ hy))]

theorem dropWhile_all {α : Type} (p : α → Bool) (l : List α) (hl : ∀ x ∈ l, p x = true) :
    l.dropWhile p = [] := by
  induction l with
  | nil => rfl
  | cons x xs ih =>
    simp only [List.dropWhile, hl x (List.mem_cons_self _ _)]
    rw [ih (fun y hy => hl y (List.mem_cons_of_mem _ hy))]

theorem ne_newline_of_not_mem (l : Str) (h : '\n' ∉ l) :
    ∀ x ∈ l, (x != '\n') = true := by
  intro x hx
  simp only [bne_iff_ne, ne_eq]
  exact fun e => h (e ▸ hx)

/-- `getline` on a good stream whose next line ends with a newline. -/
theorem getline_line (l rest str : Str) (h : '\n' ∉ l) :
    ({ buf := l ++ '\n' :: rest, eofbit := false, failbit := false } : istream).getline str '\n'
      = (l, { buf := rest, eofbit := false, failbit := false }) := by
  simp only [istream.getline, istream.sentry, istream.good, Bool.not_false, Bool.and_self,
    Bool.not_true, Bool.false_eq_true, if_false, if_true]
  rw [dropWhile_append_cons _ l rest '\n' (ne_newline_of_not_mem l h) (by decide),
    takeWhile_append_cons _ l rest '\n' (ne_newline_of_not_mem l h) (by decide)]

/-- `getline` on a good stream without a newline: everything is read and `eofbit` set. -/
theorem getline_eof (l str : Str) (h : '\n' ∉ l) :
    ({ buf := l, eofbit := false, failbit := false } : istream).getline str '\n'
      = (l, { buf := [], eofbit := true, failbit := l.isEmpty }) := by
  simp only [istream.getline, istream.sentry, istream.good, Bool.not_false, Bool.and_self,
    Bool.not_true, Bool.false_eq_true, if_false, if_true]
  rw [dropWhile_all _ l (ne_newline_of_not_mem l h),
    takeWhile_all _ l (ne_newline_of_not_mem l h)]

theorem sentry_of_not_good (s : istream) (b : Bool) (h : s.good = false) :
    s.sentry b = (false, { s with failbit := true }) := by
  simp [istream.sentry, h]

theorem sentry_of_good (s : istream) (h : s.good = true) : s.sentry true = (true, s) := by
  simp [istream.sentry, h]

theorem not_good_failbit (s : istream) : ({ s with failbit := true } : istream).good = false := by
  simp [istream.good]

/-- On a stream that is not good an input function of a number reads nothing and leaves
the variable as it is. -/
theorem extract_int_of_not_good (s : istream) (lo hi v : Int) (h : s.good = false) :
    (s.extract_int lo hi v).1 = v := by
  simp [istream.extract_int, sentry_of_not_good s false h]

theorem ignore_of_not_good (s : istream) (n : Nat) (d : Option Char) (h : s.good = false) :
    (s.ignore n d).good = false := by
  simp [istream.ignore, sentry_of_not_good s true h, istream.good]

theorem ignore_loop_subset (d : Option Char) (n : Nat) (b : Str) :
    ∀ c ∈ (istream.ignore_loop d n b).1, c ∈ b := by
  induction n generalizing b with
  | zero => intro c hc; simpa [istream.ignore_loop] using hc
  | succ n ih =>
    cases b with
    | nil => intro c hc; simp [istream.ignore_loop] at hc
    | cons x xs =>
      intro c hc
      simp only [istream.ignore_loop] at hc
      split_ifs at hc
      · exact List.mem_cons_of_mem _ hc
      · exact List.mem_cons_of_mem _ (ih xs c hc)

theorem ignore_buf_subset (s : istream) (n : Nat) (d : Option Char) :
    ∀ c ∈ (s.ignore n d).buf, c ∈ s.buf := by
  intro c hc
  cases hg : s.good with
  | false =>
    simp only [istream.ignore, sentry_of_not_good s true hg] at hc
    exact hc
  | true =>
    simp only [istream.ignore, sentry_of_good s hg, if_true] at hc
    exact ignore_loop_subset d n s.buf c hc

theorem sentry_skip_of_good (s : istream) (h : s.good = true) :
    s.sentry false
      = if (s.buf.dropWhile isspace).isEmpty then
          (false, { buf := [], eofbit := true, failbit := true })
        else (true, { s with buf := s.buf.dropWhile isspace }) := by
  simp [istream.sentry, h]

theorem peek_buf (s : istream) : (s.peek).2.buf = s.buf := by
  cases hg : s.good with
  | false => simp [istream.peek, sentry_of_not_good s true hg]
  | true =>
    simp only [istream.peek, sentry_of_good s hg, if_true]
    cases s with
    | mk buf e f => cases buf <;> rfl

theorem extract_string_buf_subset (s : istream) (str : Str) :
    ∀ c ∈ (s.extract_string str).2.buf, c ∈ s.buf := by
  intro c hc
  cases hg : s.good with
  | false =>
    simp only [istream.extract_string, sentry_of_not_good s false hg] at hc
    exact hc
  | true =>
    by_cases he : (s.buf.dropWhile isspace).isEmpty = true
    · simp [istream.extract_string, sentry_skip_of_good s hg, he] at hc
    · simp only [istream.extract_string, sentry_skip_of_good s hg, he, if_false, if_true,
        Bool.false_eq_true] at hc
      exact (List.dropWhile_suffix _).subset ((List.dropWhile_suffix _).subset hc)

/-- After `getline` on a stream without a newline the stream is not good, and stays so
when `str` gives it new characters. -/
theorem getline_not_good (s : istream) (str t : Str) (h : '\n' ∉ s.buf) :
    (((s.getline str '\n').2).str t).good = false := by
  cases hg : s.good with
  | false => simp [istream.getline, sentry_of_not_good s true hg, istream.str, istream.good]
  | true =>
    simp only [istream.getline, sentry_of_good s hg, if_true]
    rw [dropWhile_all _ s.buf (ne_newline_of_not_mem s.buf h)]
    simp [istream.str, istream.good]

/-! ### Decimal digits -/

theorem digitChar_isDigit (d : Nat) (h : d < 10) :
    (Nat.digitChar d).isDigit = true ∧ (Nat.digitChar d).toNat - '0'.toNat = d := by
  interval_cases d <;> decide

theorem toDigitsCore_spec (fuel n : Nat) (ds : Str) (h : n < fuel) :
    ∃ pre : Str, Nat.toDigitsCore 10 fuel n ds = pre ++ ds ∧ pre ≠ []
      ∧ (∀ c ∈ pre, c.isDigit = true) ∧ digits_value pre = n := by
  induction fuel generalizing n ds with
  | zero => omega
  | succ fuel ih =>
    have hd := digitChar_isDigit (n % 10) (Nat.mod_lt _ (by decide))
    simp only [Nat.toDigitsCore]
    by_cases h0 : n / 10 = 0
    · refine ⟨[Nat.digitChar (n % 10)], by simp [h0], by simp, by simpa using hd.1, ?_⟩
      simp only [digits_value, List.foldl_cons, List.foldl_nil, hd.2]
      omega
    · obtain ⟨pre, h1, _, h3, h4⟩ := ih (n / 10) (Nat.digitChar (n % 10) :: ds) (by omega)
      refine ⟨pre ++ [Nat.digitChar (n % 10)], by simp [h0, h1], by simp, ?_, ?_⟩
      · intro c hc
        rcases List.mem_append.1 hc with hc | hc
        · exact h3 c hc
        · rw [List.mem_singleton.1 hc]; exact hd.1
      · have h4a : List.foldl (fun n c => 10 * n + (c.toNat - '0'.toNat)) 0 pre = n / 10 := h4
        simp only [digits_value, List.foldl_append, List.foldl_cons, List.foldl_nil, hd.2, h4a]
        omega

theorem toDigits_spec (n : Nat) :
    Nat.toDigits 10 n ≠ [] ∧ (∀ c ∈ Nat.toDigits 10 n, c.isDigit = true)
      ∧ digits_value (Nat.toDigits 10 n) = n := by
  obtain ⟨pre, h1, h2, h3, h4⟩ := toDigitsCore_spec (n + 1) n [] (by omega)
  have : Nat.toDigits 10 n = pre := by simpa [Nat.toDigits] using h1
  rw [this]
  exact ⟨h2, h3, h4⟩

theorem isspace_of_isDigit (c : Char) (h : c.isDigit = true) : isspace c = false := by
  cases hs : isspace c with
  | false => rfl
  | true =>
    simp only [isspace, Bool.or_eq_true, beq_iff_eq] at hs
    rcases hs with ((((hs | hs) | hs) | hs) | hs) | hs <;> rw [hs] at h <;> revert h <;> decide

theorem after_sign_of_isDigit (c : Char) (r : Str) (h : c.isDigit = true) :
    istream.after_sign (c :: r) = c :: r := by
  have hm : c ≠ '-' := by intro e; rw [e] at h; exact absurd h (by decide)
  have hp : c ≠ '+' := by intro e; rw [e] at h; exact absurd h (by decide)
  unfold istream.after_sign
  split
  · rename_i heq
    exact absurd (List.cons.inj heq).1 hm
  · rename_i heq
    exact absurd (List.cons.inj heq).1 hp
  · rfl

theorem takeWhile_append_stop {α : Type} (p : α → Bool) (l r : List α)
    (hl : ∀ x ∈ l, p x = true) (hr : ∀ x, r.head? = some x → p x = false) :
    (l ++ r).takeWhile p = l ∧ (l ++ r).dropWhile p = r := by
  cases r with
  | nil =>
    rw [List.append_nil]
    exact ⟨takeWhile_all p l hl, dropWhile_all p l hl⟩
  | cons x xs =>
    exact ⟨takeWhile_append_cons p l xs x hl (hr x rfl),
      dropWhile_append_cons p l xs x hl (hr x rfl)⟩

theorem extract_int_digits (pre r : Str) (lo hi v : Int) (hne : pre ≠ [])
    (hd : ∀ c ∈ pre, c.isDigit = true) (hr : ∀ x, r.head? = some x → x.isDigit = false)
    (hlo : lo ≤ (digits_value pre : Int)) (hhi : (digits_value pre : Int) ≤ hi) :
    ({ buf := pre ++ r, eofbit := false, failbit := false } : istream).extract_int lo hi v
      = ((digits_value pre : Int), { buf := r, eofbit := r.isEmpty, failbit := false }) := by
  cases pre with
  | nil => exact absurd rfl hne
  | cons d ds =>
    have hdd := hd d (List.mem_cons_self _ _)
    have hsp : (isspace d) = false := isspace_of_isDigit d hdd
    have hm : d ≠ '-' := by intro e; rw [e] at hdd; revert hdd; decide
    have ht := takeWhile_append_stop Char.isDigit (d :: ds) r hd hr
    have hs : ({ buf := (d :: ds) ++ r, eofbit := false, failbit := false } : istream).sentry
        false = (true, { buf := (d :: ds) ++ r, eofbit := false, failbit := false }) := by
      rw [sentry_skip_of_good
        { buf := (d :: ds) ++ r, eofbit := false, failbit := false } rfl]
      simp [List.dropWhile, hsp]
    simp only [istream.extract_int, hs, if_true]
    rw [show (d :: ds) ++ r = d :: (ds ++ r) from rfl, after_sign_of_isDigit d _ hdd,
      show d :: (ds ++ r) = (d :: ds) ++ r from rfl, ht.1, ht.2]
    have hh : ((d :: ds) ++ r).head? = some d := rfl
    have hm2 : ¬ (some d = some '-') := fun e => hm (Option.some.inj e)
    simp only [hh, hm2, if_false, List.isEmpty_cons, Bool.false_eq_true, not_lt.2 hlo,
      not_lt.2 hhi]

theorem extract_int_neg_digits (pre r : Str) (lo hi v : Int) (hne : pre ≠ [])
    (hd : ∀ c ∈ pre, c.isDigit = true) (hr : ∀ x, r.head? = some x → x.isDigit = false)
    (hlo : lo ≤ -(digits_value pre : Int)) (hhi : -(digits_value pre : Int) ≤ hi) :
    ({ buf := '-' :: (pre ++ r), eofbit := false, failbit := false } : istream).extract_int
        lo hi v
      = (-(digits_value pre : Int), { buf := r, eofbit := r.isEmpty, failbit := false }) := by
  have ht := takeWhile_append_stop Char.isDigit pre r hd hr
  have hs : ({ buf := '-' :: (pre ++ r), eofbit := false, failbit := false } : istream).sentry
      false = (true, { buf := '-' :: (pre ++ r), eofbit := false, failbit := false }) := by
    rw [sentry_skip_of_good
      { buf := '-' :: (pre ++ r), eofbit := false, failbit := false } rfl]
    simp +decide [List.dropWhile, isspace]
  have hpe : pre.isEmpty = false := by
    cases pre with
    | nil => exact absurd rfl hne
    | cons d ds => rfl
  simp only [istream.extract_int, hs, if_true, istream.after_sign, ht.1, ht.2, List.head?_cons,
    hpe, Bool.false_eq_true, if_false, not_lt.2 hlo, not_lt.2 hhi]

/-- Reading back a whole number of the range that was written in decimal. -/
theorem extract_int_put_int (c : Int) (r : Str) (lo hi v : Int) (hlo : lo ≤ c) (hhi : c ≤ hi)
    (hr : ∀ x, r.head? = some x → x.isDigit = false) :
    ({ buf := put_int c ++ r, eofbit := false, failbit := false } : istream).extract_int lo hi v
      = (c, { buf := r, eofbit := r.isEmpty, failbit := false }) := by
  cases c with
  | ofNat n =>
    obtain ⟨h1, h2, h3⟩ := toDigits_spec n
    have := extract_int_digits (Nat.toDigits 10 n) r lo hi v h1 h2 hr
      (by rw [h3]; exact hlo) (by rw [h3]; exact hhi)
    rw [h3] at this
    exact this
  | negSucc n =>
    obtain ⟨h1, h2, h3⟩ := toDigits_spec (n + 1)
    have hv : -((n + 1 : Nat) : Int) = Int.negSucc n := rfl
    have := extract_int_neg_digits (Nat.toDigits 10 (n + 1)) r lo hi v h1 h2 hr
      (by rw [h3, hv]; exact hlo) (by rw [h3, hv]; exact hhi)
    rw [h3, hv] at this
    exact this

/-! ### The status line -/

theorem peek_ignore_space (r : Str) :
    (if (({ buf := ' ' :: r, eofbit := false, failbit := false } : istream).peek).1 = some ' '
      then (({ buf := ' ' :: r, eofbit := false, failbit := false } : istream).peek).2.ignore
        1 none
      else (({ buf := ' ' :: r, eofbit := false, failbit := false } : istream).peek).2)
      = { buf := r, eofbit := false, failbit := false } := by
  simp [istream.peek, istream.sentry, istream.good, istream.ignore, istream.ignore_loop]

/-- What `get_result` does after it has read a status line made of a code of the range
of `int`, one space, a message and the newline. -/
theorem get_result_status_line (uninit : Int) (a : agi) (c : Int) (msg rest : Str)
    (hlo : int_min ≤ c) (hhi : c ≤ int_max) (hmsg : '\n' ∉ msg)
    (ha : a.cin = istream.of_string (put_int c ++ ' ' :: (msg ++ '\n' :: rest))) :
    agi.get_result uninit a
      = if c = 200 then
          (agi.get_result_200
            { code := c, message := msg, result := uninit, result_string := [], data := [],
              endpos := uninit }, { a with cin := istream.of_string rest })
        else if c = 510 then
          (.error (.invalid_command (msg ++ agi.invalid_command_suffix)),
            { a with cin := istream.of_string rest })
        else if c = 520 then
          match agi.get_result_520 uninit (rest.length + 1) (istream.of_string rest) msg with
          | (.ok message, cin) => (.error (.usage_error message), { a with cin := cin })
          | (.error e, cin) => (.error e, { a with cin := cin })
        else (.error (.unknown_error c msg), { a with cin := istream.of_string rest }) := by
  have h1 := extract_int_put_int c (' ' :: (msg ++ '\n' :: rest)) int_min int_max uninit hlo hhi
    (by intro x hx; rw [← Option.some.inj hx]; decide)
  have h2 := peek_ignore_space (msg ++ '\n' :: rest)
  have h3 := getline_line msg rest [] hmsg
  unfold agi.get_result
  simp only [ha, istream.of_string, h1, istream.fail, Bool.false_eq_true, if_false,
    List.isEmpty_cons, h2, h3]

/-! ### The reply with the code 200 -/

theorem starts_with_nil (s : Str) : starts_with s [] = true := by
  cases s <;> rfl

theorem find_char_of_mem (s : Str) (c : Char) (h : c ∈ s) : ∃ k, find s [c] = some k := by
  induction s with
  | nil => simp at h
  | cons x xs ih =>
    by_cases hx : x = c
    · exact ⟨0, by simp [find, starts_with, hx, starts_with_nil]⟩
    · rcases List.mem_cons.1 h with h | h
      · exact absurd h.symm hx
      · obtain ⟨k, hk⟩ := ih h
        exact ⟨k + 1, by simp [find, starts_with, hx, hk]⟩

theorem find_last_of_of_not_mem (s : Str) (c : Char) (h : c ∉ s) : find_last_of s c = none := by
  induction s with
  | nil => rfl
  | cons x xs ih =>
    have hx : x ≠ c := fun e => h (e ▸ List.mem_cons_self _ _)
    simp [find_last_of, ih (fun m => h (List.mem_cons_of_mem _ m)), hx]

theorem find_last_of_append (x tail : Str) (c : Char) (h : c ∉ tail) :
    find_last_of (x ++ c :: tail) c = some x.length := by
  induction x with
  | nil => simp [find_last_of, find_last_of_of_not_mem tail c h]
  | cons y ys ih => simp [find_last_of, ih]

theorem get_result_endpos_fields (result : agi.result) (message : istream) (end_str : Str) :
    (agi.get_result_endpos result message end_str).code = result.code
    ∧ (agi.get_result_endpos result message end_str).message = result.message
    ∧ (agi.get_result_endpos result message end_str).result = result.result
    ∧ (agi.get_result_endpos result message end_str).result_string = result.result_string
    ∧ (agi.get_result_endpos result message end_str).data = result.data := by
  unfold agi.get_result_endpos
  split_ifs <;> exact ⟨rfl, rfl, rfl, rfl, rfl⟩

/-- The data of a reply `result=<token> (<x>)<tail>`. -/
theorem get_result_200_data (result : agi.result) (tok x tail : Str)
    (hmsg : result.message = "result=".toList ++ tok ++ " (".toList ++ x ++ ')' :: tail)
    (htok : ∀ c ∈ tok, isspace c = false) (hx : '\n' ∉ x)
    (htail : ∀ c ∈ tail, c ≠ ')' ∧ c ≠ '\n') :
    ∃ r, agi.get_result_200 result = .ok r ∧ r.data = x ∧ r.result_string = tok
      ∧ r.code = result.code ∧ r.message = result.message := by
  have hnl : '\n' ∉ x ++ ')' :: tail := by
    intro h
    rcases List.mem_append.1 h with h | h
    · exact hx h
    · rcases List.mem_cons.1 h with h | h
      · exact absurd h (by decide)
      · exact (htail _ h).2 rfl
  have hparen : ')' ∉ tail := fun h => (htail _ h).1 rfl
  obtain ⟨k, hk⟩ := find_char_of_mem result.message '(' (by rw [hmsg]; simp)
  have hk2 : find result.message "(".toList = some k := hk
  have h1 : (istream.of_string result.message).ignore 32 (some '=')
      = istream.mk (tok ++ ' ' :: '(' :: (x ++ ')' :: tail)) false false := by
    rw [hmsg]
    simp [istream.of_string, istream.ignore, istream.sentry, istream.good,
      istream.ignore_loop]
  have hg := getline_eof (x ++ ')' :: tail) result.data hnl
  have hf := find_last_of_append x tail ')' hparen
  unfold agi.get_result_200
  simp only [h1, hk2]
  cases tok with
  | nil =>
    have h2 : (istream.mk ([] ++ ' ' :: '(' :: (x ++ ')' :: tail)) false false).peek
        = (some ' ', istream.mk (' ' :: '(' :: (x ++ ')' :: tail)) false false) := by
      simp [istream.peek, istream.sentry, istream.good]
    have h3 : ((istream.mk (' ' :: '(' :: (x ++ ')' :: tail)) false false).ignore 1
        none).ignore 32 (some '(') = istream.mk (x ++ ')' :: tail) false false := by
      simp [istream.ignore, istream.sentry, istream.good, istream.ignore_loop]
    simp only [h2, ne_eq, not_true_eq_false, if_false, h3, hg, hf]
    refine ⟨_, rfl, ?_, ?_, ?_, ?_⟩
    · rw [(get_result_endpos_fields _ _ _).2.2.2.2]
      simp
    · rw [(get_result_endpos_fields _ _ _).2.2.2.1]
    · rw [(get_result_endpos_fields _ _ _).1]
    · rw [(get_result_endpos_fields _ _ _).2.1]
  | cons c cs =>
    have hc : isspace c = false := htok c (List.mem_cons_self _ _)
    have hcs : c ≠ ' ' := by intro e; rw [e] at hc; exact absurd hc (by decide)
    have h2 : (istream.mk ((c :: cs) ++ ' ' :: '(' :: (x ++ ')' :: tail)) false false).peek
        = (some c, istream.mk ((c :: cs) ++ ' ' :: '(' :: (x ++ ')' :: tail)) false false) := by
      simp [istream.peek, istream.sentry, istream.good]
    have hns : ∀ y ∈ c :: cs, (!isspace y) = true := by
      intro y hy; rw [htok y hy]; rfl
    have ht := takeWhile_append_cons (fun y => !isspace y) (c :: cs)
      ('(' :: (x ++ ')' :: tail)) ' ' hns (by decide)
    have hd := dropWhile_append_cons (fun y => !isspace y) (c :: cs)
      ('(' :: (x ++ ')' :: tail)) ' ' hns (by decide)
    have h3 : (istream.mk ((c :: cs) ++ ' ' :: '(' :: (x ++ ')' :: tail)) false
        false).extract_string result.result_string
        = (c :: cs, istream.mk (' ' :: '(' :: (x ++ ')' :: tail)) false false) := by
      have hs : (istream.mk ((c :: cs) ++ ' ' :: '(' :: (x ++ ')' :: tail)) false
          false).sentry false
          = (true, istream.mk ((c :: cs) ++ ' ' :: '(' :: (x ++ ')' :: tail)) false false) := by
        rw [sentry_skip_of_good
          (istream.mk ((c :: cs) ++ ' ' :: '(' :: (x ++ ')' :: tail)) false false) rfl]
        simp [List.dropWhile, hc]
      simp only [istream.extract_string, hs, if_true, ht, hd]
      simp
    have h4 : (istream.mk (' ' :: '(' :: (x ++ ')' :: tail)) false false).ignore 32 (some '(')
        = istream.mk (x ++ ')' :: tail) false false := by
      simp [istream.ignore, istream.sentry, istream.good, istream.ignore_loop]
    have hne : (some c : Option Char) ≠ some ' ' := fun e => hcs (Option.some.inj e)
    simp only [h2, ne_eq, hne, not_false_eq_true, if_true, h3, h4, hg, hf]
    refine ⟨_, rfl, ?_, ?_, ?_, ?_⟩
    · rw [(get_result_endpos_fields _ _ _).2.2.2.2]
      simp
    · rw [(get_result_endpos_fields _ _ _).2.2.2.1]
    · rw [(get_result_endpos_fields _ _ _).1]
    · rw [(get_result_endpos_fields _ _ _).2.1]

theorem not_newline_of_not_space (tok : Str) (h : ∀ c ∈ tok, isspace c = false) :
    '\n' ∉ tok := by
  intro hm
  exact absurd (h _ hm) (by decide)

/-- C21, counterexample: in a reply with the code 200 whose only group `(x)` starts more
than 32 characters after the result token, the data is not `x`. -/
theorem get_result_data_beyond_reach :
    ((agi.on_input
        "200 result=0 aaaaaaaaaaaaaaaaaaaaaaaaaaaaaaaaaaaaaaaa (x)\n".toList).get_result 0).1
      = .ok { code := 200,
              message := "result=0 aaaaaaaaaaaaaaaaaaaaaaaaaaaaaaaaaaaaaaaa (x)".toList,
              result := 0, result_string := "0".toList, data := "aaaaaaaaa (x".toList,
              endpos := 0 } := by
  decide

/-- C21, amended: for a reply line `200 result=<token> (<x>)<tail>` in which the token
has no white space, `x` no newline and the tail no `)`, `get_result` reads
the line and no more, and returns a result with the code 200, the token as
`result_string`, and the data `x`. -/
theorem get_result_data (uninit : Int) (a : agi) (tok x tail rest : Str)
    (ha : a.cin = istream.of_string
      ("200 result=".toList ++ tok ++ " (".toList ++ x ++ ")".toList ++ tail ++ '\n' :: rest))
    (htok : ∀ c ∈ tok, isspace c = false) (hx : '\n' ∉ x)
    (htail : ∀ c ∈ tail, c ≠ ')' ∧ c ≠ '\n') :
    ∃ r, a.get_result uninit = (.ok r, { a with cin := istream.of_string rest })
      ∧ r.code = 200 ∧ r.data = x ∧ r.result_string = tok
      ∧ r.message = "result=".toList ++ tok ++ " (".toList ++ x ++ ")".toList ++ tail := by
  have hmsg : '\n' ∉ "result=".toList ++ tok ++ " (".toList ++ x ++ ')' :: tail := by
    intro h
    simp only [List.mem_append, List.mem_cons] at h
    rcases h with (((h | h) | h) | h) | h | h
    · revert h; decide
    · exact not_newline_of_not_space tok htok h
    · revert h; decide
    · exact hx h
    · exact absurd h (by decide)
    · exact (htail _ h).2 rfl
  have hcin : a.cin = istream.of_string (put_int 200 ++ ' ' ::
      (("result=".toList ++ tok ++ " (".toList ++ x ++ ')' :: tail) ++ '\n' :: rest)) := by
    rw [ha, show put_int 200 = ['2', '0', '0'] from by decide]
    simp
  have h := get_result_status_line uninit a 200 _ rest (by decide) (by decide) hmsg hcin
  rw [if_pos rfl] at h
  obtain ⟨r, h1, h2, h3, h4, h5⟩ := get_result_200_data
    { code := 200, message := "result=".toList ++ tok ++ " (".toList ++ x ++ ')' :: tail,
      result := uninit, result_string := [], data := [], endpos := uninit } tok x tail rfl
    htok hx htail
  refine ⟨r, ?_, h4, h2, h3, ?_⟩
  · rw [h, h1]
  · rw [h5]; simp

/-- C21 at the reply `200 result=1 (x)`. -/
theorem get_result_data_witness :
    ∃ r, (agi.on_input "200 result=1 (x)\n".toList).get_result 0
        = (.ok r, { agi.on_input "200 result=1 (x)\n".toList with cin := istream.of_string [] })
      ∧ r.code = 200 ∧ r.data = "x".toList ∧ r.result_string = "1".toList
      ∧ r.message = "result=".toList ++ "1".toList ++ " (".toList ++ "x".toList ++ ")".toList
          ++ [] :=
  get_result_data 0 (agi.on_input "200 result=1 (x)\n".toList) "1".toList "x".toList [] []
    (by decide) (by decide) (by decide) (by simp)

/-! ### The field endpos -/

theorem get_result_endpos_of_not_good (result : agi.result) (message : istream)
    (end_str : Str) (h : message.good = false) :
    (agi.get_result_endpos result message end_str).endpos = result.endpos := by
  unfold agi.get_result_endpos
  split_ifs
  · exact extract_int_of_not_good _ _ _ _ (ignore_of_not_good _ _ _ h)
  · rfl

/-- In `case 200` the member `endpos` is never given a value: once `getline` has read
to the end of `message`, `eofbit` is set, `str` does not reset it, and
`ignore` and `>>` read nothing. -/
theorem get_result_200_endpos (result : agi.result) (h : '\n' ∉ result.message)
    (r : agi.result) (hr : agi.get_result_200 result = .ok r) :
    r.endpos = result.endpos := by
  have hm1 : '\n' ∉ ((istream.of_string result.message).ignore 32 (some '=')).buf :=
    fun hc => h (ignore_buf_subset _ _ _ _ hc)
  have hp : '\n' ∉ (((istream.of_string result.message).ignore 32 (some '=')).peek).2.buf := by
    rw [peek_buf]; exact hm1
  unfold agi.get_result_200 at hr
  simp only [] at hr
  by_cases hb : (((istream.of_string result.message).ignore 32 (some '=')).peek).1 ≠ some ' '
  · rw [if_pos hb] at hr
    have ht : '\n' ∉ ((((istream.of_string result.message).ignore 32 (some '=')).peek).2.extract_string
        result.result_string).2.buf := fun hc => hp (extract_string_buf_subset _ _ _ hc)
    split at hr
    · split at hr
      · cases hr
      · cases hr
        rw [get_result_endpos_of_not_good _ _ _
          (getline_not_good _ _ _ (fun hc => ht (ignore_buf_subset _ _ _ _ hc)))]
    · cases hr
      rw [get_result_endpos_of_not_good _ _ _ (getline_not_good _ _ _ ht)]
  · rw [if_neg hb] at hr
    have ht : '\n' ∉ ((((istream.of_string result.message).ignore 32 (some '=')).peek).2.ignore
        1 none).buf := fun hc => hp (ignore_buf_subset _ _ _ _ hc)
    split at hr
    · split at hr
      · cases hr
      · cases hr
        rw [get_result_endpos_of_not_good _ _ _
          (getline_not_good _ _ _ (fun hc => ht (ignore_buf_subset _ _ _ _ hc)))]
    · cases hr
      rw [get_result_endpos_of_not_good _ _ _ (getline_not_good _ _ _ ht)]

theorem getline_no_newline (s : istream) (str : Str) (hstr : '\n' ∉ str) :
    '\n' ∉ (s.getline str '\n').1 := by
  unfold istream.getline
  split_ifs
  · split
    all_goals
      intro hc
      have := List.mem_takeWhile_imp hc
      simp at this
  · exact hstr

theorem get_result_520_not_ok (x : Except agi.error Str × istream) (a : agi)
    (r : agi.result) :
    (match x with
      | (.ok message, cin) =>
        ((.error (.usage_error message), { a with cin := cin }) :
          Except agi.error agi.result × agi)
      | (.error e, cin) => (.error e, { a with cin := cin })).1 ≠ .ok r := by
  rcases x with ⟨_ | _, _⟩ <;> simp

/-- C22: `get_result` never gives the member `endpos` a value.  Whatever it reads, a
result it returns has in `endpos` what the uninitialised member held; for the
reply `200 result=53 endpos=12345` the other members are as described and
`endpos` is not 12345 but that value, here -7. -/
theorem get_result_endpos_unset :
    (∀ (uninit : Int) (a : agi) (r : agi.result),
        (a.get_result uninit).1 = .ok r → r.endpos = uninit)
    ∧ ((agi.on_input "200 result=53 endpos=12345\n".toList).get_result (-7)).1
      = .ok { code := 200, message := "result=53 endpos=12345".toList, result := 53,
              result_string := "53".toList, data := [], endpos := -7 } := by
  constructor
  · intro uninit a r hr
    unfold agi.get_result at hr
    simp only [] at hr
    by_cases hf : (a.cin.extract_int int_min int_max uninit).2.fail = true
    · rw [if_pos hf] at hr
      cases hr
    · rw [if_neg hf] at hr
      by_cases h200 : (a.cin.extract_int int_min int_max uninit).1 = 200
      · rw [if_pos h200] at hr
        exact get_result_200_endpos _ (getline_no_newline _ _ (by simp)) r hr
      · rw [if_neg h200] at hr
        by_cases h510 : (a.cin.extract_int int_min int_max uninit).1 = 510
        · rw [if_pos h510] at hr
          cases hr
        · rw [if_neg h510] at hr
          by_cases h520 : (a.cin.extract_int int_min int_max uninit).1 = 520
          · rw [if_pos h520] at hr
            exact absurd hr (get_result_520_not_ok _ _ _)
          · rw [if_neg h520] at hr
            cases hr
  · decide

/-! ### The status code -/

theorem getline_buf_length (s : istream) (str : Str)
    (h : (s.getline str '\n').2.fail = false) :
    (s.getline str '\n').2.buf.length < s.buf.length := by
  cases hg : s.good with
  | false =>
    simp [istream.getline, sentry_of_not_good s true hg, istream.fail] at h
  | true =>
    simp only [istream.getline, sentry_of_good s hg, if_true] at h ⊢
    have hsuf := (List.dropWhile_suffix (fun c => c != '\n') (l := s.buf)).length_le
    cases hd : s.buf.dropWhile (fun c => c != '\n') with
    | nil =>
      rw [hd] at h
      simp only [istream.fail] at h
      cases hb : s.buf with
      | nil => rw [hb] at h; simp at h
      | cons x xs => simp
    | cons x xs =>
      rw [hd] at hsuf
      simp only [List.length_cons] at hsuf ⊢
      omega

/-- The loop of `case 520` comes to its end within the lines of the input. -/
theorem get_result_520_terminates (uninit : Int) (fuel : Nat) (cin : istream) (message : Str)
    (h : cin.buf.length < fuel) :
    ∃ d cin1, agi.get_result_520 uninit fuel cin message = (.ok d, cin1) := by
  induction fuel generalizing cin message with
  | zero => omega
  | succ fuel ih =>
    unfold agi.get_result_520
    by_cases hf : (cin.getline [] '\n').2.fail = true
    · rw [if_pos hf]
      exact ⟨_, _, rfl⟩
    · rw [if_neg hf]
      have hlen := getline_buf_length cin [] (by simpa using hf)
      simp only []
      split_ifs
      · exact ⟨_, _, rfl⟩
      · exact ih _ _ (by omega)
      · exact ih _ _ (by omega)

theorem get_result_200_fields (result r : agi.result)
    (hr : agi.get_result_200 result = .ok r) :
    r.code = result.code ∧ r.message = result.message := by
  unfold agi.get_result_200 at hr
  simp only [] at hr
  split at hr
  · split at hr
    · cases hr
    · cases hr
      exact ⟨(get_result_endpos_fields _ _ _).1.trans (by split_ifs <;> rfl),
        (get_result_endpos_fields _ _ _).2.1.trans (by split_ifs <;> rfl)⟩
  · cases hr
    exact ⟨(get_result_endpos_fields _ _ _).1.trans (by split_ifs <;> rfl),
      (get_result_endpos_fields _ _ _).2.1.trans (by split_ifs <;> rfl)⟩

/-- C23: on a status line made of a code, a space and a message, `get_result` returns a
result only for the code 200; for 510 it throws `invalid_command` with the
message and a fixed explanation after it, for 520 `usage_error`, and for any
other code `unknown_error` with that code and that message. -/
theorem get_result_dispatch (uninit : Int) (a : agi) (c : Int) (msg rest : Str)
    (hlo : int_min ≤ c) (hhi : c ≤ int_max) (hmsg : '\n' ∉ msg)
    (ha : a.cin = istream.of_string (put_int c ++ ' ' :: (msg ++ '\n' :: rest))) :
    (c = 510 → a.get_result uninit
        = (.error (.invalid_command (msg ++ agi.invalid_command_suffix)),
            { a with cin := istream.of_string rest }))
    ∧ (c = 520 → ∃ d cin,
        a.get_result uninit = (.error (.usage_error d), { a with cin := cin }))
    ∧ (c ≠ 200 → c ≠ 510 → c ≠ 520 → a.get_result uninit
        = (.error (.unknown_error c msg), { a with cin := istream.of_string rest }))
    ∧ (∀ r, (a.get_result uninit).1 = .ok r → c = 200 ∧ r.code = 200 ∧ r.message = msg) := by
  have h := get_result_status_line uninit a c msg rest hlo hhi hmsg ha
  refine ⟨fun h510 => ?_, fun h520 => ?_, fun n200 n510 n520 => ?_, fun r hr => ?_⟩
  · rw [h, if_neg (by rw [h510]; decide), if_pos h510]
  · obtain ⟨d, cin, hd⟩ := get_result_520_terminates uninit (rest.length + 1)
      (istream.of_string rest) msg (by simp [istream.of_string])
    rw [h, if_neg (by rw [h520]; decide), if_neg (by rw [h520]; decide), if_pos h520, hd]
    exact ⟨d, cin, rfl⟩
  · rw [h, if_neg n200, if_neg n510, if_neg n520]
  · rw [h] at hr
    by_cases h200 : c = 200
    · rw [if_pos h200] at hr
      have := get_result_200_fields _ r hr
      exact ⟨h200, this.1.trans h200, this.2⟩
    · rw [if_neg h200] at hr
      by_cases h510 : c = 510
      · rw [if_pos h510] at hr
        cases hr
      · rw [if_neg h510] at hr
        by_cases h520 : c = 520
        · rw [if_pos h520] at hr
          exact absurd hr (get_result_520_not_ok _ _ _)
        · rw [if_neg h520] at hr
          cases hr

/-- C23 at the reply `510 Invalid or unknown command`. -/
theorem get_result_dispatch_witness :
    (agi.on_input "510 Invalid or unknown command\n".toList).get_result 0
      = (.error (.invalid_command ("Invalid or unknown command".toList
          ++ agi.invalid_command_suffix)),
          { agi.on_input "510 Invalid or unknown command\n".toList with
            cin := istream.of_string [] }) :=
  (get_result_dispatch 0 (agi.on_input "510 Invalid or unknown command\n".toList) 510
    "Invalid or unknown command".toList [] (by decide) (by decide) (by decide)
    (by decide)).1 rfl

/-- C24, the code at a usage text with a line that starts with a number: the reply is
read up to and including the second line with 520, what follows stays
unread, and the message of `usage_error` is the status-line message and the
line ` Usage: X`, put together without a separator; the line `3 args` is read
and dropped. -/
theorem get_result_usage_drops_numbered_line :
    (agi.on_input ("520-Invalid command syntax.  Proper usage follows:\n Usage: X\n"
        ++ "3 args\n520 End of proper usage.\nrest").toList).get_result 0
      = (.error (.usage_error
          "-Invalid command syntax.  Proper usage follows: Usage: X".toList),
          { agi.on_input [] with cin := istream.of_string "rest".toList }) := by
  decide

/-! ### execute -/

theorem get_result_frame (uninit : Int) (a : agi) :
    (a.get_result uninit).2.cout = a.cout
    ∧ (a.get_result uninit).2.got_sighup = a.got_sighup
    ∧ (a.get_result uninit).2.got_sigpipe = a.got_sigpipe
    ∧ (a.get_result uninit).2.env = a.env := by
  unfold agi.get_result
  simp only []
  split_ifs
  all_goals first
    | exact ⟨rfl, rfl, rfl, rfl⟩
    | (split <;> exact ⟨rfl, rfl, rfl, rfl⟩)

theorem execute_of_no_hangup (uninit : Int) (a : agi) (command : Str)
    (h : a.got_sighup = false) :
    a.execute uninit command
      = match (a.send_command command).get_result uninit with
        | (.error e, a1) => (.error e, a1)
        | (.ok result, a1) =>
          if result.data = "hangup".toList then (.error .hangup_result, a1)
          else if result.result = -1 then
            (.error (.application_error
              "An error occured executing an agi command or the channel was hungup".toList), a1)
          else if a1.got_sigpipe then (.error (.io_error "Received SIGPIPE".toList), a1)
          else (.ok result, a1) := by
  simp [agi.execute, agi.test_hangup, h]

theorem execute_state (uninit : Int) (a : agi) (command : Str) (h : a.got_sighup = false) :
    (a.execute uninit command).2 = ((a.send_command command).get_result uninit).2 := by
  rw [execute_of_no_hangup uninit a command h]
  rcases hr : (a.send_command command).get_result uninit with ⟨r | r, a1⟩
  · rfl
  · simp only []
    split_ifs <;> rfl

/-- C25: with `got_sighup` set, `execute` throws `hangup_signal`, and nothing is
written and nothing read; with the flag unset the command and a newline are
written; `clear` unsets both flags and touches nothing else, so after it the
command is written. -/
theorem execute_tests_hangup_first (uninit : Int) (a : agi) (command : Str) :
    (a.got_sighup = true → a.execute uninit command = (.error .hangup_signal, a))
    ∧ (a.got_sighup = false →
        (a.execute uninit command).2.cout = a.cout ++ command ++ ['\n'])
    ∧ a.clear = { a with got_sighup := false, got_sigpipe := false }
    ∧ (a.clear.execute uninit command).2.cout = a.cout ++ command ++ ['\n'] := by
  have hcout : ∀ b : agi, b.got_sighup = false →
      (b.execute uninit command).2.cout = b.cout ++ command ++ ['\n'] := by
    intro b hb
    rw [execute_state uninit b command hb, (get_result_frame uninit _).1]
    rfl
  refine ⟨fun h => ?_, hcout a, rfl, hcout a.clear rfl⟩
  simp [agi.execute, agi.test_hangup, h]

/-- C26: with `got_sighup` unset, when the reply to the command parses to the result
`r`, `execute` throws `hangup_result` if the data of `r` is `hangup`,
otherwise `application_error` if its result is -1, otherwise `io_error` if
`got_sigpipe` is set, and otherwise returns `r`. -/
theorem execute_post_parse (uninit : Int) (a a1 : agi) (command : Str) (r : agi.result)
    (hh : a.got_sighup = false)
    (hr : (a.send_command command).get_result uninit = (.ok r, a1)) :
    a1.got_sigpipe = a.got_sigpipe
    ∧ a.execute uninit command
      = if r.data = "hangup".toList then (.error .hangup_result, a1)
        else if r.result = -1 then
          (.error (.application_error
            "An error occured executing an agi command or the channel was hungup".toList), a1)
        else if a.got_sigpipe = true then (.error (.io_error "Received SIGPIPE".toList), a1)
        else (.ok r, a1) := by
  have hp : a1.got_sigpipe = a.got_sigpipe := by
    have := (get_result_frame uninit (a.send_command command)).2.2.1
    rw [hr] at this
    exact this
  refine ⟨hp, ?_⟩
  rw [execute_of_no_hangup uninit a command hh, hr]
  simp only [hp]

/-- C26 at the reply `200 result=-1 (hangup)` with `got_sigpipe` set: the data decides. -/
theorem execute_post_parse_witness :
    ({ agi.on_input "200 result=-1 (hangup)\n".toList with got_sigpipe := true }).execute 0
        "NOOP".toList
      = (.error .hangup_result,
          { agi.on_input [] with cout := "NOOP\n".toList, got_sigpipe := true }) :=
  (execute_post_parse 0
    { agi.on_input "200 result=-1 (hangup)\n".toList with got_sigpipe := true }
    { agi.on_input [] with cout := "NOOP\n".toList, got_sigpipe := true } "NOOP".toList
    { code := 200, message := "result=-1 (hangup)".toList, result := -1,
      result_string := "-1".toList, data := "hangup".toList, endpos := 0 }
    rfl (by decide)).2

/-! ### The command lines -/

/-- C27, the code at `get_data`: the file name, a string argument, is written without
quotes, `GET DATA welcome`, where `get_option` writes `"welcome"`. -/
theorem get_data_file_not_quoted :
    (∀ file : Str, agi.get_data_command file 0 agi.get_data_max_digits
        = "GET DATA ".toList ++ file)
    ∧ ((agi.on_input "200 result=1\n".toList).get_data 0 "welcome".toList 0 1024).2.cout
      = "GET DATA welcome\n".toList
    ∧ agi.get_option_command "welcome".toList [] 0 = "GET OPTION \"welcome\" \"\"".toList := by
  refine ⟨fun file => ?_, by decide, by decide⟩
  simp [agi.get_data_command]

/-- C28: the optional arguments of `control_stream_file`, `get_data`, `get_option` and
`say_datetime` are written up to the last one that differs from its default,
those before it with the value they have. -/
theorem optional_arguments_prefix (filename escape_digits file format timezone : Str)
    (skip_time timeout max_digits date : Int) (fastforward rewind pause : Char) :
    agi.control_stream_file_command filename escape_digits skip_time fastforward rewind pause
      = "STREAM FILE ".toList ++ agi.quote filename ++ " ".toList ++ agi.quote escape_digits
        ++ optional_prefix
          [(put_int skip_time, decide (skip_time = 3000)),
           (agi.quote_char fastforward, decide (fastforward.toNat = 0)),
           (agi.quote_char rewind, decide (rewind.toNat = 0)),
           (agi.quote_char pause, decide (pause.toNat = 0))]
    ∧ agi.get_data_command file timeout max_digits
      = "GET DATA ".toList ++ file
        ++ optional_prefix
          [(put_int timeout, decide (timeout = 0)),
           (put_int max_digits, decide (max_digits = 1024))]
    ∧ agi.get_option_command file escape_digits timeout
      = "GET OPTION ".toList ++ agi.quote file ++ " ".toList ++ agi.quote escape_digits
        ++ optional_prefix [(put_int timeout, decide (timeout = 0))]
    ∧ agi.say_datetime_command date escape_digits format timezone
      = "SAY DATETIME ".toList ++ put_int date ++ " ".toList ++ agi.quote escape_digits
        ++ optional_prefix [(agi.quote format, format.isEmpty),
            (agi.quote timezone, timezone.isEmpty)]
    ∧ optional_prefix [("a".toList, true), ("b".toList, false), ("c".toList, true)]
      = " a b".toList := by
  refine ⟨?_, ?_, ?_, ?_, by decide⟩
  · by_cases h1 : skip_time = 3000 <;> by_cases h2 : fastforward.toNat = 0 <;>
      by_cases h3 : rewind.toNat = 0 <;> by_cases h4 : pause.toNat = 0 <;>
      simp [agi.control_stream_file_command, agi.control_stream_file_skip_time,
        optional_prefix, h1, h2, h3, h4]
  · by_cases h1 : timeout = 0 <;> by_cases h2 : max_digits = 1024 <;>
      simp [agi.get_data_command, agi.get_data_max_digits, optional_prefix, h1, h2]
  · by_cases h1 : timeout = 0 <;>
      simp [agi.get_option_command, optional_prefix, h1]
  · cases format <;> cases timezone <;>
      simp [agi.say_datetime_command, optional_prefix]

/-- C29, counterexample: with the silence -1 `record_file` writes `s=-1`. -/
theorem record_file_negative_silence :
    agi.record_file_command "f".toList "wav".toList [] (-1) (-1) false 0
      = "RECORD FILE \"f\" \"wav\" \"\" -1 s=-1".toList := by
  decide

/-- C29, amended: `record_file` writes `RECORD FILE`, the quoted file name, the quoted
format, the quoted escape digits and the timeout, then the offset if and only
if it is not 0, then `BEEP` if and only if `beep` is true, then `s=` and the
silence if and only if the silence is not 0, each after one space. -/
theorem record_file_layout (filename format escape_digits : Str) (timeout silence : Int)
    (beep : Bool) (offset : Int) :
    agi.record_file_command filename format escape_digits timeout silence beep offset
      = "RECORD FILE ".toList ++ agi.quote filename ++ " ".toList ++ agi.quote format
        ++ " ".toList ++ agi.quote escape_digits ++ " ".toList ++ put_int timeout
        ++ (if offset ≠ 0 then " ".toList ++ put_int offset else [])
        ++ (if beep = true then " BEEP".toList else [])
        ++ (if silence ≠ 0 then " s=".toList ++ put_int silence else []) := by
  by_cases h1 : offset = 0 <;> by_cases h2 : silence = 0 <;> cases beep <;>
    simp [agi.record_file_command, h1, h2]

/-! ### verbose -/

theorem segments_ne_nil (t : Str) : segments t ≠ [] := by
  cases t with
  | nil => simp [segments]
  | cons c cs =>
    simp only [segments]
    split_ifs
    · simp
    · split <;> simp

theorem segments_cons_ne (c : Char) (cs : Str) (h : c ≠ '\n') :
    segments (c :: cs) = (c :: (segments cs).head!) :: (segments cs).tail := by
  simp only [segments, h, if_false]
  cases hs : segments cs with
  | nil => exact absurd hs (segments_ne_nil cs)
  | cons s ss => rfl

theorem segments_of_find_none (t : Str) (h : find_first_of t '\n' = none) :
    segments t = [t] := by
  induction t with
  | nil => rfl
  | cons c cs ih =>
    simp only [find_first_of] at h
    split_ifs at h with hc
    have h2 : find_first_of cs '\n' = none := by
      cases hf : find_first_of cs '\n' with
      | none => rfl
      | some k => rw [hf] at h; simp at h
    rw [segments_cons_ne c cs hc, ih h2]
    rfl

theorem segments_of_find_some (t : Str) (k : Nat) (h : find_first_of t '\n' = some k) :
    segments t = t.take k :: segments (t.drop (k + 1)) ∧ k < t.length := by
  induction t generalizing k with
  | nil => simp [find_first_of] at h
  | cons c cs ih =>
    simp only [find_first_of] at h
    split_ifs at h with hc
    · cases h
      simp [segments, hc]
    · cases hf : find_first_of cs '\n' with
      | none => rw [hf] at h; simp at h
      | some j =>
        rw [hf] at h
        simp only [Option.map_some', Option.some.injEq] at h
        subst h
        obtain ⟨h1, h2⟩ := ih j hf
        rw [segments_cons_ne c cs hc, h1]
        simp only [List.head!_cons, List.tail_cons, List.take_succ_cons, List.drop_succ_cons,
          List.length_cons]
        constructor <;> first | rfl | trivial | omega

theorem verbose_loop_eq (uninit : Int) (text : Str) (level : Int) (fuel start_pos : Nat)
    (a : agi) (hf : (text.drop start_pos).length < fuel) :
    agi.verbose_loop uninit text level fuel start_pos a
      = execute_all uninit (verbose_commands (text.drop start_pos) level) a := by
  induction fuel generalizing start_pos a with
  | zero => omega
  | succ fuel ih =>
    unfold agi.verbose_loop
    cases hfind : find_first_of (text.drop start_pos) '\n' with
    | none =>
      have hseg := segments_of_find_none _ hfind
      simp only [agi.find_from, hfind, Option.map_none', verbose_commands, hseg, List.map_cons,
        List.map_nil, execute_all, agi.verbose_command, agi.substr]
    | some k =>
      obtain ⟨hseg, hk⟩ := segments_of_find_some _ k hfind
      have hdrop : (text.drop start_pos).drop (k + 1) = text.drop (k + start_pos + 1) := by
        rw [List.drop_drop]
        congr 1
        omega
      have hlen : (text.drop (k + start_pos + 1)).length < fuel := by
        rw [← hdrop, List.length_drop]
        omega
      simp only [agi.find_from, hfind, Option.map_some', verbose_commands, hseg, List.map_cons,
        execute_all, agi.verbose_command, agi.substr, Nat.add_sub_cancel]
      rcases a.execute uninit _ with ⟨r | r, a1⟩
      · rfl
      · simp only []
        rw [ih _ a1 hlen, ← hdrop]
        rfl

theorem segments_length (t : Str) : (segments t).length = t.count '\n' + 1 := by
  induction t with
  | nil => rfl
  | cons c cs ih =>
    by_cases hc : c = '\n'
    · subst hc
      simp [segments, ih]
    · rw [segments_cons_ne c cs hc, List.count_cons_of_ne (fun e => hc e.symm)]
      have := segments_ne_nil cs
      cases hs : segments cs with
      | nil => exact absurd hs this
      | cons s ss =>
        rw [hs] at ih
        simpa using ih

theorem segments_no_newline (t : Str) : ∀ s ∈ segments t, '\n' ∉ s := by
  induction t with
  | nil => intro s hs; simp [segments] at hs; simp [hs]
  | cons c cs ih =>
    by_cases hc : c = '\n'
    · subst hc
      intro s hs
      simp only [segments, if_true, List.mem_cons] at hs
      rcases hs with hs | hs
      · simp [hs]
      · exact ih s hs
    · rw [segments_cons_ne c cs hc]
      cases hs : segments cs with
      | nil => exact absurd hs (segments_ne_nil cs)
      | cons s0 ss =>
        rw [hs] at ih
        intro s hmem
        simp only [List.head!_cons, List.tail_cons, List.mem_cons] at hmem
        rcases hmem with hmem | hmem
        · rw [hmem]
          intro hin
          rcases List.mem_cons.1 hin with e | e
          · exact hc e.symm
          · exact ih s0 (List.mem_cons_self _ _) e
        · exact ih s (List.mem_cons_of_mem _ hmem)

theorem segments_intercalate (t : Str) : ['\n'].intercalate (segments t) = t := by
  induction t with
  | nil => rfl
  | cons c cs ih =>
    by_cases hc : c = '\n'
    · subst hc
      simp only [segments, if_true]
      cases hs : segments cs with
      | nil => exact absurd hs (segments_ne_nil cs)
      | cons s ss =>
        rw [hs] at ih
        simp only [List.intercalate, List.intersperse, List.flatten, List.nil_append,
          List.singleton_append] at ih ⊢
        rw [ih]
    · rw [segments_cons_ne c cs hc]
      cases hs : segments cs with
      | nil => exact absurd hs (segments_ne_nil cs)
      | cons s ss =>
        rw [hs] at ih
        cases ss with
        | nil =>
          simp only [List.intercalate, List.intersperse, List.flatten, List.append_nil,
            List.head!_cons, List.tail_cons] at ih ⊢
          rw [ih]
        | cons s2 ss2 =>
          simp only [List.intercalate, List.intersperse, List.flatten, List.head!_cons,
            List.tail_cons, List.cons_append] at ih ⊢
          rw [ih]

theorem put_int_no_newline (n : Int) : '\n' ∉ put_int n := by
  have key : ∀ m : Nat, '\n' ∉ Nat.toDigits 10 m := by
    intro m hm
    exact absurd ((toDigits_spec m).2.1 _ hm) (by decide)
  cases n with
  | ofNat m => exact key m
  | negSucc m =>
    intro h
    rcases List.mem_cons.1 h with h | h
    · exact absurd h (by decide)
    · exact key _ h

theorem execute_ok_cout (uninit : Int) (a a1 : agi) (command : Str) (r : agi.result)
    (h : a.execute uninit command = (.ok r, a1)) : a1.cout = a.cout ++ command ++ ['\n'] := by
  cases hh : a.got_sighup with
  | true =>
    simp [agi.execute, agi.test_hangup, hh] at h
  | false =>
    have h1 := execute_state uninit a command hh
    rw [h] at h1
    have h2 := (get_result_frame uninit (a.send_command command)).1
    rw [← h1] at h2
    exact h2

theorem execute_all_ok_cout (uninit : Int) (commands : List Str) (a : agi)
    (h : (execute_all uninit commands a).1 = .ok ()) :
    (execute_all uninit commands a).2.cout
      = a.cout ++ (commands.map (fun c => c ++ ['\n'])).flatten := by
  induction commands generalizing a with
  | nil => simp [execute_all]
  | cons c cs ih =>
    simp only [execute_all] at h ⊢
    rcases he : a.execute uninit c with ⟨e | r, a1⟩
    · rw [he] at h
      cases h
    · rw [he] at h
      have h2 : (execute_all uninit cs a1).1 = .ok () := h
      show (execute_all uninit cs a1).2.cout = _
      rw [ih a1 h2, execute_ok_cout uninit a a1 c r he]
      simp

/-- C30: `verbose` executes, one after the other and up to the first that fails, the
commands `VERBOSE "<segment>" <level>` of the segments of the text between
its newline characters.  They are one more than the newline characters of
the text, none contains a newline, the segments joined by newlines are the
text, and when none fails the commands, each with its newline, are what is
written. -/
theorem verbose_splits (uninit : Int) (a : agi) (text : Str) (level : Int) :
    a.verbose uninit text level
      = execute_all uninit
          ((segments text).map (fun s =>
            "VERBOSE ".toList ++ agi.quote s ++ " ".toList ++ put_int level)) a
    ∧ (segments text).length = text.count '\n' + 1
    ∧ (∀ s ∈ segments text,
        '\n' ∉ "VERBOSE ".toList ++ agi.quote s ++ " ".toList ++ put_int level)
    ∧ ['\n'].intercalate (segments text) = text
    ∧ ((a.verbose uninit text level).1 = .ok () →
        (a.verbose uninit text level).2.cout
          = a.cout ++ ((segments text).map (fun s =>
              "VERBOSE ".toList ++ agi.quote s ++ " ".toList ++ put_int level
                ++ ['\n'])).flatten) := by
  have hv : a.verbose uninit text level
      = execute_all uninit (verbose_commands text level) a := by
    have := verbose_loop_eq uninit text level (text.length + 1) 0 a (by simp)
    simpa [agi.verbose] using this
  refine ⟨hv, segments_length text, ?_, segments_intercalate text, ?_⟩
  · intro s hs hin
    have h1 := segments_no_newline text s hs
    have h2 := put_int_no_newline level
    simp only [agi.quote, List.mem_append, List.mem_cons, List.mem_singleton] at hin
    rcases hin with ((hin | ((hin | hin) | hin)) | hin) | hin
    · revert hin; decide
    · revert hin; decide
    · exact h1 hin
    · revert hin; decide
    · revert hin; decide
    · exact h2 hin
  · intro hok
    rw [hv] at hok ⊢
    rw [execute_all_ok_cout uninit _ a hok]
    simp [verbose_commands, List.map_map, Function.comp_def]

/-! ### DATABASE PUT, the replies without a closing parenthesis, the lookup -/

/-- C40, the code at `database_put`: the quoted key and the quoted value are written
with nothing between them, `DATABASE PUT "f" "k""v"`, where `database_get`
and `database_del` put one space before each argument. -/
theorem database_put_no_space_before_value :
    (∀ family key value : Str,
      agi.database_put_command family key value
        = "DATABASE PUT ".toList ++ agi.quote family ++ " ".toList ++ agi.quote key
          ++ agi.quote value)
    ∧ ((agi.on_input "200 result=1\n".toList).database_put 0 "f".toList "k".toList
        "v".toList).2.cout = "DATABASE PUT \"f\" \"k\"\"v\"\n".toList
    ∧ agi.database_get_command "f".toList "k".toList = "DATABASE GET \"f\" \"k\"".toList
    ∧ agi.database_del_command "f".toList "k".toList = "DATABASE DEL \"f\" \"k\"".toList := by
  refine ⟨fun family key value => rfl, by decide, by decide, by decide⟩

/-- C39, the code at a reply with `(` and no later `)`: `get_result` returns no result,
`substr` throws `std::out_of_range`; the same for a result token that starts
with `(`; a reply without `=` gives a result. -/
theorem get_result_out_of_range :
    ((agi.on_input "200 result=0 (abc\n".toList).get_result 0).1 = .error .out_of_range
    ∧ ((agi.on_input "200 result=(x)\n".toList).get_result 0).1 = .error .out_of_range
    ∧ ((agi.on_input "200 hello\n".toList).get_result 0).1
      = .ok { code := 200, message := "hello".toList, result := 0, result_string := [],
              data := [], endpos := 0 } := by
  decide

/-- C31, the code at a key the environment does not have: the lookup returns the empty
string and leaves the environment with one pair more, the key with an empty
value, at its place in key order; for a key it has the lookup returns the
value and changes nothing. -/
theorem index_inserts_absent_key (a : agi) (key : Str) :
    (equal_range_first key a.env = none →
      (a.index key).1 = []
      ∧ (a.index key).2.begin_end = multimap_insert (key, []) a.env
      ∧ (a.index key).2.begin_end.length = a.begin_end.length + 1
      ∧ (key, []) ∈ (a.index key).2.begin_end)
    ∧ (∀ v, equal_range_first key a.env = some v → a.index key = (v, a))
    ∧ (({ agi.on_input [] with env := [("agi_channel".toList, "SIP/1".toList)] } : agi).index
        "agi_type".toList).2.begin_end
      = [("agi_channel".toList, "SIP/1".toList), ("agi_type".toList, [])] := by
  refine ⟨fun h => ?_, fun v h => ?_, by decide⟩
  · have hp := multimap_insert_perm (key, []) a.env
    have hi : a.index key = ([], { a with env := multimap_insert (key, []) a.env }) := by
      simp only [agi.index, h]
    rw [hi]
    exact ⟨rfl, rfl, by show (multimap_insert (key, []) a.env).length = _; rw [hp.length_eq]; rfl,
      hp.mem_iff.2 (List.mem_cons_self _ _)⟩
  · simp only [agi.index, h]

/-! ### The environment block -/

theorem getline_delim (l rest str : Str) (d : Char) (h : d ∉ l) :
    (istream.mk (l ++ d :: rest) false false).getline str d
      = (l, istream.mk rest false false) := by
  have hl : ∀ x ∈ l, (x != d) = true := by
    intro x hx
    simp only [bne_iff_ne, ne_eq]
    exact fun e => h (e ▸ hx)
  simp only [istream.getline, istream.sentry, istream.good, Bool.not_false, Bool.and_self,
    Bool.not_true, Bool.false_eq_true, if_false, if_true]
  rw [dropWhile_append_cons _ l rest d hl (by simp),
    takeWhile_append_cons _ l rest d hl (by simp)]

theorem getline_buf_subset (s : istream) (str : Str) (d : Char) :
    ∀ c ∈ (s.getline str d).2.buf, c ∈ s.buf := by
  intro c hc
  cases hg : s.good with
  | false =>
    simp only [istream.getline, sentry_of_not_good s true hg] at hc
    exact hc
  | true =>
    simp only [istream.getline, sentry_of_good s hg, if_true] at hc
    cases hd : s.buf.dropWhile (fun c => c != d) with
    | nil => rw [hd] at hc; simp at hc
    | cons x xs =>
      rw [hd] at hc
      have : c ∈ s.buf.dropWhile (fun c => c != d) := by rw [hd]; exact List.mem_cons_of_mem _ hc
      exact (List.dropWhile_suffix _).subset this

theorem getline_good_of_not_good (s : istream) (str : Str) (d : Char) (h : s.good = false) :
    (s.getline str d).2.good = false := by
  simp [istream.getline, sentry_of_not_good s true h, istream.good]

theorem peek_good_of_not_good (s : istream) (h : s.good = false) :
    s.peek.2.good = false ∧ s.peek.1 = none := by
  simp [istream.peek, sentry_of_not_good s true h, istream.good]

theorem peek_mem (s : istream) (c : Char) (h : s.peek.1 = some c) : c ∈ s.buf := by
  cases hg : s.good with
  | false => rw [(peek_good_of_not_good s hg).2] at h; cases h
  | true =>
    simp only [istream.peek, sentry_of_good s hg, if_true] at h
    cases s with
    | mk buf e f =>
      cases buf with
      | nil => cases h
      | cons x xs =>
        simp only [Option.some.injEq] at h
        rw [← h]
        exact List.mem_cons_self _ _

/-- At the end of the input, or on a stream that is not good, the loop of `read_env` never
sees its newline again. -/
theorem read_env_loop_stuck (budget : Nat) (a : agi) (h : a.cin.good = false) :
    (agi.read_env_loop budget a).1 = .error .diverged := by
  induction budget generalizing a with
  | zero => rfl
  | succ budget ih =>
    have hp := peek_good_of_not_good a.cin h
    unfold agi.read_env_loop
    rw [if_neg (by rw [hp.2]; simp)]
    apply ih
    apply getline_good_of_not_good
    have hk := getline_good_of_not_good a.cin.peek.2 [] ':' hp.1
    have hq := peek_good_of_not_good _ hk
    rw [hq.2]
    simp only [if_false, reduceCtorEq]
    exact hq.1

theorem read_env_loop_no_newline (budget : Nat) (a : agi) (h : '\n' ∉ a.cin.buf) :
    (agi.read_env_loop budget a).1 = .error .diverged := by
  cases budget with
  | zero => rfl
  | succ budget =>
    unfold agi.read_env_loop
    rw [if_neg (fun hp => h (peek_mem _ _ hp))]
    apply read_env_loop_stuck
    apply getline_not_good _ _ []
    intro hc
    apply h
    have hsub : ∀ c ∈ ((a.cin.peek.2.getline [] ':').2.peek).2.buf, c ∈ a.cin.buf := by
      intro c hc
      rw [peek_buf] at hc
      have := getline_buf_subset _ _ _ c hc
      rw [peek_buf] at this
      exact this
    split_ifs at hc
    · exact hsub _ (ignore_buf_subset _ _ _ _ hc)
    · exact hsub _ hc

theorem strip_space_cons (c : Char) (r : Str) (h : c ≠ ' ') : strip_space (c :: r) = c :: r := by
  unfold strip_space
  split
  · rename_i heq
    exact absurd (List.cons.inj heq).1 h
  · rfl

/-- One turn of the loop of `read_env` on a well formed line. -/
theorem read_env_loop_line (budget : Nat) (a : agi) (q : Str × Str) (r : Str)
    (hq : env_line_ok q) (ha : a.cin = istream.mk (env_line q ++ r) false false) :
    agi.read_env_loop (budget + 1) a
      = agi.read_env_loop budget
          { a with cin := istream.mk r false false,
                   env := map_insert (q.1, strip_space q.2) a.env } := by
  obtain ⟨k, w⟩ := q
  obtain ⟨h1, h2, h3⟩ := hq
  simp only [] at h1 h2 h3
  have hbuf : env_line (k, w) ++ r = k ++ ':' :: (w ++ '\n' :: r) := by
    simp [env_line]
  have hpeek : (istream.mk (k ++ ':' :: (w ++ '\n' :: r)) false false).peek.1 ≠ some '\n'
      ∧ (istream.mk (k ++ ':' :: (w ++ '\n' :: r)) false false).peek.2
        = istream.mk (k ++ ':' :: (w ++ '\n' :: r)) false false := by
    cases k with
    | nil => simp [istream.peek, istream.sentry, istream.good]
    | cons c cs =>
      have hc : c ≠ '\n' := fun e => h2 (e ▸ List.mem_cons_self _ _)
      simp [istream.peek, istream.sentry, istream.good, hc]
  have hkey := getline_delim k (w ++ '\n' :: r) [] ':' h1
  have hval : ((if ((istream.mk (w ++ '\n' :: r) false false).peek).1 = some ' ' then
        ((istream.mk (w ++ '\n' :: r) false false).peek).2.ignore 1 none
      else ((istream.mk (w ++ '\n' :: r) false false).peek).2).getline [] '\n')
      = (strip_space w, istream.mk r false false) := by
    cases w with
    | nil =>
      have := getline_delim [] r [] '\n' (by simp)
      simp only [List.nil_append] at this
      simp [istream.peek, istream.sentry, istream.good, strip_space, this]
    | cons c cs =>
      by_cases hc : c = ' '
      · subst hc
        have hcs : '\n' ∉ cs := fun e => h3 (List.mem_cons_of_mem _ e)
        have := getline_delim cs r [] '\n' hcs
        simp [istream.peek, istream.sentry, istream.good, istream.ignore, istream.ignore_loop,
          strip_space, this]
      · have := getline_delim (c :: cs) r [] '\n' h3
        simp only [List.cons_append] at this
        simp [istream.peek, istream.sentry, istream.good, hc, strip_space_cons c cs hc, this]
  rw [agi.read_env_loop]
  simp only [ha, hbuf, hpeek.2, hkey, hval]
  rw [if_neg hpeek.1]

theorem str_lt_total (a b : Str) (h : a ≠ b) : str_lt a b = true ∨ str_lt b a = true := by
  induction a generalizing b with
  | nil =>
    cases b with
    | nil => exact absurd rfl h
    | cons y ys => left; rfl
  | cons x xs ih =>
    cases b with
    | nil => right; rfl
    | cons y ys =>
      by_cases h1 : x.toNat < y.toNat
      · left; simp [str_lt, h1]
      · by_cases h2 : y.toNat < x.toNat
        · right; simp [str_lt, h2]
        · have hxy : x = y := by
            have : x.toNat = y.toNat := by omega
            rw [← Char.ofNat_toNat x, ← Char.ofNat_toNat y, this]
          subst hxy
          have hne : xs ≠ ys := fun e => h (by rw [e])
          rcases ih ys hne with h3 | h3
          · left; simp [str_lt, h3]
          · right; simp [str_lt, h3]

theorem equal_range_first_none_of_not_mem (k : Str) (m : List (Str × Str))
    (h : k ∉ m.map Prod.fst) : equal_range_first k m = none := by
  unfold equal_range_first
  rw [Option.map_eq_none', List.find?_eq_none]
  intro x hx hk
  simp only [beq_iff_eq] at hk
  exact h (List.mem_map.2 ⟨x, hx, hk⟩)

theorem map_insert_of_absent (p : Str × Str) (m : List (Str × Str))
    (h : p.1 ∉ m.map Prod.fst) : map_insert p m = multimap_insert p m := by
  simp only [map_insert, equal_range_first_none_of_not_mem p.1 m h]

theorem map_insert_sorted (p : Str × Str) (m : List (Str × Str))
    (hm : m.Pairwise (fun a b => str_lt b.1 a.1 = false)) :
    (map_insert p m).Pairwise (fun a b => str_lt b.1 a.1 = false) := by
  unfold map_insert
  split
  · exact hm
  · exact multimap_insert_sorted p m hm

theorem foldl_map_insert_sorted (ps acc : List (Str × Str))
    (hm : acc.Pairwise (fun a b => str_lt b.1 a.1 = false)) :
    (ps.foldl (fun e p => map_insert p e) acc).Pairwise (fun a b => str_lt b.1 a.1 = false) := by
  induction ps generalizing acc with
  | nil => exact hm
  | cons p ps ih => exact ih _ (map_insert_sorted p acc hm)

theorem foldl_map_insert_perm (ps acc : List (Str × Str)) (hn : (ps.map Prod.fst).Nodup)
    (hd : ∀ p ∈ ps, p.1 ∉ acc.map Prod.fst) :
    (ps.foldl (fun e p => map_insert p e) acc).Perm (acc ++ ps) := by
  induction ps generalizing acc with
  | nil => simp
  | cons p ps ih =>
    rw [List.map_cons, List.nodup_cons] at hn
    have hp : p.1 ∉ acc.map Prod.fst := hd p (List.mem_cons_self _ _)
    have hperm := multimap_insert_perm p acc
    rw [List.foldl_cons, map_insert_of_absent p acc hp]
    have hd2 : ∀ q ∈ ps, q.1 ∉ (multimap_insert p acc).map Prod.fst := by
      intro q hq hmem
      have := (hperm.map Prod.fst).mem_iff.1 hmem
      rcases List.mem_cons.1 this with h | h
      · exact hn.1 (h ▸ List.mem_map.2 ⟨q, hq, rfl⟩)
      · exact hd q (List.mem_cons_of_mem _ hq) h
    refine (ih _ hn.2 hd2).trans ?_
    refine (List.Perm.append_right ps hperm).trans ?_
    exact (@List.perm_middle _ p acc ps).symm

theorem env_pairs_keys (lines : List (Str × Str)) :
    (env_pairs lines).map Prod.fst = lines.map Prod.fst := by
  simp [env_pairs, List.map_map, Function.comp_def]

/-- The loop of `read_env` on the well formed lines of a block. -/
theorem read_env_loop_block (lines : List (Str × Str)) (budget : Nat) (a : agi) (r : Str)
    (hl : ∀ q ∈ lines, env_line_ok q)
    (ha : a.cin = istream.mk (env_block lines ++ r) false false) :
    agi.read_env_loop (lines.length + budget) a
      = agi.read_env_loop budget
          { a with cin := istream.mk r false false,
                   env := (env_pairs lines).foldl (fun e p => map_insert p e) a.env } := by
  induction lines generalizing a with
  | nil =>
    simp only [env_block, List.map_nil, List.flatten_nil, List.nil_append] at ha
    simp only [List.length_nil, Nat.zero_add, env_pairs, List.map_nil, List.foldl_nil]
    rw [← ha]
  | cons q qs ih =>
    have hq := hl q (List.mem_cons_self _ _)
    have ha2 : a.cin = istream.mk (env_line q ++ (env_block qs ++ r)) false false := by
      rw [ha]; simp [env_block]
    rw [show (q :: qs).length + budget = (qs.length + budget) + 1 from by
      simp only [List.length_cons]; omega]
    rw [read_env_loop_line _ a q _ hq ha2, ih _ (fun x hx => hl x (List.mem_cons_of_mem _ hx)) rfl]
    rfl

theorem read_env_loop_blank (budget : Nat) (a : agi) (rest : Str)
    (ha : a.cin = istream.mk ('\n' :: rest) false false) :
    agi.read_env_loop (budget + 1) a = (.ok (), a) := by
  cases a with
  | mk cin cout env hup pipe =>
    simp only [] at ha
    subst ha
    simp [agi.read_env_loop, istream.peek, istream.sentry, istream.good]

/-- What `read_env` does on a block of well formed lines that ends with a blank line:
the lines are read, the newline of the blank line is left, and each pair is
inserted in the map. -/
theorem read_env_of_block (budget : Nat) (a : agi) (lines : List (Str × Str)) (rest : Str)
    (hl : ∀ q ∈ lines, env_line_ok q)
    (ha : a.cin = istream.of_string (env_block lines ++ '\n' :: rest))
    (hb : lines.length < budget) :
    a.read_env budget
      = (.ok (), { a with cin := istream.of_string ('\n' :: rest),
                          env := (env_pairs lines).foldl (fun e p => map_insert p e) a.env }) := by
  obtain ⟨b, rfl⟩ : ∃ b, budget = lines.length + (b + 1) := ⟨budget - lines.length - 1, by omega⟩
  unfold agi.read_env
  rw [read_env_loop_block lines (b + 1) a _ hl ha, read_env_loop_blank b _ rest rfl]
  rfl

/-- C38: on a block of lines `k: v` with pairwise distinct names, no colon and no newline
in a name and no newline in a value, followed by a blank line, `read_env`
started with an empty environment returns within one turn per line and one
more, holds exactly the pairs of the lines, each value without one leading
space, and has read nothing from the newline of the blank line on. -/
theorem read_env_block (budget : Nat) (a : agi) (lines : List (Str × Str)) (rest : Str)
    (hl : ∀ q ∈ lines, env_line_ok q) (hk : (lines.map Prod.fst).Nodup)
    (ha : a.cin = istream.of_string (env_block lines ++ '\n' :: rest)) (he : a.env = [])
    (hb : lines.length < budget) :
    ∃ env, a.read_env budget
        = (.ok (), { a with cin := istream.of_string ('\n' :: rest), env := env })
      ∧ env.Perm (env_pairs lines) := by
  refine ⟨_, read_env_of_block budget a lines rest hl ha hb, ?_⟩
  rw [he]
  have := foldl_map_insert_perm (env_pairs lines) [] (by rw [env_pairs_keys]; exact hk)
    (by simp)
  simpa using this

/-- C38 at the block `agi_request: x`, `agi_channel:SIP/1`, blank line, then a reply. -/
theorem read_env_block_witness :
    ∃ env, (agi.on_input
        "agi_request: x\nagi_channel:SIP/1\n\n200 result=1\n".toList).read_env 3
        = (.ok (), { agi.on_input [] with
            cin := istream.of_string "\n200 result=1\n".toList, env := env })
      ∧ env.Perm [("agi_request".toList, "x".toList), ("agi_channel".toList, "SIP/1".toList)] :=
  read_env_block 3 (agi.on_input "agi_request: x\nagi_channel:SIP/1\n\n200 result=1\n".toList)
    [("agi_request".toList, " x".toList), ("agi_channel".toList, "SIP/1".toList)]
    "200 result=1\n".toList
    (by
      intro q hq
      simp only [List.mem_cons, List.mem_singleton, List.not_mem_nil, or_false] at hq
      rcases hq with rfl | rfl <;> exact ⟨by decide, by decide, by decide⟩)
    (by decide) (by decide) rfl (by decide)

/-- C32, counterexample: the lines `b: 1` and `a: 2`, read in this order, are gone through
by an iteration in the order `a`, `b`. -/
theorem read_env_not_reading_order :
    ((agi.on_input "b: 1\na: 2\n\n".toList).read_env 3).2.begin_end
      = [("a".toList, "2".toList), ("b".toList, "1".toList)] := by
  decide

/-- C32, amended: after `read_env` on a block as in C38, an iteration from `begin()` to
`end()` goes through the pairs of the lines in ascending order of their names,
whatever the order in which the lines were read. -/
theorem read_env_key_order (budget : Nat) (a : agi) (lines : List (Str × Str)) (rest : Str)
    (hl : ∀ q ∈ lines, env_line_ok q) (hk : (lines.map Prod.fst).Nodup)
    (ha : a.cin = istream.of_string (env_block lines ++ '\n' :: rest)) (he : a.env = [])
    (hb : lines.length < budget) :
    (a.read_env budget).2.begin_end.Pairwise (fun p q => str_lt p.1 q.1 = true)
    ∧ (a.read_env budget).2.begin_end.Perm (env_pairs lines) := by
  rw [read_env_of_block budget a lines rest hl ha hb, he]
  have hperm := foldl_map_insert_perm (env_pairs lines) [] (by rw [env_pairs_keys]; exact hk)
    (by simp)
  rw [List.nil_append] at hperm
  have hsorted := foldl_map_insert_sorted (env_pairs lines) [] List.Pairwise.nil
  refine ⟨?_, hperm⟩
  have hnodup : ((env_pairs lines).foldl (fun e p => map_insert p e) []).Pairwise
      (fun p q => p.1 ≠ q.1) := by
    have h1 : (((env_pairs lines).foldl (fun e p => map_insert p e) []).map Prod.fst).Nodup := by
      rw [(hperm.map Prod.fst).nodup_iff, env_pairs_keys]
      exact hk
    exact List.pairwise_map.1 h1
  refine (hsorted.and hnodup).imp ?_
  intro p q h
  rcases str_lt_total p.1 q.1 h.2 with h3 | h3
  · exact h3
  · rw [h.1] at h3; cases h3

/-- C32 at the lines `b: 1` and `a: 2`. -/
theorem read_env_key_order_witness :
    ((agi.on_input "b: 1\na: 2\n\n".toList).read_env 3).2.begin_end.Pairwise
        (fun p q => str_lt p.1 q.1 = true)
    ∧ ((agi.on_input "b: 1\na: 2\n\n".toList).read_env 3).2.begin_end.Perm
        (env_pairs [("b".toList, " 1".toList), ("a".toList, " 2".toList)]) :=
  read_env_key_order 3 (agi.on_input "b: 1\na: 2\n\n".toList)
    [("b".toList, " 1".toList), ("a".toList, " 2".toList)] []
    (by
      intro q hq
      simp only [List.mem_cons, List.mem_singleton, List.not_mem_nil, or_false] at hq
      rcases hq with rfl | rfl <;> exact ⟨by decide, by decide, by decide⟩)
    (by decide) (by decide) rfl (by decide)

/-- C33: on an input that ends before a blank line, well formed lines and then the end
of the input or the beginning of a line, the loop of `read_env` never ends:
whatever the number of turns allowed, it has not returned and has thrown
nothing. -/
theorem read_env_truncated (budget : Nat) (a : agi) (lines : List (Str × Str)) (last : Str)
    (hl : ∀ q ∈ lines, env_line_ok q) (hlast : '\n' ∉ last)
    (ha : a.cin = istream.of_string (env_block lines ++ last)) :
    (a.read_env budget).1 = .error .diverged := by
  unfold agi.read_env
  induction lines generalizing a budget with
  | nil =>
    apply read_env_loop_no_newline
    rw [ha]
    simpa [env_block, istream.of_string] using hlast
  | cons q qs ih =>
    cases budget with
    | zero => rfl
    | succ budget =>
      have hq := hl q (List.mem_cons_self _ _)
      have ha2 : a.cin = istream.mk (env_line q ++ (env_block qs ++ last)) false false := by
        rw [ha]; simp [env_block, istream.of_string]
      rw [read_env_loop_line budget a q _ hq ha2]
      exact ih budget _ (fun x hx => hl x (List.mem_cons_of_mem _ hx)) rfl

/-- C33 at the input `agi_request: x` and the end of the input, with 100 turns allowed. -/
theorem read_env_truncated_witness :
    ((agi.on_input "agi_request: x\n".toList).read_env 100).1 = .error .diverged :=
  read_env_truncated 100 (agi.on_input "agi_request: x\n".toList)
    [("agi_request".toList, " x".toList)] []
    (by
      intro q hq
      simp only [List.mem_singleton] at hq
      rw [hq]
      exact ⟨by decide, by decide, by decide⟩)
    (by simp) (by decide)

/-! ### The result token -/

theorem get_result_200_eq (result : agi.result) :
    agi.get_result_200 result
      = match find result.message "(".toList with
        | some _ =>
          match find_last_of
              ((((agi.get_result_200_token result).2.ignore 32 (some '(')).getline
                (agi.get_result_200_token result).1.data '\n').1) ')' with
          | none => .error .out_of_range
          | some token =>
            .ok (agi.get_result_endpos
              { (agi.get_result_200_token result).1 with
                data := ((((agi.get_result_200_token result).2.ignore 32 (some '(')).getline
                  (agi.get_result_200_token result).1.data '\n').1).take token }
              (((((agi.get_result_200_token result).2.ignore 32 (some '(')).getline
                  (agi.get_result_200_token result).1.data '\n').2).str
                (((((agi.get_result_200_token result).2.ignore 32 (some '(')).getline
                  (agi.get_result_200_token result).1.data '\n').1).drop token))
              (((((agi.get_result_200_token result).2.ignore 32 (some '(')).getline
                  (agi.get_result_200_token result).1.data '\n').1).drop token))
        | none =>
          .ok (agi.get_result_endpos (agi.get_result_200_token result).1
            ((((agi.get_result_200_token result).2.getline [] '\n').2).str
              (((agi.get_result_200_token result).2.getline [] '\n').1))
            (((agi.get_result_200_token result).2.getline [] '\n').1)) := rfl

theorem get_result_200_token_fields (result r : agi.result)
    (hr : agi.get_result_200 result = .ok r) :
    r.result_string = (agi.get_result_200_token result).1.result_string
    ∧ r.result = (agi.get_result_200_token result).1.result := by
  rw [get_result_200_eq] at hr
  split at hr
  · split at hr
    · cases hr
    · cases hr
      exact ⟨(get_result_endpos_fields _ _ _).2.2.2.1, (get_result_endpos_fields _ _ _).2.2.1⟩
  · cases hr
    exact ⟨(get_result_endpos_fields _ _ _).2.2.2.1, (get_result_endpos_fields _ _ _).2.2.1⟩

theorem find_char_none (s : Str) (c : Char) (h : c ∉ s) : find s [c] = none := by
  induction s with
  | nil => simp [find, starts_with]
  | cons x xs ih =>
    have hx : x ≠ c := fun e => h (e ▸ List.mem_cons_self _ _)
    simp [find, starts_with, hx, ih (fun m => h (List.mem_cons_of_mem _ m))]

theorem get_result_200_of_no_paren (result : agi.result) (h : '(' ∉ result.message) :
    ∃ r, agi.get_result_200 result = .ok r := by
  have hf : find result.message "(".toList = none := find_char_none _ _ h
  rw [get_result_200_eq, hf]
  exact ⟨_, rfl⟩

theorem ignore_loop_through (d : Char) (n : Nat) (pre after : Str) (h : d ∉ pre)
    (hn : pre.length < n) :
    istream.ignore_loop (some d) n (pre ++ d :: after) = (after, false) := by
  induction pre generalizing n with
  | nil =>
    cases n with
    | zero => simp at hn
    | succ n => simp [istream.ignore_loop]
  | cons x xs ih =>
    cases n with
    | zero => simp at hn
    | succ n =>
      have hx : x ≠ d := fun e => h (e ▸ List.mem_cons_self _ _)
      have hx2 : ¬ (some x = some d) := fun e => hx (Option.some.inj e)
      simp only [List.cons_append, istream.ignore_loop, hx2, if_false]
      exact ih n (fun m => h (List.mem_cons_of_mem _ m)) (by simpa using hn)

theorem ignore_through (d : Char) (n : Nat) (pre after : Str) (h : d ∉ pre)
    (hn : pre.length < n) :
    (istream.of_string (pre ++ d :: after)).ignore n (some d)
      = istream.mk after false false := by
  simp [istream.of_string, istream.ignore, istream.sentry, istream.good,
    ignore_loop_through d n pre after h hn]

theorem extract_int_plus_digits (pre r : Str) (lo hi v : Int) (hne : pre ≠ [])
    (hd : ∀ c ∈ pre, c.isDigit = true) (hr : ∀ x, r.head? = some x → x.isDigit = false)
    (hlo : lo ≤ (digits_value pre : Int)) (hhi : (digits_value pre : Int) ≤ hi) :
    (istream.mk ('+' :: (pre ++ r)) false false).extract_int lo hi v
      = ((digits_value pre : Int), istream.mk r r.isEmpty false) := by
  have ht := takeWhile_append_stop Char.isDigit pre r hd hr
  have hs : (istream.mk ('+' :: (pre ++ r)) false false).sentry false
      = (true, istream.mk ('+' :: (pre ++ r)) false false) := by
    rw [sentry_skip_of_good (istream.mk ('+' :: (pre ++ r)) false false) rfl]
    simp +decide [List.dropWhile, isspace]
  have hpe : pre.isEmpty = false := by
    cases pre with
    | nil => exact absurd rfl hne
    | cons d ds => rfl
  simp +decide only [istream.extract_int, hs, if_true, istream.after_sign, ht.1, ht.2,
    List.head?_cons, hpe, Bool.false_eq_true, if_false, not_lt.2 hlo, not_lt.2 hhi,
    Option.some.injEq]

/-- A token that does not start with a whole number gives no value. -/
theorem extract_int_no_digits (tok : Str) (lo hi v : Int) (hne : tok ≠ [])
    (hs : ∀ c ∈ tok, isspace c = false)
    (hd : ∀ c, (istream.after_sign tok).head? = some c → c.isDigit = false) :
    ((istream.of_string tok).extract_int lo hi v).2.fail = true := by
  cases tok with
  | nil => exact absurd rfl hne
  | cons c cs =>
    have hc := hs c (List.mem_cons_self _ _)
    have hsen : (istream.of_string (c :: cs)).sentry false
        = (true, istream.of_string (c :: cs)) := by
      rw [sentry_skip_of_good (istream.of_string (c :: cs)) rfl]
      simp [istream.of_string, List.dropWhile, hc]
    have ht : (istream.after_sign (c :: cs)).takeWhile Char.isDigit = [] := by
      cases hh : istream.after_sign (c :: cs) with
      | nil => rfl
      | cons x xs =>
        rw [hh] at hd
        simp [List.takeWhile, hd x rfl]
    simp only [istream.extract_int, hsen, if_true]
    simp only [istream.of_string, ht, List.isEmpty_nil, if_true, istream.fail]

theorem peek_mk (b : Str) :
    (istream.mk b false false).peek = (b.head?, istream.mk b b.isEmpty false) := by
  cases b <;> simp [istream.peek, istream.sentry, istream.good]

theorem extract_string_of_all_space (b str : Str) (e : Bool) (h : ∀ c ∈ b, isspace c = true) :
    ((istream.mk b e false).extract_string str).1 = str := by
  cases e with
  | true => simp [istream.extract_string, istream.sentry, istream.good]
  | false =>
    rw [istream.extract_string, sentry_skip_of_good (istream.mk b false false) rfl]
    simp [dropWhile_all isspace b h]

theorem extract_int_nil_fail (lo hi v : Int) :
    ((istream.of_string []).extract_int lo hi v).2.fail = true := by
  simp [istream.extract_int, istream.of_string, istream.sentry, istream.good, istream.fail]

theorem extract_string_token (ws tok tail str : Str) (hws : ∀ c ∈ ws, isspace c = true)
    (hne : tok ≠ []) (htok : ∀ c ∈ tok, isspace c = false)
    (htail : ∀ c, tail.head? = some c → isspace c = true) :
    ((istream.mk (ws ++ tok ++ tail) false false).extract_string str).1 = tok := by
  cases tok with
  | nil => exact absurd rfl hne
  | cons c cs =>
    have hc := htok c (List.mem_cons_self _ _)
    have hd : (ws ++ (c :: cs) ++ tail).dropWhile isspace = (c :: cs) ++ tail := by
      rw [List.append_assoc]
      exact dropWhile_append_cons isspace ws (cs ++ tail) c hws hc
    have ht := (takeWhile_append_stop (fun x => !isspace x) (c :: cs) tail
      (by intro x hx; simp [htok x hx])
      (by intro x hx; simp [htail x hx])).1
    rw [istream.extract_string,
      sentry_skip_of_good (istream.mk (ws ++ (c :: cs) ++ tail) false false) rfl]
    simp only [hd, List.cons_append, List.isEmpty_cons, Bool.false_eq_true, if_false, if_true]
    exact ht

/-- The part of `case 200` that reads the result token, on a message whose first `=` is
among its first 32 characters. -/
theorem get_result_200_token_spec (result : agi.result) (pre after : Str)
    (hmsg : result.message = pre ++ '=' :: after) (hpre : '=' ∉ pre) (hlen : pre.length < 32)
    (hrs : result.result_string = []) :
    ((after.head? = some ' ' ∨ ∀ c ∈ after, isspace c = true) →
      (agi.get_result_200_token result).1.result_string = []
      ∧ (agi.get_result_200_token result).1.result = 0)
    ∧ (∀ ws tok tail, after = ws ++ tok ++ tail → ws.head? ≠ some ' ' →
        (∀ c ∈ ws, isspace c = true) → tok ≠ [] → (∀ c ∈ tok, isspace c = false) →
        (∀ c, tail.head? = some c → isspace c = true) →
        (agi.get_result_200_token result).1.result_string = tok
        ∧ (agi.get_result_200_token result).1.result
          = if ((istream.of_string tok).extract_int int_min int_max result.result).2.fail
            then 0
            else ((istream.of_string tok).extract_int int_min int_max result.result).1) := by
  have hstream : (istream.of_string result.message).ignore 32 (some '=')
      = istream.mk after false false := by
    rw [hmsg]; exact ignore_through '=' 32 pre after hpre hlen
  constructor
  · intro h
    by_cases h1 : after.head? = some ' '
    · simp only [agi.get_result_200_token, hstream, peek_mk, h1, ne_eq, not_true_eq_false,
        if_false]
      exact ⟨trivial, trivial⟩
    · have hall : ∀ c ∈ after, isspace c = true := by
        rcases h with h | h
        · exact absurd h h1
        · exact h
      have he := extract_string_of_all_space after [] after.isEmpty hall
      simp only [agi.get_result_200_token, hstream, peek_mk, ne_eq, h1, not_false_eq_true,
        if_true, hrs, he, extract_int_nil_fail]
      exact ⟨trivial, trivial⟩
  · intro ws tok tail hafter hws1 hws htok hns htail
    have hhead : after.head? ≠ some ' ' := by
      rw [hafter]
      cases ws with
      | nil =>
        cases tok with
        | nil => exact absurd rfl htok
        | cons c cs =>
          intro e
          have hc := hns c (List.mem_cons_self _ _)
          simp only [List.nil_append, List.cons_append, List.head?_cons,
            Option.some.injEq] at e
          rw [e] at hc
          exact absurd hc (by decide)
      | cons w ws2 => simpa using hws1
    have hemp : after.isEmpty = false := by
      rw [hafter]
      cases ws with
      | nil =>
        cases tok with
        | nil => exact absurd rfl htok
        | cons c cs => rfl
      | cons w ws2 => rfl
    have he := extract_string_token ws tok tail result.result_string hws htok hns htail
    rw [← hafter] at he
    simp only [agi.get_result_200_token, hstream, peek_mk, ne_eq, hhead, not_false_eq_true,
      if_true, hemp, he]
    exact ⟨trivial, trivial⟩

/-- C37, counterexample: in a reply with the code 200 whose first `=` comes after more
than 32 characters, the result token is not what follows that `=`. -/
theorem get_result_token_beyond_reach :
    ((agi.on_input
        "200 aaaaaaaaaaaaaaaaaaaaaaaaaaaaaaaaaaaaaaaa=5\n".toList).get_result 0).1
      = .ok { code := 200, message := "aaaaaaaaaaaaaaaaaaaaaaaaaaaaaaaaaaaaaaaa=5".toList,
              result := 0, result_string := "aaaaaaaa=5".toList, data := [], endpos := 0 } := by
  decide

/-- C37, amended: for a reply line with the code 200 whose message has its first `=` among
its first 32 characters, a result `get_result` returns has, when a space or
nothing but white space follows that `=`, the empty `result_string` and the
result 0; otherwise `result_string` is the next token between white space,
and the result is the whole number the token is, written in decimal with or
without a sign and in the range of `int`, and 0 when the token does not start
with a whole number.  A result is returned whenever the message has no `(`. -/
theorem get_result_token (uninit : Int) (a : agi) (pre after rest : Str)
    (ha : a.cin = istream.of_string ("200 ".toList ++ pre ++ '=' :: after ++ '\n' :: rest))
    (hpre : '=' ∉ pre) (hlen : pre.length < 32) (hnl : '\n' ∉ pre ++ '=' :: after) :
    (∀ r, (a.get_result uninit).1 = .ok r →
      ((after.head? = some ' ' ∨ ∀ c ∈ after, isspace c = true) →
        r.result_string = [] ∧ r.result = 0)
      ∧ (∀ ws tok tail, after = ws ++ tok ++ tail → ws.head? ≠ some ' ' →
          (∀ c ∈ ws, isspace c = true) → tok ≠ [] → (∀ c ∈ tok, isspace c = false) →
          (∀ c, tail.head? = some c → isspace c = true) →
          r.result_string = tok
          ∧ (∀ n : Int, int_min ≤ n → n ≤ int_max → tok = put_int n → r.result = n)
          ∧ (∀ m : Nat, (m : Int) ≤ int_max → tok = '+' :: Nat.toDigits 10 m →
              r.result = (m : Int))
          ∧ ((∀ c, (istream.after_sign tok).head? = some c → c.isDigit = false) →
              r.result = 0)))
    ∧ ('(' ∉ pre ++ '=' :: after → ∃ r, (a.get_result uninit).1 = .ok r) := by
  have hcin : a.cin = istream.of_string (put_int 200 ++ ' ' ::
      ((pre ++ '=' :: after) ++ '\n' :: rest)) := by
    rw [ha, show put_int 200 = ['2', '0', '0'] from by decide]
    simp
  have h := get_result_status_line uninit a 200 _ rest (by decide) (by decide) hnl hcin
  rw [if_pos rfl] at h
  have hspec := get_result_200_token_spec
    { code := 200, message := pre ++ '=' :: after, result := uninit, result_string := [],
      data := [], endpos := uninit } pre after rfl hpre hlen rfl
  constructor
  · intro r hr
    rw [h] at hr
    have hf := get_result_200_token_fields _ r hr
    refine ⟨fun hsp => ?_, fun ws tok tail hafter hws1 hws htok hns htail => ?_⟩
    · rw [hf.1, hf.2]
      exact hspec.1 hsp
    · obtain ⟨h1, h2⟩ := hspec.2 ws tok tail hafter hws1 hws htok hns htail
      rw [hf.1, hf.2, h1, h2]
      refine ⟨rfl, fun n hlo hhi hn => ?_, fun m hhi hm => ?_, fun hd => ?_⟩
      · have he := extract_int_put_int n [] int_min int_max uninit hlo hhi
          (by intro x hx; cases hx)
        rw [List.append_nil] at he
        rw [hn]
        simp only [istream.of_string, he, istream.fail, Bool.false_eq_true, if_false]
      · obtain ⟨d1, d2, d3⟩ := toDigits_spec m
        have he := extract_int_plus_digits (Nat.toDigits 10 m) [] int_min int_max uninit d1 d2
          (by intro x hx; cases hx)
          (by rw [d3]; exact le_trans (by decide) (Int.ofNat_nonneg m)) (by rw [d3]; exact hhi)
        rw [List.append_nil, d3] at he
        rw [hm]
        simp only [istream.of_string, he, istream.fail, Bool.false_eq_true, if_false]
      · rw [extract_int_no_digits tok int_min int_max uninit htok hns hd]
        rfl
  · intro hp
    rw [h]
    exact get_result_200_of_no_paren _ hp

/-- C37 at the reply `200 result=53 endpos=12345`. -/
theorem get_result_token_witness :
    ∃ r, ((agi.on_input "200 result=53 endpos=12345\n".toList).get_result 0).1 = .ok r
      ∧ r.result_string = "53".toList ∧ r.result = 53 := by
  have h := get_result_token 0 (agi.on_input "200 result=53 endpos=12345\n".toList)
    "result".toList "53 endpos=12345".toList [] (by decide) (by decide) (by decide) (by decide)
  obtain ⟨r, hr⟩ := h.2 (by decide)
  have h2 := (h.1 r hr).2 [] "53".toList " endpos=12345".toList (by decide) (by decide)
    (by simp) (by decide) (by decide) (by decide)
  exact ⟨r, hr, h2.1, h2.2.1 53 (by decide) (by decide) (by decide)⟩

end astxx
